import Mathlib

/-!
# QUESO multi-level sampling driver: level 0 and steps 2, 3, 4 and 8 of a level

Shallow embedding of `uqMLSamplingClass::generateSequence_Level0`,
`generateSequence_Step2`, `generateSequence_Step3`, `generateSequence_Step4`
and `generateSequence_Step8` (`libs/stats/inc/uqMLSampling2.h`), and of the
methods `actualValue`, `lnValue` and `computeLogOfNormalizationFactor` of
`ConcatenatedJointPdf` (`src/stats/src/ConcatenatedJointPdf.C`).

Conventions of the embedding.

* `double` quantities live in a linearly ordered field `K`; the theorems take
  `K = ℝ` (exact arithmetic). The C library functions `exp` and `log` are
  parameters `expF logF : K → K` of the definitions, instantiated with
  `Real.exp` and `Real.log` in the theorems.
* Where the code converts a `double` to an integer (line 767, the pilot
  length of step 8) a rounding error changes the integer, so that expression
  is evaluated in IEEE 754 binary64: every operation is rounded to nearest,
  ties to even (`roundToDouble`), on the `double` values that the options
  object stores for the configured numbers.
* A sequence that is partitioned among the ranks of the inter-group
  communicator (`inter0Comm`) is a list with one entry per rank, in rank
  order: entry `r` is the local part held by rank `r`.
* `MPI_Allreduce (MPI_SUM)` gives every rank the sum of the contributions of
  all ranks. All ranks run the same code on the same unified values, so the
  checks `uqMiscCheckForSameValueInAllNodes` always pass and are not modelled.
* A `do ... while` loop is run with a bound on the number of attempts; the
  outcome `Outcome.running` means the loop has not ended within the bound.
* A division by zero or `log 0` arises in step 3 only for a globally empty
  sequence: the effective-size ratio is then `INFINITY` and the iteration ends
  on the fatal test of lines 427-430 (`effectiveSizeRatioDouble`). The
  theorems that depend on those quotients assume a globally non-empty
  sequence.
* A parameter vector of dimension `d` is a function `Fin d → K`, a matrix a
  function `Fin d → Fin d → K`.
* `unsigned int` values are natural numbers below `2^32`, with wrap-around
  arithmetic where the code computes with them.
* The rejection rate of a pilot of step 8 (line 931) is the exact quotient of
  the two `unsigned int` values in the loop model, which is the code's value
  up to rounding when the divisor `tmpUnifiedNumSamples` is not `0`. When the
  divisor has wrapped to `0` the code gets `NaN` or `INFINITY`;
  `step8RejectionRateDouble`, `step8TestResultDouble` and
  `step8RangeFlagDouble` evaluate lines 931, 934-937 and 650-661 on such a
  value.
* MPI calls return `MPI_SUCCESS`.
* Routines declared outside `uqMLSampling2.h` (the pilot chain generation of
  step 8, the index sampling, the prior realizer, the likelihood) are
  parameters of the definitions; in step 8 they are the fields of `Step8Env`.
* Step 8 changes the options object in place and a fatal test aborts the
  run, so a fatal outcome of step 8 carries the contents of the options
  object at that point.
* A vector handed to a joint density is the list of its components.
* The special values `NaN` and `±INFINITY` of a `double` (`DoubleValue`)
  appear where the code tests for them (the domain volume of a joint density)
  and where a division by zero produces them: the effective-size ratio of
  step 3, the pilot length and the rejection rate of step 8. A comparison
  with `NaN` is false.
-/

namespace Queso

/-- Fatal exits (`UQ_FATAL_TEST_MACRO`) of the modelled routines. -/
inductive FatalError where
  | effectiveSizeRatioAboveOne
  | prevChainAndLikelihoodSizesDiffer
  | prevChainAndTargetSizesDiffer
  | rejectionRateInsideRange
  | inconsistentRangeFlags
  | wrongOutputFromSampleIndexes
  | pilotChainGeneration
  | nullInitialPosition
  | firstChainHasInvalidSize
  | incompatibleDimensions
  | invalidInput
  | incompleteCode
  deriving DecidableEq

/-- Result of running a routine: it returned a value, it aborted on a fatal
test, or it has not ended: its loop is still running after the allowed number
of attempts, or it waits in a blocking receive for a message never sent. -/
inductive Outcome (α : Type) where
  | returned : α → Outcome α
  | fatal : FatalError → Outcome α
  | running : Outcome α

/-- Fields of `uqMLSamplingLevelOptionsClass` that `uqMLSampling2.h` reads or
writes (the class itself is declared in another file). -/
structure uqMLSamplingLevelOptionsClass (K : Type) where
  m_minEffectiveSizeRatio : K
  m_maxEffectiveSizeRatio : K
  m_minRejectionRate : K
  m_maxRejectionRate : K
  m_covRejectionRate : K
  m_totallyMute : Bool
  m_rawChainSize : Nat
  m_rawChainComputeStats : Bool
  m_filteredChainGenerate : Bool
  m_drMaxNumExtraStages : Nat
  m_amAdaptInterval : Nat

/-- Modelled from the spec: `unifiedSequenceSize` of the sequence classes is
declared outside this file; it is the global size `N` of a partitioned
sequence, the sum of the local sizes over the inter-group ranks. -/
def unifiedSequenceSize {α : Type} (seq : List (List α)) : Nat :=
  (seq.map List.length).foldl (fun acc n => acc + n) 0

section Reductions

variable {K : Type} [Field K]

/-- Accumulation `acc += x[i]` over a local sequence, starting from `0.`. -/
def subSum (xs : List K) : K :=
  xs.foldl (fun acc x => acc + x) 0

/-- `MPI_Allreduce` with `MPI_SUM` over the inter-group: the sum of the local
contributions, one per rank. -/
def mpiAllreduceSum (contributions : List K) : K :=
  contributions.foldl (fun acc x => acc + x) 0

end Reductions

section Doubles

/-- A `double`: a number, or one of the special values `NaN`, `-INFINITY`,
`INFINITY`. -/
inductive DoubleValue (K : Type) where
  | nan : DoubleValue K
  | negInfinity : DoubleValue K
  | posInfinity : DoubleValue K
  | finite : K → DoubleValue K

variable {K : Type} [LinearOrderedField K]

/-- The comparison `x > y` of a `double` `x` with a number `y`: a comparison
with `NaN` is false, `INFINITY` is above every number and `-INFINITY` below. -/
def doubleGt : DoubleValue K → K → Bool
  | DoubleValue.nan, _ => false
  | DoubleValue.negInfinity, _ => false
  | DoubleValue.posInfinity, _ => true
  | DoubleValue.finite x, y => decide (x > y)

/-- The comparison `x < y` of a `double` `x` with a number `y`. -/
def doubleLt : DoubleValue K → K → Bool
  | DoubleValue.nan, _ => false
  | DoubleValue.negInfinity, _ => true
  | DoubleValue.posInfinity, _ => false
  | DoubleValue.finite x, y => decide (x < y)

end Doubles

section DoubleArithmetic

variable {K : Type} [LinearOrderedField K] [FloorRing K]

/-- Rounding of a number to the nearest integer, a tie going to the even
one. -/
def roundHalfEven (x : K) : Int :=
  if x - (⌊x⌋ : K) < 1 / 2 then ⌊x⌋
  else if x - (⌊x⌋ : K) > 1 / 2 then ⌊x⌋ + 1
  else if ⌊x⌋ % 2 = 0 then ⌊x⌋
  else ⌊x⌋ + 1

/-- The `double` (IEEE 754 binary64) to which the exact result `x` of an
arithmetic operation is rounded, to nearest with ties to even: 53 significant
bits, the unit in the last place not below `2^-1074`, and `±INFINITY` when the
rounded magnitude reaches `2^1024`. It is also the `double` that stores a
configured number `x`. A zero result is taken as `+0.`. -/
def roundToDouble (x : K) : DoubleValue K :=
  if x = 0 then DoubleValue.finite 0
  else
    let e : Int := max (Int.log 2 |x|) (-1022)
    let ulp : K := 2 ^ (e - 52)
    let y : K := (roundHalfEven (|x| / ulp) : K) * ulp
    if y ≥ 2 ^ (1024 : Int) then
      (if x > 0 then DoubleValue.posInfinity else DoubleValue.negInfinity)
    else DoubleValue.finite (if x > 0 then y else -y)

/-- The sum `a + b` in `double` arithmetic. -/
def doubleAdd : DoubleValue K → DoubleValue K → DoubleValue K
  | DoubleValue.nan, _ => DoubleValue.nan
  | _, DoubleValue.nan => DoubleValue.nan
  | DoubleValue.posInfinity, DoubleValue.negInfinity => DoubleValue.nan
  | DoubleValue.negInfinity, DoubleValue.posInfinity => DoubleValue.nan
  | DoubleValue.posInfinity, _ => DoubleValue.posInfinity
  | DoubleValue.negInfinity, _ => DoubleValue.negInfinity
  | DoubleValue.finite _, DoubleValue.posInfinity => DoubleValue.posInfinity
  | DoubleValue.finite _, DoubleValue.negInfinity => DoubleValue.negInfinity
  | DoubleValue.finite x, DoubleValue.finite y => roundToDouble (x + y)

/-- The difference `a - b` in `double` arithmetic. -/
def doubleSub : DoubleValue K → DoubleValue K → DoubleValue K
  | DoubleValue.nan, _ => DoubleValue.nan
  | _, DoubleValue.nan => DoubleValue.nan
  | DoubleValue.posInfinity, DoubleValue.posInfinity => DoubleValue.nan
  | DoubleValue.negInfinity, DoubleValue.negInfinity => DoubleValue.nan
  | DoubleValue.posInfinity, _ => DoubleValue.posInfinity
  | DoubleValue.negInfinity, _ => DoubleValue.negInfinity
  | DoubleValue.finite _, DoubleValue.posInfinity => DoubleValue.negInfinity
  | DoubleValue.finite _, DoubleValue.negInfinity => DoubleValue.posInfinity
  | DoubleValue.finite x, DoubleValue.finite y => roundToDouble (x - y)

/-- The product `a * b` of a number `a` and a `double` `b` in `double`
arithmetic. -/
def doubleMul (a : K) : DoubleValue K → DoubleValue K
  | DoubleValue.nan => DoubleValue.nan
  | DoubleValue.posInfinity =>
    if a = 0 then DoubleValue.nan
    else if a > 0 then DoubleValue.posInfinity else DoubleValue.negInfinity
  | DoubleValue.negInfinity =>
    if a = 0 then DoubleValue.nan
    else if a > 0 then DoubleValue.negInfinity else DoubleValue.posInfinity
  | DoubleValue.finite y => roundToDouble (a * y)

/-- The quotient `a / b` in `double` arithmetic, a zero divisor being `+0.`:
`0./0.` is `NaN` and `x/0.` is `±INFINITY` with the sign of `x`. -/
def doubleDiv : DoubleValue K → DoubleValue K → DoubleValue K
  | DoubleValue.nan, _ => DoubleValue.nan
  | _, DoubleValue.nan => DoubleValue.nan
  | DoubleValue.posInfinity, DoubleValue.finite y =>
    if y ≥ 0 then DoubleValue.posInfinity else DoubleValue.negInfinity
  | DoubleValue.negInfinity, DoubleValue.finite y =>
    if y ≥ 0 then DoubleValue.negInfinity else DoubleValue.posInfinity
  | DoubleValue.posInfinity, _ => DoubleValue.nan
  | DoubleValue.negInfinity, _ => DoubleValue.nan
  | DoubleValue.finite _, DoubleValue.posInfinity => DoubleValue.finite 0
  | DoubleValue.finite _, DoubleValue.negInfinity => DoubleValue.finite 0
  | DoubleValue.finite x, DoubleValue.finite y =>
    if y = 0 then
      (if x = 0 then DoubleValue.nan
        else if x > 0 then DoubleValue.posInfinity else DoubleValue.negInfinity)
    else roundToDouble (x / y)

end DoubleArithmetic

section Step3

variable {K : Type} [LinearOrderedField K]

/-- Modelled from the spec: `uqScalarSequenceClass::unifiedMinMax` is declared
outside this file; its output `unifiedOmegaLnMax` is the maximum of the
sequence over all positions of all inter-group ranks ("globally reduce max of
ω"). On a globally empty sequence the variable keeps its initial value `0.`. -/
def unifiedMax (seq : List (List K)) : K :=
  match seq.flatten with
  | [] => 0
  | x :: xs => xs.foldl max x

/-- Lines 354-358: the factor `auxExponent` applied to the previous
log-likelihoods for the candidate `nowExponent`. -/
def step3AuxExponent (prevExponent nowExponent : K) : K :=
  if prevExponent ≠ 0 then nowExponent / prevExponent - 1 else nowExponent

/-- Lines 362-364: `omegaLnDiffSequence` before the shift by the maximum. -/
def omegaLnDiffSequence (prevExponent : K) (prevLogLikelihoodValues : List (List K))
    (nowExponent : K) : List (List K) :=
  prevLogLikelihoodValues.map
    (fun sub => sub.map (fun l => l * step3AuxExponent prevExponent nowExponent))

/-- Lines 366-375: `weightSequence` before normalisation, `exp` of the
log-weights shifted by their unified maximum. -/
def weightRatioSequence (expF : K → K) (prevExponent : K)
    (prevLogLikelihoodValues : List (List K)) (nowExponent : K) : List (List K) :=
  (omegaLnDiffSequence prevExponent prevLogLikelihoodValues nowExponent).map
    (fun sub => sub.map (fun o => expF
      (o - unifiedMax (omegaLnDiffSequence prevExponent prevLogLikelihoodValues nowExponent))))

/-- Lines 376-378: `unifiedWeightRatioSum`, the local sums `subWeightRatioSum`
reduced over the inter-group. -/
def unifiedWeightRatioSum (expF : K → K) (prevExponent : K)
    (prevLogLikelihoodValues : List (List K)) (nowExponent : K) : K :=
  mpiAllreduceSum
    ((weightRatioSequence expF prevExponent prevLogLikelihoodValues nowExponent).map subSum)

/-- What one pass of the loop body of step 3 computes for the candidate
exponent, lines 354-426. -/
structure Step3Candidate (K : Type) where
  weightSequence : List (List K)
  nowUnifiedEvidenceLnFactor : K
  nowEffectiveSizeRatio : K

/-- Lines 386-426: the effective-size ratio of a normalised weight sequence
whose unified size is `unifiedSize`, as the `double` that the code computes:
the local sums of squares are reduced over the inter-group, the sum
`effectiveSampleSize` is inverted and divided by the size. `1./0.` is
`INFINITY`, and so is the quotient of `INFINITY` or of a positive number by
`0.`; a sum of squares is not negative. This happens on a globally empty
sequence. -/
def effectiveSizeRatioDouble (weightSequence : List (List K)) (unifiedSize : Nat) :
    DoubleValue K :=
  let effectiveSampleSize :=
    mpiAllreduceSum (weightSequence.map (fun sub => subSum (sub.map (fun w => w * w))))
  if effectiveSampleSize = 0 ∨ unifiedSize = 0 then DoubleValue.posInfinity
  else DoubleValue.finite (1 / effectiveSampleSize / (unifiedSize : K))

/-- The number that `nowEffectiveSizeRatio` holds when the ratio of lines
386-426 is a number; `0` stands for `INFINITY`, with which the iteration ends
on the fatal test before the variable is read again. -/
def effectiveSizeRatio (weightSequence : List (List K)) (unifiedSize : Nat) : K :=
  match effectiveSizeRatioDouble weightSequence unifiedSize with
  | DoubleValue.finite ratio => ratio
  | _ => 0

/-- Lines 354-426 of `generateSequence_Step3` for the candidate `nowExponent`:
the evidence factor, the normalised weights and the effective-size ratio.
`weightSequence` has on every rank the local size of
`prevLogLikelihoodValues` (parallel sequences), so its unified size is that of
`prevLogLikelihoodValues`. -/
def step3Candidate (expF logF : K → K) (prevExponent : K)
    (prevLogLikelihoodValues : List (List K)) (nowExponent : K) : Step3Candidate K :=
  let unifiedSize := unifiedSequenceSize prevLogLikelihoodValues
  let nowUnifiedEvidenceLnFactor :=
    logF (unifiedWeightRatioSum expF prevExponent prevLogLikelihoodValues nowExponent)
      + unifiedMax (omegaLnDiffSequence prevExponent prevLogLikelihoodValues nowExponent)
      - logF (unifiedSize : K)
  let weightSequence :=
    (weightRatioSequence expF prevExponent prevLogLikelihoodValues nowExponent).map
      (fun sub => sub.map (fun w =>
        w / unifiedWeightRatioSum expF prevExponent prevLogLikelihoodValues nowExponent))
  ⟨weightSequence, nowUnifiedEvidenceLnFactor, effectiveSizeRatio weightSequence unifiedSize⟩

/-- Local variables of `generateSequence_Step3` that live across loop
iterations. `nowAttempt` is an attempt counter that the code only compares
with `0`; it is a natural number here. -/
structure Step3State (K : Type) where
  exponents0 : K
  exponents1 : K
  nowExponent : K
  nowEffectiveSizeRatio : K
  nowAttempt : Nat
  testResult : Bool
  weightSequence : List (List K)
  nowUnifiedEvidenceLnFactor : K

/-- State on entry to the `do` loop, lines 322-334. The contents of
`weightSequence` on entry are never read; the empty partition stands for
them. -/
def step3Init (prevExponent : K) : Step3State K :=
  ⟨prevExponent, 1, 1, 0, 0, false, [], 0⟩

/-- `meanEffectiveSizeRatio`, line 331. -/
def meanEffectiveSizeRatio (currOptions : uqMLSamplingLevelOptionsClass K) : K :=
  (1 / 2) * (currOptions.m_minEffectiveSizeRatio + currOptions.m_maxEffectiveSizeRatio)

/-- Lines 345-353: the bracket and the candidate with which an iteration of
the loop works. -/
def step3Bracket (currOptions : uqMLSamplingLevelOptionsClass K) (s : Step3State K) :
    K × K × K :=
  if s.nowAttempt > 0 then
    let e0 := if s.nowEffectiveSizeRatio > meanEffectiveSizeRatio currOptions
      then s.nowExponent else s.exponents0
    let e1 := if s.nowEffectiveSizeRatio > meanEffectiveSizeRatio currOptions
      then s.exponents1 else s.nowExponent
    (e0, e1, (1 / 2) * (e0 + e1))
  else (s.exponents0, s.exponents1, s.nowExponent)

/-- The values of the local variables at the end of one iteration of the
`do` loop of `generateSequence_Step3`, lines 335-474, when the iteration
starts in state `s`. -/
def step3NextState (expF logF : K → K) (currOptions : uqMLSamplingLevelOptionsClass K)
    (prevExponent : K) (prevLogLikelihoodValues : List (List K)) (s : Step3State K) :
    Step3State K :=
  let b := step3Bracket currOptions s
  let nowExponent := b.2.2
  let c := step3Candidate expF logF prevExponent prevLogLikelihoodValues nowExponent
  let aux2 : Bool := decide (nowExponent = 1) &&
    decide (c.nowEffectiveSizeRatio > meanEffectiveSizeRatio currOptions)
  let aux3 : Bool := decide (c.nowEffectiveSizeRatio ≥ currOptions.m_minEffectiveSizeRatio) &&
    decide (c.nowEffectiveSizeRatio ≤ currOptions.m_maxEffectiveSizeRatio)
  ⟨b.1, b.2.1, nowExponent, c.nowEffectiveSizeRatio, s.nowAttempt + 1, aux2 || aux3,
    c.weightSequence, c.nowUnifiedEvidenceLnFactor⟩

/-- One iteration of the `do` loop of `generateSequence_Step3`: the fatal test
of lines 427-430 on the ratio just computed, `INFINITY` included, else the new
state. -/
def step3Attempt (expF logF : K → K) (currOptions : uqMLSamplingLevelOptionsClass K)
    (prevExponent : K) (prevLogLikelihoodValues : List (List K)) (s : Step3State K) :
    Outcome (Step3State K) :=
  if doubleGt
      (effectiveSizeRatioDouble
        (step3NextState expF logF currOptions prevExponent prevLogLikelihoodValues
          s).weightSequence
        (unifiedSequenceSize prevLogLikelihoodValues))
      (1 + 1 / 100000000) = true then
    Outcome.fatal FatalError.effectiveSizeRatioAboveOne
  else
    Outcome.returned (step3NextState expF logF currOptions prevExponent prevLogLikelihoodValues s)

/-- The `do ... while (testResult == false)` loop, run for at most `fuel`
attempts from state `s`. -/
def step3Loop (expF logF : K → K) (currOptions : uqMLSamplingLevelOptionsClass K)
    (prevExponent : K) (prevLogLikelihoodValues : List (List K)) :
    Nat → Step3State K → Outcome (Step3State K)
  | 0, _ => Outcome.running
  | fuel + 1, s =>
    match step3Attempt expF logF currOptions prevExponent prevLogLikelihoodValues s with
    | Outcome.returned s1 =>
      if s1.testResult = false then
        step3Loop expF logF currOptions prevExponent prevLogLikelihoodValues fuel s1
      else Outcome.returned s1
    | Outcome.fatal e => Outcome.fatal e
    | Outcome.running => Outcome.running

/-- The states at the end of the successive iterations of the loop started in
`s`, for at most `fuel` attempts: the list ends with the first accepted
attempt, or where the loop aborts. -/
def step3Trace (expF logF : K → K) (currOptions : uqMLSamplingLevelOptionsClass K)
    (prevExponent : K) (prevLogLikelihoodValues : List (List K)) :
    Nat → Step3State K → List (Step3State K)
  | 0, _ => []
  | fuel + 1, s =>
    match step3Attempt expF logF currOptions prevExponent prevLogLikelihoodValues s with
    | Outcome.returned s1 =>
      s1 :: (if s1.testResult = false then
        step3Trace expF logF currOptions prevExponent prevLogLikelihoodValues fuel s1
      else [])
    | Outcome.fatal _ => []
    | Outcome.running => []

/-- Outputs of `generateSequence_Step3`: `currExponent`, `weightSequence`, the
member `m_logEvidenceFactors`, and (for reference) the number of attempts made
and the last effective-size ratio. -/
structure Step3Result (K : Type) where
  currExponent : K
  weightSequence : List (List K)
  m_logEvidenceFactors : List K
  nowAttempt : Nat
  nowEffectiveSizeRatio : K

/-- `uqMLSamplingClass::generateSequence_Step3`, with at most `fuel` loop
attempts. -/
def generateSequence_Step3 (expF logF : K → K) (fuel : Nat)
    (currOptions : uqMLSamplingLevelOptionsClass K)
    (prevLogLikelihoodValues : List (List K)) (prevExponent : K)
    (m_logEvidenceFactors : List K) : Outcome (Step3Result K) :=
  match step3Loop expF logF currOptions prevExponent prevLogLikelihoodValues fuel
      (step3Init prevExponent) with
  | Outcome.returned s =>
    Outcome.returned
      ⟨s.nowExponent, s.weightSequence, m_logEvidenceFactors ++ [s.nowUnifiedEvidenceLnFactor],
        s.nowAttempt, s.nowEffectiveSizeRatio⟩
  | Outcome.fatal e => Outcome.fatal e
  | Outcome.running => Outcome.running

end Step3

/-- Following the spec, phase 3: the per-sample log-weight
`ω = ln L_prev · ((β / β_prev) − 1)` when `β_prev > 0`, else `ω = β · ln L_prev`. -/
def specLogWeight {K : Type} [LinearOrderedField K] (prevExponent beta lnLPrev : K) : K :=
  if prevExponent > 0 then lnLPrev * (beta / prevExponent - 1) else beta * lnLPrev

/-- Options of the examples: effective-size window `[1/2, 9/10]`, rejection
window `[1/4, 9/20]`. -/
def exampleOptions (K : Type) [LinearOrderedField K] : uqMLSamplingLevelOptionsClass K :=
  ⟨1 / 2, 9 / 10, 1 / 4, 9 / 20, 1 / 4, false, 2, false, false, 1, 100⟩

section Step4

variable {K : Type} [Field K] {d : Nat}

/-- Modelled from the spec: `matrixProduct(v1, v2)` of the matrix class is
declared outside this file; it is the outer product `v1 v2ᵀ`, as in
`(x − μ)(x − μ)ᵀ`. -/
def matrixProduct (v1 v2 : Fin d → K) : Fin d → Fin d → K :=
  fun i j => v1 i * v2 j

/-- Lines 525-530: `weightedMeanVec`, accumulated over the local positions of
the rank. `prevChain` and `weightSequence` are parallel sequences. -/
def weightedMeanVec (prevChain : List (Fin d → K)) (weightSequence : List K) : Fin d → K :=
  (List.zip weightSequence prevChain).foldl
    (fun acc p => fun k => acc k + p.1 * p.2 k) (fun _ => 0)

/-- Lines 532-538: `subCovMatrix`, accumulated over the local positions of the
rank around the local `weightedMeanVec`. -/
def subCovMatrix (prevChain : List (Fin d → K)) (weightSequence : List K) :
    Fin d → Fin d → K :=
  (List.zip weightSequence prevChain).foldl
    (fun acc p => fun i j => acc i j + p.1 *
      matrixProduct (fun k => p.2 k - weightedMeanVec prevChain weightSequence k)
        (fun k => p.2 k - weightedMeanVec prevChain weightSequence k) i j)
    (fun _ _ => 0)

/-- `uqMLSamplingClass::generateSequence_Step4` on one rank: the matrix it
writes to `unifiedCovMatrix`. `inter0` lists, in rank order, the local
`(prevChain, weightSequence)` of the inter-group ranks; `inter0Rank` is the
rank of the caller in the inter-group (negative outside it), and `prevChain`,
`weightSequence` are its own local sequences. -/
def generateSequence_Step4 (inter0 : List (List (Fin d → K) × List K)) (inter0Rank : Int)
    (prevChain : List (Fin d → K)) (weightSequence : List K) : Fin d → Fin d → K :=
  fun i j =>
    let localValue := subCovMatrix prevChain weightSequence i j
    if inter0Rank ≥ 0 then
      mpiAllreduceSum (inter0.map (fun r => subCovMatrix r.1 r.2 i j))
    else localValue

/-- Following the spec, phase 4: the weighted mean `μ = Σ_i w_i · x_i` in the
local partition of a rank. -/
def specLocalWeightedMean (prevChain : List (Fin d → K)) (weightSequence : List K) :
    Fin d → K :=
  fun k => (List.zipWith (fun w x => w * x k) weightSequence prevChain).sum

/-- Following the spec, phase 4: the weighted covariance
`Σ_i w_i · (x_i − μ)(x_i − μ)ᵀ` in the local partition of a rank, around the
local weighted mean. -/
def specLocalWeightedCovariance (prevChain : List (Fin d → K)) (weightSequence : List K) :
    Fin d → Fin d → K :=
  fun i j => (List.zipWith
    (fun w x => w * ((x i - specLocalWeightedMean prevChain weightSequence i)
      * (x j - specLocalWeightedMean prevChain weightSequence j)))
    weightSequence prevChain).sum

/-- Example for step 4, dimension one, two inter-group ranks: rank 0 holds the
position `0`, rank 1 the position `2`, each with weight `1/2`. -/
def step4Example (K : Type) [Field K] : List (List (Fin 1 → K) × List K) :=
  [([fun _ => 0], [1 / 2]), ([fun _ => 2], [1 / 2])]

/-- Following the spec, section 3: the weighted mean `μ = Σ_i w_i · x_i` of the
whole previous chain, the sum running over all global positions. -/
def specWeightedMean (inter0 : List (List (Fin d → K) × List K)) : Fin d → K :=
  fun k => ((inter0.map (fun r => List.zipWith (fun w x => w * x k) r.2 r.1)).flatten).sum

/-- Following the spec, section 3: the weighted empirical covariance
`Σ_i w_i · (x_i − μ)(x_i − μ)ᵀ` of the whole previous chain under the weights,
both sums running over all global positions. -/
def specWeightedCovariance (inter0 : List (List (Fin d → K) × List K)) :
    Fin d → Fin d → K :=
  fun i j => ((inter0.map (fun r => List.zipWith
    (fun w x => w * ((x i - specWeightedMean inter0 i) * (x j - specWeightedMean inter0 j)))
    r.2 r.1)).flatten).sum

end Step4

section Step2

/-- Addition of two `unsigned int` values. -/
def uintAdd (a b : Nat) : Nat := (a + b) % 2 ^ 32

/-- Subtraction of two `unsigned int` values. -/
def uintSub (a b : Nat) : Nat := (a + (2 ^ 32 - b % 2 ^ 32)) % 2 ^ 32

/-- Modelled from the spec: `subSequenceSize` of the sequence classes is
declared outside this file; it is the local size of the sequence, returned as
an `unsigned int`. -/
def subSequenceSize {α : Type} (seq : List α) : Nat := seq.length % 2 ^ 32

/-- The six sequences that `generateSequence_Step2` receives on a rank. -/
structure Step2Sequences (V K : Type) where
  currChain : List V
  currLogLikelihoodValues : List K
  currLogTargetValues : List K
  prevChain : List V
  prevLogLikelihoodValues : List K
  prevLogTargetValues : List K

/-- What `generateSequence_Step2` leaves on a rank: the sequences, the two
index outputs, and the value it sends to the next rank, if it sends one. -/
structure Step2Result (V K : Type) where
  sequences : Step2Sequences V K
  indexOfFirstWeight : Nat
  indexOfLastWeight : Nat
  sent : Option Nat

/-- `uqMLSamplingClass::generateSequence_Step2` on the rank `r` of an
inter-group of `numProc` ranks. `received` is the value that rank `r - 1` has
sent to this rank, if any: `MPI_Recv` blocks until it is there. -/
def generateSequence_Step2 {V K : Type} (numProc r : Nat) (received : Option Nat)
    (s : Step2Sequences V K) : Outcome (Step2Result V K) :=
  let prevChain := s.currChain
  let prevLogLikelihoodValues := s.currLogLikelihoodValues
  let prevLogTargetValues := s.currLogTargetValues
  let rolled : Step2Sequences V K :=
    ⟨[], [], [], prevChain, prevLogLikelihoodValues, prevLogTargetValues⟩
  if subSequenceSize prevChain ≠ subSequenceSize prevLogLikelihoodValues then
    Outcome.fatal FatalError.prevChainAndLikelihoodSizesDiffer
  else if subSequenceSize prevChain ≠ subSequenceSize prevLogTargetValues then
    Outcome.fatal FatalError.prevChainAndTargetSizesDiffer
  else
    let indexOfFirstWeight0 := 0
    let indexOfLastWeight0 := uintSub (uintAdd indexOfFirstWeight0 (subSequenceSize prevChain)) 1
    if r > 0 then
      match received with
      | none => Outcome.running
      | some auxUint =>
        let indexOfFirstWeight := auxUint
        let indexOfLastWeight := uintSub (uintAdd indexOfFirstWeight (subSequenceSize prevChain)) 1
        Outcome.returned ⟨rolled, indexOfFirstWeight, indexOfLastWeight,
          if r + 1 < numProc then some (uintAdd indexOfLastWeight 1) else none⟩
    else
      Outcome.returned ⟨rolled, indexOfFirstWeight0, indexOfLastWeight0,
        if r + 1 < numProc then some (uintAdd indexOfLastWeight0 1) else none⟩

/-- The ranks `r, r + 1, ...` of the inter-group run `generateSequence_Step2`
between the two barriers; each rank hands the value it sends to the next one.
`ranks` lists the sequences of those ranks in rank order. -/
def step2Ranks {V K : Type} (numProc : Nat) :
    Nat → Option Nat → List (Step2Sequences V K) → Outcome (List (Step2Result V K))
  | _, _, [] => Outcome.returned []
  | r, received, s :: rest =>
    match generateSequence_Step2 numProc r received s with
    | Outcome.returned res =>
      match step2Ranks numProc (r + 1) res.sent rest with
      | Outcome.returned results => Outcome.returned (res :: results)
      | Outcome.fatal e => Outcome.fatal e
      | Outcome.running => Outcome.running
    | Outcome.fatal e => Outcome.fatal e
    | Outcome.running => Outcome.running

/-- All ranks of the inter-group run `generateSequence_Step2`. -/
def step2InterGroup {V K : Type} (ranks : List (Step2Sequences V K)) :
    Outcome (List (Step2Result V K)) :=
  step2Ranks ranks.length 0 none ranks

/-- Example for step 2: three inter-group ranks whose current chains have 3,
0 and 2 positions. -/
def step2Example : List (Step2Sequences Nat Nat) :=
  [⟨[7, 8, 9], [1, 2, 3], [4, 5, 6], [], [], []⟩, ⟨[], [], [], [], [], []⟩,
    ⟨[5, 6], [1, 2], [3, 4], [], [], []⟩]

end Step2

section Step8

variable {K : Type} [LinearOrderedField K] [FloorRing K] {d : Nat}

/-- Multiplication of two `unsigned int` values. -/
def uintMul (a b : Nat) : Nat := (a * b) % 2 ^ 32

/-- The conversion `(unsigned int) x` of a `double`: truncation toward zero
when the truncated value is an `unsigned int`. Outside that range the
conversion is undefined in C++; `undefinedValue` stands for the `unsigned int`
that the platform yields. -/
def doubleToUint (undefinedValue : Nat) (x : K) : Nat :=
  if -1 < x ∧ x < 2 ^ 32 then ⌊x⌋₊ else undefinedValue % 2 ^ 32

/-- The conversion `(unsigned int) x` of a `double` that may be a special
value: for `NaN` and `±INFINITY` the conversion is undefined as well. -/
def doubleValueToUint (undefinedValue : Nat) : DoubleValue K → Nat
  | DoubleValue.finite x => doubleToUint undefinedValue x
  | _ => undefinedValue % 2 ^ 32

/-- `scalar *= ` on a matrix: `m *= a` multiplies every entry by `a`. -/
def matrixScale (m : Fin d → Fin d → K) (a : K) : Fin d → Fin d → K :=
  fun i j => m i j * a

/-- What a pilot chain generation (`generateBalLinkedChains` or
`generateUnbLinkedChains`, both declared outside this file) does. Of the
options it receives it changes `m_rawChainSize` only (comments at the calls,
lines 870 and 881). It either completes, giving the rejection count
`nowRejections` of every inter-group rank in rank order, or ends on a fatal
test, which aborts the run where it stands. -/
inductive PilotGeneration where
  | completed (rawChainSize : Nat) (nowRejections : List Nat) : PilotGeneration
  | aborted (rawChainSize : Nat) : PilotGeneration

/-- What surrounds a call of `generateSequence_Step8` on a rank. The attempt
number given to a collaborator stands for the state of the random number
generator and of the inputs that the embedding leaves out (`prevChain`, the
weights, `currRv`, the index bounds). -/
structure Step8Env (K : Type) (d : Nat) where
  /-- `m_env.inter0Rank()`, negative on a rank outside the inter-group. -/
  inter0Rank : Int
  /-- `m_env.inter0Comm().NumProc()`. -/
  numProc : Nat
  /-- What an undefined conversion to `unsigned int` yields. -/
  undefinedConversion : Nat
  /-- `weightSequence.unifiedSequenceSize(...)`. -/
  weightUnifiedSize : Nat
  /-- Size of `nowUnifiedIndexCountersAtProc0Only` after `sampleIndexesAtProc0`. -/
  indexCountersSize : Nat → Nat
  /-- The pilot chain generation of an attempt, for the covariance matrix and
  the options it receives. -/
  generateLinkedChains :
    Nat → (Fin d → Fin d → K) → uqMLSamplingLevelOptionsClass K → PilotGeneration
  /-- Whether some `balLinkedChains[i].initialPosition` is `NULL` after the
  generation. -/
  nullInitialPosition : Nat → Bool
  /-- On a rank outside the inter-group: the `testResult` that rank 0 of its
  sub-communicator broadcasts. -/
  subRootTestResult : Nat → Bool

/-- Local variables of `generateSequence_Step8` that live across loop
iterations, with the options object `currOptions` that the routine changes
temporarily. `nowAttempt` is an attempt counter that the code only compares
with `0` and `1`; it is a natural number here. `pilotOptions` is a history
variable: the options as the last pilot chain generation has received them. -/
structure Step8State (K : Type) (d : Nat) where
  beforeEta : K
  beforeRejectionRate : K
  beforeRejectionRateIsBelowRange : Bool
  nowEta : K
  nowRejectionRate : K
  nowRejectionRateIsBelowRange : Bool
  etas0 : K
  etas1 : K
  rejs0 : K
  rejs1 : K
  nowAttempt : Nat
  testResult : Bool
  useMiddlePointLogicForEta : Bool
  nowCovMatrix : Fin d → Fin d → K
  currOptions : uqMLSamplingLevelOptionsClass K
  pilotOptions : uqMLSamplingLevelOptionsClass K

/-- State on entry to the `do` loop of step 8, lines 612-632. -/
def step8Init (prevEta : K) (currOptions : uqMLSamplingLevelOptionsClass K)
    (unifiedCovMatrix : Fin d → Fin d → K) : Step8State K d :=
  { beforeEta := prevEta
    beforeRejectionRate := 0
    beforeRejectionRateIsBelowRange := true
    nowEta := prevEta
    nowRejectionRate := 0
    nowRejectionRateIsBelowRange := true
    etas0 := prevEta
    etas1 := 1
    rejs0 := 0
    rejs1 := 0
    nowAttempt := 0
    testResult := false
    useMiddlePointLogicForEta := false
    nowCovMatrix := unifiedCovMatrix
    currOptions := currOptions
    pilotOptions := currOptions }

/-- `meanRejectionRate`, line 630. -/
def meanRejectionRate (currOptions : uqMLSamplingLevelOptionsClass K) : K :=
  (1 / 2) * (currOptions.m_minRejectionRate + currOptions.m_maxRejectionRate)

/-- Lines 650-661: the flag `nowRejectionRateIsBelowRange` for the current
`nowRejectionRate`, or `none` when the rate lies inside the range (the fatal
test "nowRejectionRate should be out of the requested range at this point of
the logic"). -/
def step8RangeFlag (s : Step8State K d) : Option Bool :=
  if s.nowRejectionRate < s.currOptions.m_minRejectionRate then some true
  else if s.nowRejectionRate > s.currOptions.m_maxRejectionRate then some false
  else none

/-- Lines 665-708: the switch to the middle point logic. `none` stands for the
fatal test "before and now range flags are inconsistent". -/
def step8EnterBracket (s : Step8State K d) : Option (Step8State K d) :=
  if s.useMiddlePointLogicForEta = false then
    if s.nowAttempt = 1 then some s
    else if s.beforeRejectionRateIsBelowRange = true
        ∧ s.nowRejectionRateIsBelowRange = true then some s
    else if s.beforeRejectionRateIsBelowRange = false
        ∧ s.nowRejectionRateIsBelowRange = false then some s
    else if s.beforeRejectionRateIsBelowRange = true
        ∧ s.nowRejectionRateIsBelowRange = false then
      some { s with
        useMiddlePointLogicForEta := true
        etas0 := min s.beforeEta s.nowEta
        etas1 := max s.beforeEta s.nowEta
        rejs0 := if min s.beforeEta s.nowEta = s.beforeEta
          then s.beforeRejectionRate else s.nowRejectionRate
        rejs1 := if min s.beforeEta s.nowEta = s.beforeEta
          then s.nowRejectionRate else s.beforeRejectionRate }
    else if s.beforeRejectionRateIsBelowRange = false
        ∧ s.nowRejectionRateIsBelowRange = true then
      some { s with
        useMiddlePointLogicForEta := true
        etas0 := min s.beforeEta s.nowEta
        etas1 := max s.beforeEta s.nowEta }
    else none
  else some s

/-- Lines 710-761: the `before` variables take the `now` values and the next
candidate `nowEta` is computed, by a factor 4 or by the middle point logic. -/
def step8NextEta (meanRejectionRate : K) (s : Step8State K d) : Step8State K d :=
  if s.useMiddlePointLogicForEta = false then
    { s with
      beforeEta := s.nowEta
      beforeRejectionRate := s.nowRejectionRate
      beforeRejectionRateIsBelowRange := s.nowRejectionRateIsBelowRange
      nowEta := if s.nowRejectionRateIsBelowRange then s.nowEta * 4 else s.nowEta / 4 }
  else
    let replaceLower : Bool :=
      if s.nowRejectionRate > meanRejectionRate then decide (s.rejs0 > meanRejectionRate)
      else decide (s.rejs0 < meanRejectionRate)
    let etas0 := if replaceLower then s.nowEta else s.etas0
    let etas1 := if replaceLower then s.etas1 else s.nowEta
    { s with
      beforeEta := s.nowEta
      beforeRejectionRate := s.nowRejectionRate
      beforeRejectionRateIsBelowRange := s.nowRejectionRateIsBelowRange
      etas0 := etas0
      etas1 := etas1
      nowEta := (1 / 2) * (etas0 + etas1) }

/-- Lines 663-763: the update of the candidate, made on the ranks of the
inter-group from the second attempt on. -/
def step8UpdateEta (env : Step8Env K d) (meanRejectionRate : K) (s : Step8State K d) :
    Option (Step8State K d) :=
  if env.inter0Rank ≥ 0 then
    if s.nowAttempt > 0 then
      match step8EnterBracket s with
      | some s1 => some (step8NextEta meanRejectionRate s1)
      | none => none
    else some s
  else some s

/-- Line 630 in `double` arithmetic: the value that the variable
`meanRejectionRate` holds, `.5*(min + max)` computed on the `double` values
that the options object stores for the configured numbers. -/
def meanRejectionRateDouble (currOptions : uqMLSamplingLevelOptionsClass K) : DoubleValue K :=
  doubleMul (1 / 2)
    (doubleAdd (roundToDouble currOptions.m_minRejectionRate)
      (roundToDouble currOptions.m_maxRejectionRate))

/-- Line 767, the `double` that is converted to `unsigned int`:
`(1.-meanRejectionRate)/meanRejectionRate/c/c` with `c = m_covRejectionRate`,
each of the four operations rounded. -/
def pilotLengthQuotient (currOptions : uqMLSamplingLevelOptionsClass K) : DoubleValue K :=
  doubleDiv
    (doubleDiv
      (doubleDiv (doubleSub (DoubleValue.finite 1) (meanRejectionRateDouble currOptions))
        (meanRejectionRateDouble currOptions))
      (roundToDouble currOptions.m_covRejectionRate))
    (roundToDouble currOptions.m_covRejectionRate)

/-- Line 767: `originalSubNumSamples`, the per-rank length of a pilot. The
conversion truncates the rounded `double` quotient, so the quotient is
evaluated in `double` arithmetic here. -/
def originalSubNumSamples (undefinedValue : Nat)
    (currOptions : uqMLSamplingLevelOptionsClass K) : Nat :=
  uintAdd 1 (doubleValueToUint undefinedValue (pilotLengthQuotient currOptions))

/-- Lines 784 and 930: `tmpUnifiedNumSamples`, the number of indexes sampled
for a pilot. -/
def tmpUnifiedNumSamples (env : Step8Env K d)
    (currOptions : uqMLSamplingLevelOptionsClass K) : Nat :=
  uintMul (originalSubNumSamples env.undefinedConversion currOptions) env.numProc

/-- Lines 861-866: the options with the six fields overridden for a pilot. -/
def step8Override (o : uqMLSamplingLevelOptionsClass K) : uqMLSamplingLevelOptionsClass K :=
  { o with
    m_totallyMute := true
    m_rawChainSize := 0
    m_rawChainComputeStats := false
    m_filteredChainGenerate := false
    m_drMaxNumExtraStages := 0
    m_amAdaptInterval := 0 }

/-- Lines 895-900: the six fields take back the values saved from `saved`. -/
def step8Restore (saved o : uqMLSamplingLevelOptionsClass K) :
    uqMLSamplingLevelOptionsClass K :=
  { o with
    m_totallyMute := saved.m_totallyMute
    m_rawChainSize := saved.m_rawChainSize
    m_rawChainComputeStats := saved.m_rawChainComputeStats
    m_filteredChainGenerate := saved.m_filteredChainGenerate
    m_drMaxNumExtraStages := saved.m_drMaxNumExtraStages
    m_amAdaptInterval := saved.m_amAdaptInterval }

/-- Lines 915-931: `nowRejectionRate` of a pilot as a number, the exact
quotient of the two `unsigned int` values. It is the value of line 931, up to
the rounding of the quotient, when `tmpUnifiedNumSamples` is not `0`; for a
zero divisor see `step8RejectionRateDouble`. -/
def step8RejectionRate (env : Step8Env K d)
    (currOptions : uqMLSamplingLevelOptionsClass K) (nowRejections : List Nat) : K :=
  ((nowRejections.foldl uintAdd 0 : Nat) : K)
    / ((tmpUnifiedNumSamples env currOptions : Nat) : K)

/-- End of one iteration of the loop of step 8: it goes on to the loop test
in a new state, or the run aborts on a fatal test while the options object
holds `currOptions`. -/
inductive Step8Step (K : Type) (d : Nat) where
  | continued : Step8State K d → Step8Step K d
  | aborted : FatalError → uqMLSamplingLevelOptionsClass K → Step8Step K d

/-- Lines 765-970: the pilot of an iteration, for the candidate `s.nowEta`. -/
def step8Pilot (env : Step8Env K d)
    (unifiedCovMatrix : Fin d → Fin d → K) (s : Step8State K d) : Step8Step K d :=
  let nowCovMatrix := matrixScale unifiedCovMatrix s.nowEta
  if env.inter0Rank = 0 ∧ env.indexCountersSize s.nowAttempt ≠ env.weightUnifiedSize then
    Step8Step.aborted FatalError.wrongOutputFromSampleIndexes s.currOptions
  else
    let pilotOptions := step8Override s.currOptions
    match env.generateLinkedChains s.nowAttempt nowCovMatrix pilotOptions with
    | PilotGeneration.aborted rawChainSize =>
      Step8Step.aborted FatalError.pilotChainGeneration
        { pilotOptions with m_rawChainSize := rawChainSize }
    | PilotGeneration.completed rawChainSize nowRejections =>
      let restored := step8Restore s.currOptions
        { pilotOptions with m_rawChainSize := rawChainSize }
      if env.nullInitialPosition s.nowAttempt then
        Step8Step.aborted FatalError.nullInitialPosition restored
      else if env.inter0Rank ≥ 0 then
        let nowRejectionRate := step8RejectionRate env restored nowRejections
        Step8Step.continued { s with
          nowCovMatrix := nowCovMatrix
          currOptions := restored
          pilotOptions := pilotOptions
          nowRejectionRate := nowRejectionRate
          testResult := decide (nowRejectionRate ≥ restored.m_minRejectionRate)
            && decide (nowRejectionRate ≤ restored.m_maxRejectionRate)
          nowAttempt := s.nowAttempt + 1 }
      else
        Step8Step.continued { s with
          nowCovMatrix := nowCovMatrix
          currOptions := restored
          pilotOptions := pilotOptions
          testResult := env.subRootTestResult s.nowAttempt
          nowAttempt := s.nowAttempt + 1 }

/-- One iteration of the `do` loop of `generateSequence_Step8`, lines
638-978. A rank of the inter-group is rank 0 of its sub-communicator, so the
broadcast of line 948 leaves its `testResult` as computed. -/
def step8Attempt (env : Step8Env K d) (meanRejectionRate : K)
    (unifiedCovMatrix : Fin d → Fin d → K) (s : Step8State K d) : Step8Step K d :=
  match step8RangeFlag s with
  | none => Step8Step.aborted FatalError.rejectionRateInsideRange s.currOptions
  | some flag =>
    match step8UpdateEta env meanRejectionRate
        { s with nowRejectionRateIsBelowRange := flag } with
    | none => Step8Step.aborted FatalError.inconsistentRangeFlags s.currOptions
    | some s1 => step8Pilot env unifiedCovMatrix s1

/-- How a run of a routine that changes the options object ends: as
`Outcome`, with the contents of the options object at a fatal exit. -/
inductive Step8Outcome (α K : Type) where
  | returned : α → Step8Outcome α K
  | fatal : FatalError → uqMLSamplingLevelOptionsClass K → Step8Outcome α K
  | running : Step8Outcome α K

/-- The `do ... while (testResult == false)` loop of step 8, run for at most
`fuel` attempts from state `s`. -/
def step8Loop (env : Step8Env K d) (meanRejectionRate : K)
    (unifiedCovMatrix : Fin d → Fin d → K) :
    Nat → Step8State K d → Step8Outcome (Step8State K d) K
  | 0, _ => Step8Outcome.running
  | fuel + 1, s =>
    match step8Attempt env meanRejectionRate unifiedCovMatrix s with
    | Step8Step.continued s1 =>
      if s1.testResult = false then
        step8Loop env meanRejectionRate unifiedCovMatrix fuel s1
      else Step8Outcome.returned s1
    | Step8Step.aborted e o => Step8Outcome.fatal e o

/-- The states at the end of the successive iterations of the loop of step 8
started in `s`, for at most `fuel` attempts: the list ends with the first
accepted attempt, or where the loop aborts. -/
def step8Trace (env : Step8Env K d) (meanRejectionRate : K)
    (unifiedCovMatrix : Fin d → Fin d → K) :
    Nat → Step8State K d → List (Step8State K d)
  | 0, _ => []
  | fuel + 1, s =>
    match step8Attempt env meanRejectionRate unifiedCovMatrix s with
    | Step8Step.continued s1 =>
      s1 :: (if s1.testResult = false then
        step8Trace env meanRejectionRate unifiedCovMatrix fuel s1
      else [])
    | Step8Step.aborted _ _ => []

/-- Outputs of `generateSequence_Step8`: `currEta`, `unifiedCovMatrix`, the
options object, and (for reference) the last assessed rejection rate and the
number of attempts made. -/
structure Step8Result (K : Type) (d : Nat) where
  currEta : K
  unifiedCovMatrix : Fin d → Fin d → K
  currOptions : uqMLSamplingLevelOptionsClass K
  nowRejectionRate : K
  nowAttempt : Nat

/-- `uqMLSamplingClass::generateSequence_Step8`, with at most `fuel` loop
attempts. -/
def generateSequence_Step8 (env : Step8Env K d) (fuel : Nat) (prevEta : K)
    (currOptions : uqMLSamplingLevelOptionsClass K)
    (unifiedCovMatrix : Fin d → Fin d → K) : Step8Outcome (Step8Result K d) K :=
  match step8Loop env (meanRejectionRate currOptions) unifiedCovMatrix fuel
      (step8Init prevEta currOptions unifiedCovMatrix) with
  | Step8Outcome.returned s =>
    Step8Outcome.returned
      { currEta := s.nowEta
        unifiedCovMatrix :=
          if s.nowEta ≠ 1 then matrixScale unifiedCovMatrix s.nowEta else unifiedCovMatrix
        currOptions := s.currOptions
        nowRejectionRate := s.nowRejectionRate
        nowAttempt := s.nowAttempt }
  | Step8Outcome.fatal e o => Step8Outcome.fatal e o
  | Step8Outcome.running => Step8Outcome.running

end Step8

section Level0

/-- Outputs of `generateSequence_Level0`. -/
structure Level0Result (V K : Type) where
  unifiedRequestedNumSamples : Nat
  currChain : List V
  currLogLikelihoodValues : List K
  currLogTargetValues : List K

/-- `uqMLSamplingClass::generateSequence_Level0` on a rank. `currOptions` are
the level options after `scanOptionsValues`; `rawChainSizes` lists the
`m_rawChainSize` of the inter-group ranks, reduced with `MPI_SUM` on
`unsigned int` when the rank belongs to the inter-group. The three sequences
are resized to `m_rawChainSize` and filled position by position (lines
78-91): `realization i` is the vector that the `i`-th call of the prior
realizer yields, `lnLikelihood` and `lnPrior` are
`m_likelihoodFunction.lnValue` and `m_priorRv.pdf().lnValue`. -/
def generateSequence_Level0 {V K : Type} [Add K] (inter0Rank : Int) (rawChainSizes : List Nat)
    (currOptions : uqMLSamplingLevelOptionsClass K)
    (realization : Nat → V) (lnLikelihood lnPrior : V → K) : Outcome (Level0Result V K) :=
  let unifiedRequestedNumSamples :=
    if inter0Rank ≥ 0 then rawChainSizes.foldl uintAdd 0 else currOptions.m_rawChainSize
  let currChain := (List.range currOptions.m_rawChainSize).map realization
  let currLogLikelihoodValues :=
    (List.range currOptions.m_rawChainSize).map (fun i => lnLikelihood (realization i))
  let currLogTargetValues :=
    (List.range currOptions.m_rawChainSize).map
      (fun i => lnPrior (realization i) + lnLikelihood (realization i))
  if subSequenceSize currChain ≠ currOptions.m_rawChainSize then
    Outcome.fatal FatalError.firstChainHasInvalidSize
  else
    Outcome.returned
      ⟨unifiedRequestedNumSamples, currChain, currLogLikelihoodValues, currLogTargetValues⟩

end Level0

/-- Example surroundings for step 8 on rank 0 of an inter-group of two ranks,
in dimension one: the pilots of the attempts 0, 1, 2 and 3 count the
rejections `[0, 1]`, `[20, 20]`, `[6, 7]` and `[9, 9]` on the two ranks. -/
def step8ExampleEnv : Step8Env ℚ 1 :=
  { inter0Rank := 0
    numProc := 2
    undefinedConversion := 0
    weightUnifiedSize := 4
    indexCountersSize := fun _ => 4
    generateLinkedChains := fun k _ _ =>
      PilotGeneration.completed 7
        (if k = 0 then [0, 1] else if k = 1 then [20, 20] else if k = 2 then [6, 7] else [9, 9])
    nullInitialPosition := fun _ => false
    subRootTestResult := fun _ => false }

/-- Example covariance matrix for step 8, dimension one. -/
def step8ExampleCov : Fin 1 → Fin 1 → ℚ := fun _ _ => 3

/-- As `step8ExampleEnv`, but the pilot chain generation of the first attempt
ends on a fatal test, after it has set `m_rawChainSize` to 5. -/
def step8AbortEnv : Step8Env ℚ 1 :=
  { step8ExampleEnv with generateLinkedChains := fun _ _ _ => PilotGeneration.aborted 5 }

/-- Options with the rejection window `[1/4, 9/20]` of `exampleOptions` and
the small coefficient of variation `m_covRejectionRate = 1/100000`. -/
def smallCovOptions (K : Type) [LinearOrderedField K] : uqMLSamplingLevelOptionsClass K :=
  { exampleOptions K with m_covRejectionRate := 1 / 100000 }

/-- The state in which the example run of step 8 ends its first iteration:
`eta = 1`, rejection rate `1/60`, below the window `[1/4, 9/20]`. -/
def step8ExampleState1 : Step8State ℚ 1 :=
  { step8Init 1 (exampleOptions ℚ) step8ExampleCov with
    nowCovMatrix := matrixScale step8ExampleCov 1
    pilotOptions := step8Override (exampleOptions ℚ)
    nowRejectionRate := 1 / 60
    nowAttempt := 1 }

/-- End of the second iteration of the example run: `eta = 4`, rejection rate
`2/3`, above the window. -/
def step8ExampleState2 : Step8State ℚ 1 :=
  { step8ExampleState1 with
    beforeEta := 1
    beforeRejectionRate := 1 / 60
    beforeRejectionRateIsBelowRange := true
    nowEta := 4
    nowCovMatrix := matrixScale step8ExampleCov 4
    nowRejectionRate := 2 / 3
    nowAttempt := 2 }

/-- End of the third iteration of the example run: the middle point logic has
started with the bracket `[1, 4]`, `eta = 5/2`, rejection rate `13/60`, below
the window. -/
def step8ExampleState3 : Step8State ℚ 1 :=
  { step8ExampleState2 with
    beforeEta := 4
    beforeRejectionRate := 2 / 3
    beforeRejectionRateIsBelowRange := false
    nowRejectionRateIsBelowRange := false
    useMiddlePointLogicForEta := true
    etas0 := 1
    etas1 := 4
    rejs0 := 1 / 60
    rejs1 := 2 / 3
    nowEta := 5 / 2
    nowCovMatrix := matrixScale step8ExampleCov (5 / 2)
    nowRejectionRate := 13 / 60
    nowAttempt := 3 }

/-- End of the fourth iteration of the example run: bracket `[5/2, 4]`,
`eta = 13/4`, rejection rate `3/10`, inside the window: accepted. -/
def step8ExampleState4 : Step8State ℚ 1 :=
  { step8ExampleState3 with
    beforeEta := 5 / 2
    beforeRejectionRate := 13 / 60
    beforeRejectionRateIsBelowRange := true
    nowRejectionRateIsBelowRange := true
    etas0 := 5 / 2
    etas1 := 4
    nowEta := 13 / 4
    nowCovMatrix := matrixScale step8ExampleCov (13 / 4)
    nowRejectionRate := 3 / 10
    testResult := true
    nowAttempt := 4 }

/-- Example for level 0: the `i`-th prior draw is `10 + i`, the
log-likelihood of `v` is `v / 2` and its log-prior is `v`. -/
def level0ExamplePrior (i : Nat) : Nat := 10 + i

/-- Log-likelihood of the example for level 0. -/
def level0ExampleLnLikelihood (v : Nat) : ℚ := (v : ℚ) / 2

/-- Log-prior of the example for level 0. -/
def level0ExampleLnPrior (v : Nat) : ℚ := (v : ℚ)

/-- Invariant of the loop of step 8 at the end of an iteration on an
inter-group rank, for the options `o` passed to the routine: the candidate is
positive; before the middle point logic, `rejs[0]` is still `0.` and from the
second iteration on the candidate is the one before it times or over 4,
according to the flag of the pilot before; with the middle point logic,
`rejs[0]` is below the mean rejection rate and the candidate is the middle of
the bracket. -/
def Step8Invariant {K : Type} [LinearOrderedField K] {d : Nat}
    (o : uqMLSamplingLevelOptionsClass K) (t : Step8State K d) : Prop :=
  0 < t.nowEta ∧ 1 ≤ t.nowAttempt ∧ t.currOptions = o
    ∧ (t.useMiddlePointLogicForEta = false →
        t.rejs0 = 0
        ∧ (2 ≤ t.nowAttempt →
            0 < t.beforeEta
            ∧ (t.beforeRejectionRateIsBelowRange = true →
                t.nowEta = t.beforeEta * 4 ∧ t.beforeRejectionRate < o.m_minRejectionRate)
            ∧ (t.beforeRejectionRateIsBelowRange = false → t.nowEta = t.beforeEta / 4)))
    ∧ (t.useMiddlePointLogicForEta = true →
        t.rejs0 < meanRejectionRate o ∧ 0 < t.etas0 ∧ t.etas0 ≤ t.etas1
        ∧ t.nowEta = (1 / 2) * (t.etas0 + t.etas1))

section ConcatenatedJointPdf

variable {K : Type} [LinearOrderedField K]

/-- `(boost::math::isnan)(volume)`. -/
def doubleIsNan : DoubleValue K → Bool
  | DoubleValue.nan => true
  | _ => false

/-- `volume == -INFINITY`. -/
def doubleEqNegInfinity : DoubleValue K → Bool
  | DoubleValue.negInfinity => true
  | _ => false

/-- `volume == INFINITY`. -/
def doubleEqInfinity : DoubleValue K → Bool
  | DoubleValue.posInfinity => true
  | _ => false

/-- `volume <= 0.`: a comparison with `NaN` is false, `-INFINITY` is below
every number and `INFINITY` above. -/
def doubleLeZero : DoubleValue K → Bool
  | DoubleValue.nan => false
  | DoubleValue.negInfinity => true
  | DoubleValue.posInfinity => false
  | DoubleValue.finite x => decide (x ≤ 0)

/-- What `ConcatenatedJointPdf` uses of a component density (`BaseJointPdf`,
declared outside this file): the dimension `domainSet().vectorSpace().dimLocal()`
of its domain, and its methods `actualValue` and `lnValue` called with null
pointers for the direction, gradient and Hessian arguments. A vector is the
list of its components. -/
structure BaseJointPdf (K : Type) where
  dimLocal : Nat
  actualValue : List K → K
  lnValue : List K → K

/-- Members of `ConcatenatedJointPdf`: the component densities and the local
dimension of `m_domainSet`, the concatenated domain. -/
structure ConcatenatedJointPdf (K : Type) where
  m_densities : List (BaseJointPdf K)
  domainDimLocal : Nat

/-- The second constructor of `ConcatenatedJointPdf`, lines 55-74: `sumSizes`
accumulates the dimensions of the components as an `unsigned int`, and the
construction ends on a fatal test when it differs from the dimension of the
concatenated domain. -/
def concatenatedJointPdf (densities : List (BaseJointPdf K)) (concatenatedDomainDim : Nat) :
    Outcome (ConcatenatedJointPdf K) :=
  let sumSizes := densities.foldl (fun acc density => uintAdd acc density.dimLocal) 0
  if sumSizes ≠ concatenatedDomainDim then Outcome.fatal FatalError.incompatibleDimensions
  else Outcome.returned ⟨densities, concatenatedDomainDim⟩

/-- Modelled from the spec: `cwExtract` of the vector class is declared outside
this file; `v.cwExtract(initialPos, vec)` fills `vec`, of size `size`, with the
block of components of `v` that starts at position `initialPos`. -/
def cwExtract (initialPos size : Nat) (v : List K) : List K :=
  (v.drop initialPos).take size

/-- `ConcatenatedJointPdf::actualValue`, lines 93-147. `derivativesRequested`
says whether one of the pointers `domainDirection`, `gradVector`,
`hessianMatrix`, `hessianEffect` is not null. The loop carries `returnValue`
and the `unsigned int` `cummulativeSize`; the vector `vecs[i]` has the size of
the domain of component `i`. -/
def actualValue (pdf : ConcatenatedJointPdf K) (domainVector : List K)
    (derivativesRequested : Bool) : Outcome K :=
  if subSequenceSize domainVector ≠ pdf.domainDimLocal then
    Outcome.fatal FatalError.invalidInput
  else if derivativesRequested then Outcome.fatal FatalError.incompleteCode
  else
    Outcome.returned (pdf.m_densities.foldl
      (fun (acc : K × Nat) density =>
        (acc.1 * density.actualValue (cwExtract acc.2 density.dimLocal domainVector),
          uintAdd acc.2 density.dimLocal))
      (1, 0)).1

/-- `ConcatenatedJointPdf::lnValue`, lines 149-198, with the conventions of
`actualValue`. -/
def lnValue (pdf : ConcatenatedJointPdf K) (domainVector : List K)
    (derivativesRequested : Bool) : Outcome K :=
  if derivativesRequested then Outcome.fatal FatalError.incompleteCode
  else
    Outcome.returned (pdf.m_densities.foldl
      (fun (acc : K × Nat) density =>
        (acc.1 + density.lnValue (cwExtract acc.2 density.dimLocal domainVector),
          uintAdd acc.2 density.dimLocal))
      (0, 0)).1

/-- A call `m_densities[i]->computeLogOfNormalizationFactor(numSamples,
updateFactorInternally)` made by the concatenated density. -/
structure NormalizationCall where
  densityIndex : Nat
  numSamples : Nat
  updateFactorInternally : Bool
  deriving DecidableEq

/-- `ConcatenatedJointPdf::computeLogOfNormalizationFactor`, lines 200-229, for
the value `volume` of `m_domainSet.volume()`: the value it returns and the
calls it makes to the component densities, in the order of the calls. The
routine has no fatal test; what a component returns is not used. -/
def computeLogOfNormalizationFactor (pdf : ConcatenatedJointPdf K) (volume : DoubleValue K)
    (numSamples : Nat) (updateFactorInternally : Bool) : K × List NormalizationCall :=
  let value : K := 0
  if doubleIsNan volume || doubleEqNegInfinity volume || doubleEqInfinity volume
      || doubleLeZero volume then
    (value, [])
  else
    (value, (List.range pdf.m_densities.length).foldl
      (fun calls i => calls ++ [⟨i, numSamples, updateFactorInternally⟩]) [])

/-- Following the claim on the concatenated density: `slice_k(v)`, the block
of `v` that starts at the sum of the dimensions of the components before
component `k` and has the dimension of component `k`. -/
def specSlice (densities : List (BaseJointPdf K)) (k : Nat) (v : List K) : List K :=
  (v.drop ((densities.take k).map (fun density => density.dimLocal)).sum).take
    (match densities[k]? with
      | some density => density.dimLocal
      | none => 0)

/-- Following the claim on the concatenated density: the sum over the
components `k` of `lnValue_k(slice_k(v))`. -/
def specLnValue (densities : List (BaseJointPdf K)) (v : List K) : K :=
  ((List.range densities.length).map (fun k =>
    match densities[k]? with
    | some density => density.lnValue (specSlice densities k v)
    | none => 0)).sum

/-- Following the claim on the concatenated density: the product over the
components `k` of `actualValue_k(slice_k(v))`. -/
def specActualValue (densities : List (BaseJointPdf K)) (v : List K) : K :=
  ((List.range densities.length).map (fun k =>
    match densities[k]? with
    | some density => density.actualValue (specSlice densities k v)
    | none => 1)).prod

/-- Example with two components of dimensions 1 and 2: the first has the
density `x ↦ x₀` and log-density `x ↦ 10 x₀`, the second `x ↦ x₀ + x₁` and
`x ↦ x₀ - x₁`. -/
def exampleDensities (K : Type) [LinearOrderedField K] : List (BaseJointPdf K) :=
  [⟨1, fun x => x.headD 0, fun x => 10 * x.headD 0⟩,
    ⟨2, fun x => x.headD 0 + (x.drop 1).headD 0, fun x => x.headD 0 - (x.drop 1).headD 0⟩]

end ConcatenatedJointPdf
/-- State on entry to the loop of step 8 when line 614 initialises
`beforeRejectionRateIsBelowRange` with `flag` in place of `true`. -/
def step8InitWithFlag {K : Type} [LinearOrderedField K] {d : Nat} (flag : Bool) (prevEta : K)
    (currOptions : uqMLSamplingLevelOptionsClass K) (unifiedCovMatrix : Fin d → Fin d → K) :
    Step8State K d :=
  { step8Init prevEta currOptions unifiedCovMatrix with
    beforeRejectionRateIsBelowRange := flag }

/-- `generateSequence_Step8` when line 614 initialises
`beforeRejectionRateIsBelowRange` with `flag` in place of `true`. -/
def generateSequence_Step8_withFlag {K : Type} [LinearOrderedField K] [FloorRing K] {d : Nat}
    (flag : Bool) (env : Step8Env K d) (fuel : Nat) (prevEta : K)
    (currOptions : uqMLSamplingLevelOptionsClass K)
    (unifiedCovMatrix : Fin d → Fin d → K) : Step8Outcome (Step8Result K d) K :=
  match step8Loop env (meanRejectionRate currOptions) unifiedCovMatrix fuel
      (step8InitWithFlag flag prevEta currOptions unifiedCovMatrix) with
  | Step8Outcome.returned s =>
    Step8Outcome.returned
      { currEta := s.nowEta
        unifiedCovMatrix :=
          if s.nowEta ≠ 1 then matrixScale unifiedCovMatrix s.nowEta else unifiedCovMatrix
        currOptions := s.currOptions
        nowRejectionRate := s.nowRejectionRate
        nowAttempt := s.nowAttempt }
  | Step8Outcome.fatal e o => Step8Outcome.fatal e o
  | Step8Outcome.running => Step8Outcome.running

/-- Example for step 4, dimension one, two inter-group ranks: each rank holds
the single position `2` with weight `1/2`, so all positions of the previous
chain are the same vector and the weights sum to 1 globally. -/
def step4SamePositionsExample (K : Type) [Field K] : List (List (Fin 1 → K) × List K) :=
  [([fun _ => 2], [1 / 2]), ([fun _ => 2], [1 / 2])]

/-- Two states of the loop of step 8 that agree in every variable except
possibly `beforeRejectionRateIsBelowRange`, and in that one too on an
inter-group rank from the end of the second iteration on. -/
def Step8SameButFlag {K : Type} {d : Nat} (env : Step8Env K d) (s s1 : Step8State K d) :
    Prop :=
  s1 = { s with beforeRejectionRateIsBelowRange := s1.beforeRejectionRateIsBelowRange }
    ∧ (env.inter0Rank ≥ 0 → 2 ≤ s.nowAttempt → s1 = s)

/-- Whether the number `x` is a `double`: storing it, or getting it as the
result of an operation, rounds nothing. -/
def isDouble {K : Type} [LinearOrderedField K] [FloorRing K] (x : K) : Bool :=
  match roundToDouble x with
  | DoubleValue.finite y => decide (y = x)
  | _ => false

/-- Options with the rejection window `[3/10, 1/2]` (mean `2/5`) and
`m_covRejectionRate = 1/2`, for which `(1 - ρ) / (ρ c²)` is the integer `6`. -/
def roundedQuotientOptions (K : Type) [LinearOrderedField K] :
    uqMLSamplingLevelOptionsClass K :=
  { exampleOptions K with
    m_minRejectionRate := 3 / 10
    m_maxRejectionRate := 1 / 2
    m_covRejectionRate := 1 / 2 }

/-- Options with the rejection window `[1/4, 3/4]` and
`m_covRejectionRate = 1/2`: the bounds, the coefficient and every result of
lines 630 and 767 are `double` numbers. -/
def exactQuotientOptions (K : Type) [LinearOrderedField K] :
    uqMLSamplingLevelOptionsClass K :=
  { exampleOptions K with
    m_minRejectionRate := 1 / 4
    m_maxRejectionRate := 3 / 4
    m_covRejectionRate := 1 / 2 }

/-- Surroundings for step 8 on the single rank of an inter-group, in dimension
one: every pilot counts `2` rejections. -/
def step8SingleRankEnv : Step8Env ℚ 1 :=
  { step8ExampleEnv with
    numProc := 1
    generateLinkedChains := fun _ _ _ => PilotGeneration.completed 6 [2] }

/-- As `step8ExampleEnv`, on a rank outside the inter-group, whose
sub-communicator root broadcasts `testResult = false` at every attempt. -/
def step8OutsideEnv : Step8Env ℚ 1 :=
  { step8ExampleEnv with inter0Rank := -1 }

/-! ## Theorems -/

section Helpers

theorem foldl_add_eq_sum {K : Type} [Field K] (xs : List K) (a : K) :
    xs.foldl (fun acc x => acc + x) a = a + xs.sum := by
  induction xs generalizing a with
  | nil => simp
  | cons x xs ih => simp [List.foldl_cons, ih, add_assoc]

theorem subSum_eq_sum {K : Type} [Field K] (xs : List K) : subSum xs = xs.sum := by
  simp [subSum, foldl_add_eq_sum]

theorem mpiAllreduceSum_eq_sum {K : Type} [Field K] (xs : List K) :
    mpiAllreduceSum xs = xs.sum := by
  simp [mpiAllreduceSum, foldl_add_eq_sum]

variable {K : Type} [LinearOrderedField K]

theorem sum_map_sum_flatten (L : List (List K)) :
    (L.map List.sum).sum = L.flatten.sum := by
  induction L with
  | nil => simp
  | cons l L ih => rw [List.map_cons, List.sum_cons, List.flatten_cons, List.sum_append, ih]

theorem unified_sum_eq (L : List (List K)) :
    mpiAllreduceSum (L.map subSum) = L.flatten.sum := by
  rw [mpiAllreduceSum_eq_sum, ← sum_map_sum_flatten]
  congr 1
  exact List.map_congr_left (fun l _ => subSum_eq_sum l)

theorem foldl_nat_add_eq_sum (xs : List Nat) (a : Nat) :
    xs.foldl (fun acc x => acc + x) a = a + xs.sum := by
  induction xs generalizing a with
  | nil => simp
  | cons x xs ih => simp [List.foldl_cons, ih, Nat.add_assoc]

theorem unifiedSequenceSize_eq {α : Type} (L : List (List α)) :
    unifiedSequenceSize L = L.flatten.length := by
  simp [unifiedSequenceSize, foldl_nat_add_eq_sum, List.length_flatten]

theorem sum_map_div (xs : List K) (c : K) :
    (xs.map (fun x => x / c)).sum = xs.sum / c := by
  induction xs with
  | nil => simp
  | cons x xs ih => simp [ih, add_div]

theorem sum_pos_of_pos (xs : List K) (hne : xs ≠ []) (h : ∀ x ∈ xs, 0 < x) :
    0 < xs.sum := by
  induction xs with
  | nil => exact absurd rfl hne
  | cons x xs ih =>
    rw [List.sum_cons]
    by_cases hx : xs = []
    · subst hx
      simpa using h x (List.mem_cons_self _ _)
    · have h1 := h x (List.mem_cons_self _ _)
      have h2 := ih hx (fun y hy => h y (List.mem_cons_of_mem _ hy))
      linarith

theorem sum_nonneg_of_nonneg (xs : List K) (h : ∀ x ∈ xs, 0 ≤ x) : 0 ≤ xs.sum := by
  induction xs with
  | nil => simp
  | cons x xs ih =>
    rw [List.sum_cons]
    have h1 := h x (List.mem_cons_self _ _)
    have h2 := ih (fun y hy => h y (List.mem_cons_of_mem _ hy))
    linarith

theorem sum_sq_le_sq_sum (xs : List K) (h : ∀ x ∈ xs, 0 ≤ x) :
    (xs.map (fun x => x * x)).sum ≤ xs.sum * xs.sum := by
  induction xs with
  | nil => simp
  | cons x xs ih =>
    have h1 := h x (List.mem_cons_self _ _)
    have h2 := ih (fun y hy => h y (List.mem_cons_of_mem _ hy))
    have h3 := sum_nonneg_of_nonneg xs (fun y hy => h y (List.mem_cons_of_mem _ hy))
    simp only [List.map_cons, List.sum_cons]
    nlinarith [mul_nonneg h1 h3]

theorem sum_sq_shift (xs : List K) (c : K) :
    (xs.map (fun x => (x - c) * (x - c))).sum
      = (xs.map (fun x => x * x)).sum - 2 * c * xs.sum + (xs.length : K) * (c * c) := by
  induction xs with
  | nil => simp
  | cons x xs ih =>
    simp only [List.map_cons, List.sum_cons, List.length_cons, ih]
    push_cast
    ring

theorem sq_sum_le_length_mul (xs : List K) :
    xs.sum * xs.sum ≤ (xs.length : K) * (xs.map (fun x => x * x)).sum := by
  by_cases hne : xs = []
  · subst hne; simp
  · have hn : (0 : K) < (xs.length : K) := by
      have : 0 < xs.length := List.length_pos.mpr hne
      exact_mod_cast this
    have h0 : 0 ≤ (xs.map (fun x => (x - xs.sum / xs.length) * (x - xs.sum / xs.length))).sum :=
      sum_nonneg_of_nonneg _ (by
        intro y hy
        obtain ⟨x, _, rfl⟩ := List.mem_map.mp hy
        exact mul_self_nonneg _)
    rw [sum_sq_shift] at h0
    have h1 : (xs.length : K) * (xs.sum / xs.length) = xs.sum := by field_simp
    have h2 : (xs.length : K) * (xs.sum / xs.length * (xs.sum / xs.length))
        = xs.sum * (xs.sum / xs.length) := by rw [← mul_assoc, h1]
    rw [h2] at h0
    have h3 : xs.sum * (xs.sum / xs.length) ≤ (xs.map (fun x => x * x)).sum := by linarith
    have h4 := mul_le_mul_of_nonneg_left h3 hn.le
    have h5 : (xs.length : K) * (xs.sum * (xs.sum / xs.length)) = xs.sum * xs.sum := by
      field_simp
    linarith

end Helpers

section RoundLemmas
variable {K : Type} [LinearOrderedField K] [FloorRing K]

theorem roundHalfEven_below (x : K) (n : Int) (h1 : (n : K) ≤ x) (h2 : x < n + 1 / 2) :
    roundHalfEven x = n := by
  have hf : ⌊x⌋ = n := by
    rw [Int.floor_eq_iff]
    exact ⟨h1, by linarith⟩
  unfold roundHalfEven
  rw [hf, if_pos (by linarith)]

theorem roundHalfEven_above (x : K) (n : Int) (h1 : (n : K) + 1 / 2 < x) (h2 : x < n + 1) :
    roundHalfEven x = n + 1 := by
  have hf : ⌊x⌋ = n := by
    rw [Int.floor_eq_iff]
    exact ⟨by linarith, h2⟩
  unfold roundHalfEven
  rw [hf, if_neg (by linarith), if_pos (by linarith)]

theorem roundHalfEven_tie (x : K) (n : Int) (h : x = n + 1 / 2) :
    roundHalfEven x = if n % 2 = 0 then n else n + 1 := by
  have hf : ⌊x⌋ = n := by
    rw [Int.floor_eq_iff]
    exact ⟨by linarith, by linarith⟩
  unfold roundHalfEven
  rw [hf, if_neg (by linarith), if_neg (by linarith)]

/-- Evaluation of `roundToDouble` at a positive number `x` with binary
exponent `e`: the result is `m * 2^(e-52)` for the integer `m` to which
`x / 2^(e-52)` is rounded. -/
theorem roundToDouble_pos (x : K) (e m : Int) (ulp y : K) (hulp : (2 : K) ^ (e - 52) = ulp)
    (hlo : (2 : K) ^ e ≤ x) (hhi : x < (2 : K) ^ (e + 1)) (he : -1022 ≤ e)
    (hm : roundHalfEven (x / ulp) = m) (hy : (m : K) * ulp = y)
    (hfin : y < 2 ^ (1024 : Int)) :
    roundToDouble x = DoubleValue.finite y := by
  have hx : 0 < x := lt_of_lt_of_le (zpow_pos (by norm_num) e) hlo
  have hlog : Int.log 2 x = e := by
    apply le_antisymm
    · have := (Int.lt_zpow_iff_log_lt (by norm_num : 1 < 2) hx).mp (by exact_mod_cast hhi)
      omega
    · exact (Int.zpow_le_iff_le_log (by norm_num : 1 < 2) hx).mp (by exact_mod_cast hlo)
  unfold roundToDouble
  rw [if_neg (ne_of_gt hx)]
  simp only [abs_of_pos hx, hlog, max_eq_left he, hulp, hm, hy]
  rw [if_neg (not_le.mpr hfin), if_pos hx]

theorem doubleAdd_finite (x y : K) :
    doubleAdd (DoubleValue.finite x) (DoubleValue.finite y) = roundToDouble (x + y) := rfl

theorem doubleSub_finite (x y : K) :
    doubleSub (DoubleValue.finite x) (DoubleValue.finite y) = roundToDouble (x - y) := rfl

theorem doubleMul_finite (a y : K) :
    doubleMul a (DoubleValue.finite y) = roundToDouble (a * y) := rfl

theorem doubleDiv_finite (x y : K) (hy : y ≠ 0) :
    doubleDiv (DoubleValue.finite x) (DoubleValue.finite y) = roundToDouble (x / y) := by
  simp only [doubleDiv, if_neg hy]

theorem doubleDiv_zero_zero :
    doubleDiv (DoubleValue.finite (0 : K)) (DoubleValue.finite 0) = DoubleValue.nan := by
  simp [doubleDiv]

/-- Step by step evaluation of lines 630 and 767 in `double` arithmetic when
no special value arises: `a`, `b` and `c` are the stored options, `s` their
rounded sum, `m` the mean, `t` the rounded `1.-m`, and `r`, `q1`, `q` the three
rounded quotients. -/
theorem pilotLengthQuotient_eval (o : uqMLSamplingLevelOptionsClass K)
    (a b c s m t r q1 q : K)
    (ha : roundToDouble o.m_minRejectionRate = DoubleValue.finite a)
    (hb : roundToDouble o.m_maxRejectionRate = DoubleValue.finite b)
    (hc : roundToDouble o.m_covRejectionRate = DoubleValue.finite c)
    (hs : roundToDouble (a + b) = DoubleValue.finite s)
    (hm : roundToDouble (1 / 2 * s) = DoubleValue.finite m)
    (ht : roundToDouble (1 - m) = DoubleValue.finite t)
    (hm0 : m ≠ 0) (hc0 : c ≠ 0)
    (hr : roundToDouble (t / m) = DoubleValue.finite r)
    (hq1 : roundToDouble (r / c) = DoubleValue.finite q1)
    (hq : roundToDouble (q1 / c) = DoubleValue.finite q) :
    meanRejectionRateDouble o = DoubleValue.finite m
      ∧ pilotLengthQuotient o = DoubleValue.finite q := by
  have hmean : meanRejectionRateDouble o = DoubleValue.finite m := by
    rw [meanRejectionRateDouble, ha, hb, doubleAdd_finite, hs, doubleMul_finite, hm]
  refine ⟨hmean, ?_⟩
  rw [pilotLengthQuotient, hmean, hc, doubleSub_finite, ht, doubleDiv_finite _ _ hm0, hr,
    doubleDiv_finite _ _ hc0, hq1, doubleDiv_finite _ _ hc0, hq]

end RoundLemmas

section Step3Lemmas
variable {K : Type} [LinearOrderedField K]

theorem flatten_map_map {α β : Type} (f : α → β) (L : List (List α)) :
    (L.map (fun sub => sub.map f)).flatten = L.flatten.map f := by
  exact (List.map_flatten f L).symm

theorem flatten_weightRatioSequence (expF : K → K) (prevExponent : K)
    (lnL : List (List K)) (nowExponent : K) :
    (weightRatioSequence expF prevExponent lnL nowExponent).flatten
      = lnL.flatten.map (fun l => expF (l * step3AuxExponent prevExponent nowExponent
          - unifiedMax (omegaLnDiffSequence prevExponent lnL nowExponent))) := by
  unfold weightRatioSequence
  rw [flatten_map_map]
  conv_lhs => rw [omegaLnDiffSequence, flatten_map_map, List.map_map]
  rfl

theorem unifiedWeightRatioSum_eq (expF : K → K) (prevExponent : K)
    (lnL : List (List K)) (nowExponent : K) :
    unifiedWeightRatioSum expF prevExponent lnL nowExponent
      = (lnL.flatten.map (fun l => expF (l * step3AuxExponent prevExponent nowExponent
          - unifiedMax (omegaLnDiffSequence prevExponent lnL nowExponent)))).sum := by
  rw [unifiedWeightRatioSum, unified_sum_eq, flatten_weightRatioSequence]

theorem flatten_ne_nil_of_size_pos {α : Type} (L : List (List α))
    (h : 0 < unifiedSequenceSize L) : L.flatten ≠ [] := by
  rw [unifiedSequenceSize_eq] at h
  exact List.length_pos.mp h

theorem unifiedWeightRatioSum_pos (prevExponent : ℝ) (lnL : List (List ℝ)) (nowExponent : ℝ)
    (h : 0 < unifiedSequenceSize lnL) :
    0 < unifiedWeightRatioSum Real.exp prevExponent lnL nowExponent := by
  rw [unifiedWeightRatioSum_eq]
  apply sum_pos_of_pos
  · simpa using flatten_ne_nil_of_size_pos lnL h
  · intro x hx
    obtain ⟨l, _, rfl⟩ := List.mem_map.mp hx
    exact Real.exp_pos _

theorem flatten_candidate_weights (expF logF : K → K) (prevExponent : K)
    (lnL : List (List K)) (nowExponent : K) :
    (step3Candidate expF logF prevExponent lnL nowExponent).weightSequence.flatten
      = (weightRatioSequence expF prevExponent lnL nowExponent).flatten.map
          (fun w => w / unifiedWeightRatioSum expF prevExponent lnL nowExponent) := by
  simp only [step3Candidate]
  rw [flatten_map_map]

theorem candidate_weights_nonneg (prevExponent : ℝ) (lnL : List (List ℝ)) (nowExponent : ℝ)
    (h : 0 < unifiedSequenceSize lnL) :
    ∀ x ∈ (step3Candidate Real.exp Real.log prevExponent lnL nowExponent).weightSequence.flatten,
      0 < x := by
  intro x hx
  rw [flatten_candidate_weights, flatten_weightRatioSequence, List.map_map] at hx
  obtain ⟨l, _, rfl⟩ := List.mem_map.mp hx
  exact div_pos (Real.exp_pos _) (unifiedWeightRatioSum_pos prevExponent lnL nowExponent h)

theorem candidate_weights_sum (prevExponent : ℝ) (lnL : List (List ℝ)) (nowExponent : ℝ)
    (h : 0 < unifiedSequenceSize lnL) :
    (step3Candidate Real.exp Real.log prevExponent lnL nowExponent).weightSequence.flatten.sum
      = 1 := by
  rw [flatten_candidate_weights, sum_map_div, ← unified_sum_eq, ← unifiedWeightRatioSum]
  exact div_self (unifiedWeightRatioSum_pos prevExponent lnL nowExponent h).ne'

theorem candidate_weights_length (expF logF : K → K) (prevExponent : K)
    (lnL : List (List K)) (nowExponent : K) :
    (step3Candidate expF logF prevExponent lnL nowExponent).weightSequence.flatten.length
      = unifiedSequenceSize lnL := by
  rw [flatten_candidate_weights, flatten_weightRatioSequence, unifiedSequenceSize_eq]
  simp only [List.length_map]

theorem sumSq_eq (w : List (List K)) :
    mpiAllreduceSum (w.map (fun sub => subSum (sub.map (fun x => x * x))))
      = (w.flatten.map (fun x => x * x)).sum := by
  rw [mpiAllreduceSum_eq_sum, ← flatten_map_map, ← sum_map_sum_flatten, List.map_map]
  congr 1
  exact List.map_congr_left (fun l _ => by simp [subSum_eq_sum])

theorem effectiveSizeRatioDouble_eq (w : List (List K)) (n : Nat) :
    effectiveSizeRatioDouble w n
      = if (w.flatten.map (fun x => x * x)).sum = 0 ∨ n = 0 then DoubleValue.posInfinity
        else DoubleValue.finite (1 / (w.flatten.map (fun x => x * x)).sum / (n : K)) := by
  unfold effectiveSizeRatioDouble
  simp only [sumSq_eq]

theorem effectiveSizeRatio_eq (w : List (List K)) (n : Nat) :
    effectiveSizeRatio w n = 1 / (w.flatten.map (fun x => x * x)).sum / (n : K) := by
  unfold effectiveSizeRatio
  rw [effectiveSizeRatioDouble_eq]
  by_cases h : (w.flatten.map (fun x => x * x)).sum = 0 ∨ n = 0
  · rw [if_pos h]
    rcases h with h | h
    · rw [h]; simp
    · rw [h]; simp
  · rw [if_neg h]

theorem effectiveSizeRatioDouble_finite (w : List (List K)) (n : Nat)
    (hs : (w.flatten.map (fun x => x * x)).sum ≠ 0) (hn : n ≠ 0) :
    effectiveSizeRatioDouble w n = DoubleValue.finite (effectiveSizeRatio w n) := by
  rw [effectiveSizeRatio_eq, effectiveSizeRatioDouble_eq, if_neg (by tauto)]

/-- Bounds on the effective-size ratio of any weight sequence with positive
entries that sum to one. -/
theorem effectiveSizeRatio_bounds (w : List (List K)) (n : Nat) (hn : 0 < n)
    (hlen : w.flatten.length = n) (hpos : ∀ x ∈ w.flatten, 0 < x) (hsum : w.flatten.sum = 1) :
    1 / (n : K) ≤ effectiveSizeRatio w n ∧ effectiveSizeRatio w n ≤ 1 := by
  rw [effectiveSizeRatio_eq]
  have hn' : (0 : K) < (n : K) := by exact_mod_cast hn
  have hne : w.flatten ≠ [] := by
    apply List.length_pos.mp; omega
  have hq1 : (w.flatten.map (fun x => x * x)).sum ≤ 1 := by
    have := sum_sq_le_sq_sum w.flatten (fun x hx => (hpos x hx).le)
    rwa [hsum, mul_one] at this
  have hq2 : 1 ≤ (n : K) * (w.flatten.map (fun x => x * x)).sum := by
    have := sq_sum_le_length_mul w.flatten
    rwa [hsum, mul_one, hlen] at this
  have hq0 : 0 < (w.flatten.map (fun x => x * x)).sum := by
    apply sum_pos_of_pos
    · simpa using hne
    · intro y hy
      obtain ⟨x, hx, rfl⟩ := List.mem_map.mp hy
      exact mul_pos (hpos x hx) (hpos x hx)
  constructor
  · rw [div_le_div_iff_of_pos_right hn']
    rw [le_div_iff₀ hq0]
    linarith
  · rw [div_div, div_le_one (mul_pos hq0 hn')]
    linarith

theorem candidate_ratio_bounds (prevExponent : ℝ) (lnL : List (List ℝ)) (nowExponent : ℝ)
    (h : 0 < unifiedSequenceSize lnL) :
    1 / (unifiedSequenceSize lnL : ℝ)
        ≤ (step3Candidate Real.exp Real.log prevExponent lnL nowExponent).nowEffectiveSizeRatio
      ∧ (step3Candidate Real.exp Real.log prevExponent lnL nowExponent).nowEffectiveSizeRatio
        ≤ 1 :=
  effectiveSizeRatio_bounds _ _ h (candidate_weights_length Real.exp Real.log _ _ _)
    (candidate_weights_nonneg prevExponent lnL nowExponent h)
    (candidate_weights_sum prevExponent lnL nowExponent h)

end Step3Lemmas

section Step3Loop
variable {K : Type} [LinearOrderedField K]

theorem step3Attempt_returned_eq (expF logF : K → K)
    (o : uqMLSamplingLevelOptionsClass K) (prev : K) (lnL : List (List K))
    (s s1 : Step3State K)
    (h : step3Attempt expF logF o prev lnL s = Outcome.returned s1) :
    s1 = step3NextState expF logF o prev lnL s := by
  unfold step3Attempt at h
  split at h
  · exact Outcome.noConfusion h
  · exact (Outcome.returned.inj h).symm

theorem candidate_sumSq_pos (prev : ℝ) (lnL : List (List ℝ)) (b : ℝ)
    (hN : 0 < unifiedSequenceSize lnL) :
    0 < ((step3Candidate Real.exp Real.log prev lnL b).weightSequence.flatten.map
      (fun x => x * x)).sum := by
  have hpos := candidate_weights_nonneg prev lnL b hN
  apply sum_pos_of_pos
  · have hl := candidate_weights_length Real.exp Real.log prev lnL b
    intro hnil
    have hz := congrArg List.length hnil
    rw [List.length_map, hl, List.length_nil] at hz
    omega
  · intro y hy
    obtain ⟨x, hx, rfl⟩ := List.mem_map.mp hy
    exact mul_pos (hpos x hx) (hpos x hx)

theorem step3Attempt_real (o : uqMLSamplingLevelOptionsClass ℝ) (prev : ℝ)
    (lnL : List (List ℝ)) (s : Step3State ℝ) (hN : 0 < unifiedSequenceSize lnL) :
    step3Attempt Real.exp Real.log o prev lnL s
      = Outcome.returned (step3NextState Real.exp Real.log o prev lnL s) := by
  unfold step3Attempt
  rw [if_neg]
  have h := (candidate_ratio_bounds prev lnL (step3Bracket o s).2.2 hN).2
  have hw : (step3NextState Real.exp Real.log o prev lnL s).weightSequence
      = (step3Candidate Real.exp Real.log prev lnL (step3Bracket o s).2.2).weightSequence :=
    rfl
  have h1 : (step3Candidate Real.exp Real.log prev lnL (step3Bracket o s).2.2).nowEffectiveSizeRatio
      = effectiveSizeRatio
          (step3Candidate Real.exp Real.log prev lnL (step3Bracket o s).2.2).weightSequence
          (unifiedSequenceSize lnL) := rfl
  rw [hw, effectiveSizeRatioDouble_finite _ _
    (candidate_sumSq_pos prev lnL (step3Bracket o s).2.2 hN).ne' (by omega), ← h1]
  simp only [doubleGt, decide_eq_true_eq]
  intro hc
  linarith

/-- Induction along the loop: a property that holds after the first attempt
from `s` and is carried from a rejected attempt to the next one holds for
every state of the trace. -/
theorem step3Trace_forall (expF logF : K → K)
    (o : uqMLSamplingLevelOptionsClass K) (prev : K) (lnL : List (List K))
    (P : Step3State K → Prop) (Q : Step3State K → Prop)
    (hstep : ∀ s, P s → Q (step3NextState expF logF o prev lnL s)
      ∧ ((step3NextState expF logF o prev lnL s).testResult = false
          → P (step3NextState expF logF o prev lnL s))) :
    ∀ fuel s, P s → ∀ t ∈ step3Trace expF logF o prev lnL fuel s, Q t := by
  intro fuel
  induction fuel with
  | zero => intro s _ t ht; simp [step3Trace] at ht
  | succ n ih =>
    intro s hs t ht
    unfold step3Trace at ht
    cases hatt : step3Attempt expF logF o prev lnL s with
    | returned s1 =>
      rw [hatt] at ht
      have e := step3Attempt_returned_eq expF logF o prev lnL s s1 hatt
      have hq := hstep s hs
      rw [← e] at hq
      simp only [List.mem_cons] at ht
      rcases ht with rfl | ht
      · exact hq.1
      · by_cases htr : s1.testResult = false
        · rw [if_pos htr] at ht
          exact ih s1 (hq.2 htr) t ht
        · rw [if_neg htr] at ht
          simp at ht
    | fatal e => rw [hatt] at ht; simp at ht
    | running => rw [hatt] at ht; simp at ht

/-- A returned loop state is the last state of the trace and is accepted. -/
theorem step3Loop_returned (expF logF : K → K)
    (o : uqMLSamplingLevelOptionsClass K) (prev : K) (lnL : List (List K)) :
    ∀ fuel s r, step3Loop expF logF o prev lnL fuel s = Outcome.returned r →
      r ∈ step3Trace expF logF o prev lnL fuel s ∧ r.testResult = true := by
  intro fuel
  induction fuel with
  | zero => intro s r h; simp [step3Loop] at h
  | succ n ih =>
    intro s r h
    unfold step3Loop at h
    unfold step3Trace
    cases hatt : step3Attempt expF logF o prev lnL s with
    | returned s1 =>
      rw [hatt] at h
      simp only at h ⊢
      by_cases htr : s1.testResult = false
      · rw [if_pos htr] at h ⊢
        have := ih s1 r h
        exact ⟨List.mem_cons_of_mem _ this.1, this.2⟩
      · rw [if_neg htr] at h ⊢
        have e := Outcome.returned.inj h
        subst e
        exact ⟨List.mem_cons_self _ _, by simpa using htr⟩
    | fatal e => rw [hatt] at h; simp at h
    | running => rw [hatt] at h; simp at h

/-- Adjacent states of the trace: the earlier one was rejected and the later
one is the result of the next iteration. -/
theorem step3Trace_chain (expF logF : K → K)
    (o : uqMLSamplingLevelOptionsClass K) (prev : K) (lnL : List (List K)) :
    ∀ fuel s, List.Chain' (fun t1 t2 => t1.testResult = false
        ∧ t2 = step3NextState expF logF o prev lnL t1)
      (step3Trace expF logF o prev lnL fuel s) := by
  intro fuel
  induction fuel with
  | zero => intro s; simp [step3Trace]
  | succ n ih =>
    intro s
    unfold step3Trace
    cases hatt : step3Attempt expF logF o prev lnL s with
    | returned s1 =>
      simp only
      by_cases htr : s1.testResult = false
      · rw [if_pos htr]
        rw [List.chain'_cons']
        refine ⟨?_, ih s1⟩
        intro t2 ht2
        refine ⟨htr, ?_⟩
        cases n with
        | zero => simp [step3Trace] at ht2
        | succ m =>
          unfold step3Trace at ht2
          cases hatt2 : step3Attempt expF logF o prev lnL s1 with
          | returned s2 =>
            rw [hatt2] at ht2
            simp only [List.head?_cons, Option.mem_def, Option.some.injEq] at ht2
            subst ht2
            exact step3Attempt_returned_eq expF logF o prev lnL s1 _ hatt2
          | fatal e => rw [hatt2] at ht2; simp at ht2
          | running => rw [hatt2] at ht2; simp at ht2
      · rw [if_neg htr]
        simp
    | fatal e => simp
    | running => simp

theorem generateSequence_Step3_returned (expF logF : K → K) (fuel : Nat)
    (o : uqMLSamplingLevelOptionsClass K) (lnL : List (List K)) (prev : K) (L : List K)
    (res : Step3Result K)
    (h : generateSequence_Step3 expF logF fuel o lnL prev L = Outcome.returned res) :
    ∃ s, step3Loop expF logF o prev lnL fuel (step3Init prev) = Outcome.returned s
      ∧ res = ⟨s.nowExponent, s.weightSequence, L ++ [s.nowUnifiedEvidenceLnFactor],
          s.nowAttempt, s.nowEffectiveSizeRatio⟩ := by
  unfold generateSequence_Step3 at h
  cases hl : step3Loop expF logF o prev lnL fuel (step3Init prev) with
  | returned s =>
    rw [hl] at h
    exact ⟨s, rfl, (Outcome.returned.inj h).symm⟩
  | fatal e => rw [hl] at h; simp at h
  | running => rw [hl] at h; simp at h

/-- Every state of the trace carries the weights, evidence factor and ratio
that `step3Candidate` computes for its own `nowExponent`. -/
theorem step3Trace_candidate (expF logF : K → K)
    (o : uqMLSamplingLevelOptionsClass K) (prev : K) (lnL : List (List K))
    (fuel : Nat) (s : Step3State K) :
    ∀ t ∈ step3Trace expF logF o prev lnL fuel s,
      t.weightSequence = (step3Candidate expF logF prev lnL t.nowExponent).weightSequence
      ∧ t.nowUnifiedEvidenceLnFactor
        = (step3Candidate expF logF prev lnL t.nowExponent).nowUnifiedEvidenceLnFactor
      ∧ t.nowEffectiveSizeRatio
        = (step3Candidate expF logF prev lnL t.nowExponent).nowEffectiveSizeRatio
      ∧ t.testResult =
        ((decide (t.nowExponent = 1)
            && decide (t.nowEffectiveSizeRatio > meanEffectiveSizeRatio o))
          || (decide (t.nowEffectiveSizeRatio ≥ o.m_minEffectiveSizeRatio)
            && decide (t.nowEffectiveSizeRatio ≤ o.m_maxEffectiveSizeRatio))) :=
  step3Trace_forall expF logF o prev lnL (fun _ => True) _
    (fun _ _ => ⟨⟨rfl, rfl, rfl, rfl⟩, fun _ => trivial⟩) fuel s trivial

end Step3Loop

theorem example_size : unifiedSequenceSize ([[0], [0]] : List (List ℝ)) = 2 := by
  simp [unifiedSequenceSize]

theorem example_candidate (prev b : ℝ) :
    step3Candidate Real.exp Real.log prev [[0], [0]] b = ⟨[[1 / 2], [1 / 2]], 0, 1⟩ := by
  simp [step3Candidate, effectiveSizeRatio_eq, unifiedWeightRatioSum, weightRatioSequence,
    omegaLnDiffSequence, unifiedMax, mpiAllreduceSum, subSum, example_size]
  norm_num

theorem example_run :
    generateSequence_Step3 Real.exp Real.log 1 (exampleOptions ℝ) [[0], [0]] 0 []
      = Outcome.returned ⟨1, [[1 / 2], [1 / 2]], [0], 1, 1⟩ := by
  have hN : 0 < unifiedSequenceSize ([[0], [0]] : List (List ℝ)) := by
    rw [example_size]; norm_num
  simp [generateSequence_Step3, step3Loop, step3Attempt_real _ _ _ _ hN, step3NextState,
    step3Bracket, step3Init, example_candidate, meanEffectiveSizeRatio, exampleOptions]
  norm_num

theorem mem_flatten_of_mem {α : Type} (L : List (List α)) (sub : List α) (x : α)
    (hs : sub ∈ L) (hx : x ∈ sub) : x ∈ L.flatten :=
  List.mem_flatten.mpr ⟨sub, hs, hx⟩

theorem sum_map_exp_sub (xs : List ℝ) (m : ℝ) :
    (xs.map (fun x => Real.exp (x - m))).sum = (xs.map Real.exp).sum / Real.exp m := by
  induction xs with
  | nil => simp
  | cons x xs ih =>
    rw [List.map_cons, List.sum_cons, ih, List.map_cons, List.sum_cons, Real.exp_sub, add_div]

theorem sum_map_exp_pos (xs : List ℝ) (hne : xs ≠ []) : 0 < (xs.map Real.exp).sum := by
  apply sum_pos_of_pos
  · simpa using hne
  · intro y hy
    obtain ⟨x, _, rfl⟩ := List.mem_map.mp hy
    exact Real.exp_pos x

theorem flatten_omegaLnDiffSequence {K : Type} [LinearOrderedField K] (prev : K)
    (lnL : List (List K)) (b : K) :
    (omegaLnDiffSequence prev lnL b).flatten
      = lnL.flatten.map (fun l => l * step3AuxExponent prev b) := by
  unfold omegaLnDiffSequence
  rw [flatten_map_map]

theorem unifiedWeightRatioSum_shift (prev : ℝ) (lnL : List (List ℝ)) (b : ℝ) :
    unifiedWeightRatioSum Real.exp prev lnL b
      = ((omegaLnDiffSequence prev lnL b).flatten.map
          (fun x => Real.exp (x - unifiedMax (omegaLnDiffSequence prev lnL b)))).sum := by
  rw [unifiedWeightRatioSum_eq, flatten_omegaLnDiffSequence, List.map_map]
  rfl

theorem specLogWeight_eq (prev b l : ℝ) (h0 : 0 ≤ prev) :
    specLogWeight prev b l = l * step3AuxExponent prev b := by
  unfold specLogWeight step3AuxExponent
  rcases h0.lt_or_eq with h | h
  · rw [if_pos h, if_pos h.ne']
  · subst h
    rw [if_neg (lt_irrefl _), if_neg (not_not.mpr rfl)]
    ring

/-- The normalised weights do not depend on the shift by the maximum. -/
theorem candidate_weights_formula (prev : ℝ) (lnL : List (List ℝ)) (b : ℝ) :
    (step3Candidate Real.exp Real.log prev lnL b).weightSequence
      = lnL.map (fun sub => sub.map (fun l =>
          Real.exp (l * step3AuxExponent prev b)
            / (lnL.flatten.map (fun l1 => Real.exp (l1 * step3AuxExponent prev b))).sum)) := by
  simp only [step3Candidate, weightRatioSequence, omegaLnDiffSequence, List.map_map]
  apply List.map_congr_left
  intro sub _
  simp only [Function.comp_apply, List.map_map]
  apply List.map_congr_left
  intro l _
  simp only [Function.comp_apply]
  rw [unifiedWeightRatioSum_eq]
  have hsum := sum_map_exp_sub (lnL.flatten.map (fun l1 => l1 * step3AuxExponent prev b))
    (unifiedMax (omegaLnDiffSequence prev lnL b))
  simp only [List.map_map, Function.comp_def] at hsum
  simp only [omegaLnDiffSequence] at hsum ⊢
  rw [hsum, Real.exp_sub]
  have he := (Real.exp_pos (unifiedMax
    (List.map (fun sub => List.map (fun l => l * step3AuxExponent prev b) sub) lnL))).ne'
  field_simp

/-- The evidence factor of a candidate in closed form, without the shift. -/
theorem candidate_evidence_formula (prev : ℝ) (lnL : List (List ℝ)) (b : ℝ)
    (hN : 0 < unifiedSequenceSize lnL) :
    (step3Candidate Real.exp Real.log prev lnL b).nowUnifiedEvidenceLnFactor
      = Real.log (1 / (unifiedSequenceSize lnL : ℝ)
          * ((omegaLnDiffSequence prev lnL b).flatten.map Real.exp).sum) := by
  simp only [step3Candidate]
  rw [unifiedWeightRatioSum_shift, sum_map_exp_sub]
  have hne : (omegaLnDiffSequence prev lnL b).flatten ≠ [] := by
    rw [flatten_omegaLnDiffSequence]
    simpa using flatten_ne_nil_of_size_pos lnL hN
  have hT := sum_map_exp_pos _ hne
  have hn : (0 : ℝ) < (unifiedSequenceSize lnL : ℝ) := by exact_mod_cast hN
  rw [Real.log_div hT.ne' (Real.exp_pos _).ne', Real.log_exp,
    Real.log_mul (one_div_pos.mpr hn).ne' hT.ne', Real.log_div one_ne_zero hn.ne',
    Real.log_one]
  ring

theorem example2_size : unifiedSequenceSize ([[0], [-10, -10]] : List (List ℝ)) = 3 := by
  simp [unifiedSequenceSize]

theorem exp_neg_ten_le : Real.exp (-10) ≤ 1 / 11 := by
  have h : (11 : ℝ) ≤ Real.exp 10 := by
    have := Real.add_one_le_exp (10 : ℝ)
    linarith
  rw [Real.exp_neg, inv_eq_one_div]
  exact one_div_le_one_div_of_le (by norm_num) h

/-- On the sequence `[[0], [-10, -10]]` with `β_prev = 0` the ratio at the
candidate `1` is below `1/2`. -/
theorem example2_ratio_lt :
    (step3Candidate Real.exp Real.log 0 [[0], [-10, -10]] 1).nowEffectiveSizeRatio < 1 / 2 := by
  have h1 : (step3Candidate Real.exp Real.log 0 [[0], [-10, -10]] 1).nowEffectiveSizeRatio
      = effectiveSizeRatio (step3Candidate Real.exp Real.log 0 [[0], [-10, -10]]
          1).weightSequence (unifiedSequenceSize ([[0], [-10, -10]] : List (List ℝ))) := rfl
  rw [h1, effectiveSizeRatio_eq, candidate_weights_formula, example2_size]
  have ha := exp_neg_ten_le
  have hp := Real.exp_pos (-10)
  simp [step3AuxExponent]
  generalize Real.exp (-10) = a at ha hp ⊢
  have hT : 0 < 1 + (a + a) := by linarith
  have e : (1 + (a + a))⁻¹ * (1 + (a + a))⁻¹
      + (a / (1 + (a + a)) * (a / (1 + (a + a))) + a / (1 + (a + a)) * (a / (1 + (a + a))))
      = (1 + 2 * a ^ 2) / (1 + (a + a)) ^ 2 := by
    field_simp
    ring
  rw [e, inv_div, div_div, div_lt_iff₀ (by positivity)]
  have hT2 : 1 + (a + a) ≤ 13 / 11 := by linarith
  have hsq := mul_self_le_mul_self hT.le hT2
  nlinarith [sq_nonneg a]

/-- C1: for a globally non-empty previous log-likelihood sequence, the weights
that step 3 computes for any candidate exponent, and the weights it leaves in
`weightSequence` when it returns, are all `≥ 0` and their sum over the whole
inter-group partition is exactly `1`. -/
theorem step3_weights_nonneg_sum_one (currOptions : uqMLSamplingLevelOptionsClass ℝ)
    (prevExponent : ℝ) (prevLogLikelihoodValues : List (List ℝ))
    (m_logEvidenceFactors : List ℝ)
    (hN : 0 < unifiedSequenceSize prevLogLikelihoodValues) :
    (∀ nowExponent : ℝ,
      (∀ sub ∈ (step3Candidate Real.exp Real.log prevExponent prevLogLikelihoodValues
          nowExponent).weightSequence, ∀ w ∈ sub, 0 ≤ w)
      ∧ mpiAllreduceSum ((step3Candidate Real.exp Real.log prevExponent
          prevLogLikelihoodValues nowExponent).weightSequence.map subSum) = 1)
    ∧ (∀ fuel res,
      generateSequence_Step3 Real.exp Real.log fuel currOptions prevLogLikelihoodValues
          prevExponent m_logEvidenceFactors = Outcome.returned res →
        (∀ sub ∈ res.weightSequence, ∀ w ∈ sub, 0 ≤ w)
        ∧ mpiAllreduceSum (res.weightSequence.map subSum) = 1) := by
  have hcand : ∀ nowExponent : ℝ,
      (∀ sub ∈ (step3Candidate Real.exp Real.log prevExponent prevLogLikelihoodValues
          nowExponent).weightSequence, ∀ w ∈ sub, 0 ≤ w)
      ∧ mpiAllreduceSum ((step3Candidate Real.exp Real.log prevExponent
          prevLogLikelihoodValues nowExponent).weightSequence.map subSum) = 1 := by
    intro b
    refine ⟨fun sub hs w hw => ?_, ?_⟩
    · exact (candidate_weights_nonneg prevExponent prevLogLikelihoodValues b hN w
        (mem_flatten_of_mem _ sub w hs hw)).le
    · rw [unified_sum_eq]
      exact candidate_weights_sum prevExponent prevLogLikelihoodValues b hN
  refine ⟨hcand, ?_⟩
  intro fuel res h
  obtain ⟨s, hs, rfl⟩ := generateSequence_Step3_returned _ _ _ _ _ _ _ _ h
  have hmem := (step3Loop_returned _ _ _ _ _ _ _ _ hs).1
  have hc := (step3Trace_candidate _ _ _ _ _ _ _ s hmem).1
  simp only
  rw [hc]
  exact hcand s.nowExponent

/-- Witness of C1 on two ranks holding one position each. -/
theorem step3_weights_nonneg_sum_one_witness :
    (∀ sub ∈ ([[1 / 2], [1 / 2]] : List (List ℝ)), ∀ w ∈ sub, 0 ≤ w)
      ∧ mpiAllreduceSum (([[1 / 2], [1 / 2]] : List (List ℝ)).map subSum) = 1 :=
  (step3_weights_nonneg_sum_one (exampleOptions ℝ) 0 [[0], [0]] []
    (by simp [unifiedSequenceSize])).2 1 ⟨1, [[1 / 2], [1 / 2]], [0], 1, 1⟩ example_run

/-- C2: for a globally non-empty sequence of size `N` and any candidate
exponent, the effective-size ratio computed by step 3 is
`1 / (N * Σ w_i^2)` and satisfies `1/N ≤ ratio ≤ 1`, hence
`0 ≤ ratio ≤ 1 + 1e-8`; the fatal test on the ratio never fires, in any
iteration and in any run. -/
theorem step3_ratio_bounds (currOptions : uqMLSamplingLevelOptionsClass ℝ)
    (prevExponent : ℝ) (prevLogLikelihoodValues : List (List ℝ))
    (hN : 0 < unifiedSequenceSize prevLogLikelihoodValues) :
    (∀ nowExponent : ℝ,
      (step3Candidate Real.exp Real.log prevExponent prevLogLikelihoodValues
          nowExponent).nowEffectiveSizeRatio
        = 1 / ((unifiedSequenceSize prevLogLikelihoodValues : ℝ)
            * ((step3Candidate Real.exp Real.log prevExponent prevLogLikelihoodValues
                nowExponent).weightSequence.flatten.map (fun w => w ^ 2)).sum)
      ∧ 1 / (unifiedSequenceSize prevLogLikelihoodValues : ℝ)
        ≤ (step3Candidate Real.exp Real.log prevExponent prevLogLikelihoodValues
            nowExponent).nowEffectiveSizeRatio
      ∧ (step3Candidate Real.exp Real.log prevExponent prevLogLikelihoodValues
            nowExponent).nowEffectiveSizeRatio ≤ 1
      ∧ 0 ≤ (step3Candidate Real.exp Real.log prevExponent prevLogLikelihoodValues
            nowExponent).nowEffectiveSizeRatio
      ∧ (step3Candidate Real.exp Real.log prevExponent prevLogLikelihoodValues
            nowExponent).nowEffectiveSizeRatio ≤ 1 + 1 / 100000000)
    ∧ (∀ (s : Step3State ℝ) (e : FatalError),
      step3Attempt Real.exp Real.log currOptions prevExponent prevLogLikelihoodValues s
        ≠ Outcome.fatal e)
    ∧ (∀ (fuel : Nat) (m_logEvidenceFactors : List ℝ) (e : FatalError),
      generateSequence_Step3 Real.exp Real.log fuel currOptions prevLogLikelihoodValues
        prevExponent m_logEvidenceFactors ≠ Outcome.fatal e) := by
  have hn : (0 : ℝ) < (unifiedSequenceSize prevLogLikelihoodValues : ℝ) := by exact_mod_cast hN
  refine ⟨fun b => ?_, fun s e => ?_, fun fuel L e => ?_⟩
  · have hb := candidate_ratio_bounds prevExponent prevLogLikelihoodValues b hN
    refine ⟨?_, hb.1, hb.2, ?_, ?_⟩
    · have h1 : (step3Candidate Real.exp Real.log prevExponent prevLogLikelihoodValues
          b).nowEffectiveSizeRatio
          = effectiveSizeRatio (step3Candidate Real.exp Real.log prevExponent
              prevLogLikelihoodValues b).weightSequence
              (unifiedSequenceSize prevLogLikelihoodValues) := rfl
      rw [h1, effectiveSizeRatio_eq, div_div, mul_comm]
      simp only [pow_two]
    · exact le_trans (div_nonneg zero_le_one hn.le) hb.1
    · linarith [hb.2]
  · rw [step3Attempt_real currOptions prevExponent prevLogLikelihoodValues s hN]
    exact fun h => Outcome.noConfusion h
  · have hloop : ∀ (n : Nat) (s : Step3State ℝ) (e1 : FatalError),
        step3Loop Real.exp Real.log currOptions prevExponent prevLogLikelihoodValues n s
          ≠ Outcome.fatal e1 := by
      intro n
      induction n with
      | zero => intro s e1 h; simp [step3Loop] at h
      | succ n ih =>
        intro s e1
        unfold step3Loop
        rw [step3Attempt_real currOptions prevExponent prevLogLikelihoodValues s hN]
        simp only
        split
        · exact ih _ e1
        · exact fun h => Outcome.noConfusion h
    unfold generateSequence_Step3
    cases hl : step3Loop Real.exp Real.log currOptions prevExponent prevLogLikelihoodValues
        fuel (step3Init prevExponent) with
    | returned s => simp
    | fatal e1 => exact absurd hl (hloop fuel _ e1)
    | running => simp

/-- Witness of C2: on two ranks with one position each (`N = 2`) the ratio at
the candidate `1` lies in `[1/2, 1]`. -/
theorem step3_ratio_bounds_witness :
    0 < unifiedSequenceSize ([[0], [0]] : List (List ℝ))
      ∧ 1 / (unifiedSequenceSize ([[0], [0]] : List (List ℝ)) : ℝ)
        ≤ (step3Candidate Real.exp Real.log 0 [[0], [0]] 1).nowEffectiveSizeRatio
      ∧ (step3Candidate Real.exp Real.log 0 [[0], [0]] 1).nowEffectiveSizeRatio ≤ 1 :=
  ⟨by simp [unifiedSequenceSize],
    ((step3_ratio_bounds (exampleOptions ℝ) 0 [[0], [0]]
      (by simp [unifiedSequenceSize])).1 1).2.1,
    ((step3_ratio_bounds (exampleOptions ℝ) 0 [[0], [0]]
      (by simp [unifiedSequenceSize])).1 1).2.2.1⟩

/-- C3: when step 3 returns the exponent `β` (for `β_prev ≥ 0`), every
returned weight is `exp(ω_i) / Σ_j exp(ω_j)`, the sum running over all
positions of all ranks, with `ω` the log-weights of the spec for the returned
`β`: `lnL_prev[i] · (β/β_prev − 1)` if `β_prev > 0` and `β · lnL_prev[i]` if
`β_prev = 0`. -/
theorem step3_weights_formula (currOptions : uqMLSamplingLevelOptionsClass ℝ)
    (prevExponent : ℝ) (prevLogLikelihoodValues : List (List ℝ))
    (m_logEvidenceFactors : List ℝ) (fuel : Nat) (res : Step3Result ℝ)
    (h0 : 0 ≤ prevExponent)
    (h : generateSequence_Step3 Real.exp Real.log fuel currOptions prevLogLikelihoodValues
      prevExponent m_logEvidenceFactors = Outcome.returned res) :
    res.weightSequence = prevLogLikelihoodValues.map (fun sub => sub.map (fun l =>
      Real.exp (specLogWeight prevExponent res.currExponent l)
        / (prevLogLikelihoodValues.flatten.map
            (fun l1 => Real.exp (specLogWeight prevExponent res.currExponent l1))).sum)) := by
  obtain ⟨s, hs, rfl⟩ := generateSequence_Step3_returned _ _ _ _ _ _ _ _ h
  have hmem := (step3Loop_returned _ _ _ _ _ _ _ _ hs).1
  have hc := (step3Trace_candidate _ _ _ _ _ _ _ s hmem).1
  simp only
  rw [hc, candidate_weights_formula]
  simp only [specLogWeight_eq _ _ _ h0]

/-- Witness of C3 on two ranks holding one position each. -/
theorem step3_weights_formula_witness :
    (0 : ℝ) ≤ 0
      ∧ ([[1 / 2], [1 / 2]] : List (List ℝ)) = ([[0], [0]] : List (List ℝ)).map
        (fun sub => sub.map (fun l => Real.exp (specLogWeight 0 1 l)
          / ((([[0], [0]] : List (List ℝ)).flatten).map
              (fun l1 => Real.exp (specLogWeight 0 1 l1))).sum)) :=
  ⟨le_refl 0, step3_weights_formula (exampleOptions ℝ) 0 [[0], [0]] [] 1
    ⟨1, [[1 / 2], [1 / 2]], [0], 1, 1⟩ (le_refl 0) example_run⟩

/-- C4: a call of step 3 that returns appends exactly one value to
`m_logEvidenceFactors`; that value is
`ln(Σ_i e^(ω_i − ω_max)) + ω_max − ln N` for the returned exponent and equals
`ln((1/N) · Σ_i e^(ω_i))`, the sums running over all positions of all ranks of
a globally non-empty sequence. -/
theorem step3_evidence_factor (currOptions : uqMLSamplingLevelOptionsClass ℝ)
    (prevExponent : ℝ) (prevLogLikelihoodValues : List (List ℝ))
    (m_logEvidenceFactors : List ℝ) (fuel : Nat) (res : Step3Result ℝ)
    (hN : 0 < unifiedSequenceSize prevLogLikelihoodValues)
    (h : generateSequence_Step3 Real.exp Real.log fuel currOptions prevLogLikelihoodValues
      prevExponent m_logEvidenceFactors = Outcome.returned res) :
    ∃ v : ℝ, res.m_logEvidenceFactors = m_logEvidenceFactors ++ [v]
      ∧ v = Real.log (((omegaLnDiffSequence prevExponent prevLogLikelihoodValues
              res.currExponent).flatten.map (fun o => Real.exp (o - unifiedMax
                (omegaLnDiffSequence prevExponent prevLogLikelihoodValues
                  res.currExponent)))).sum)
          + unifiedMax (omegaLnDiffSequence prevExponent prevLogLikelihoodValues
              res.currExponent)
          - Real.log (unifiedSequenceSize prevLogLikelihoodValues : ℝ)
      ∧ v = Real.log (1 / (unifiedSequenceSize prevLogLikelihoodValues : ℝ)
          * ((omegaLnDiffSequence prevExponent prevLogLikelihoodValues
              res.currExponent).flatten.map Real.exp).sum) := by
  obtain ⟨s, hs, rfl⟩ := generateSequence_Step3_returned _ _ _ _ _ _ _ _ h
  have hmem := (step3Loop_returned _ _ _ _ _ _ _ _ hs).1
  have hc := (step3Trace_candidate _ _ _ _ _ _ _ s hmem).2.1
  refine ⟨s.nowUnifiedEvidenceLnFactor, rfl, ?_, ?_⟩
  · rw [hc, ← unifiedWeightRatioSum_shift]
    rfl
  · rw [hc]
    exact candidate_evidence_formula prevExponent prevLogLikelihoodValues s.nowExponent hN

/-- Witness of C4 on two ranks holding one position each: the factor `0` is
appended to the empty list. -/
theorem step3_evidence_factor_witness :
    0 < unifiedSequenceSize ([[0], [0]] : List (List ℝ))
      ∧ ∃ v : ℝ, ([0] : List ℝ) = [] ++ [v]
        ∧ v = Real.log (((omegaLnDiffSequence 0 ([[0], [0]] : List (List ℝ))
                1).flatten.map (fun o => Real.exp (o - unifiedMax
                  (omegaLnDiffSequence 0 ([[0], [0]] : List (List ℝ)) 1)))).sum)
            + unifiedMax (omegaLnDiffSequence 0 ([[0], [0]] : List (List ℝ)) 1)
            - Real.log (unifiedSequenceSize ([[0], [0]] : List (List ℝ)) : ℝ)
        ∧ v = Real.log (1 / (unifiedSequenceSize ([[0], [0]] : List (List ℝ)) : ℝ)
            * ((omegaLnDiffSequence 0 ([[0], [0]] : List (List ℝ)) 1).flatten.map
                Real.exp).sum) :=
  ⟨by simp [unifiedSequenceSize],
    step3_evidence_factor (exampleOptions ℝ) 0 [[0], [0]] [] 1
      ⟨1, [[1 / 2], [1 / 2]], [0], 1, 1⟩ (by simp [unifiedSequenceSize]) example_run⟩

theorem example2_first_rejected :
    (step3NextState Real.exp Real.log (exampleOptions ℝ) 0 [[0], [-10, -10]]
      (step3Init 0)).testResult = false := by
  have h := example2_ratio_lt
  simp only [step3NextState, step3Bracket, step3Init, meanEffectiveSizeRatio, exampleOptions,
    gt_iff_lt, lt_self_iff_false, if_false, ge_iff_le]
  simp only [one_div, Bool.or_eq_false_iff, Bool.and_eq_false_iff, decide_eq_false_iff_not,
    not_lt, not_le]
  generalize (step3Candidate Real.exp Real.log 0 [[0], [-10, -10]] 1).nowEffectiveSizeRatio
    = r at h
  refine ⟨Or.inr ?_, Or.inl ?_⟩
  · norm_num at h ⊢; linarith
  · norm_num at h ⊢; linarith

/-- On the sequence `[[0], [-10, -10]]` the loop makes a second attempt. -/
theorem example2_trace :
    step3Trace Real.exp Real.log (exampleOptions ℝ) 0 [[0], [-10, -10]] 2 (step3Init 0)
      = [step3NextState Real.exp Real.log (exampleOptions ℝ) 0 [[0], [-10, -10]] (step3Init 0),
         step3NextState Real.exp Real.log (exampleOptions ℝ) 0 [[0], [-10, -10]]
          (step3NextState Real.exp Real.log (exampleOptions ℝ) 0 [[0], [-10, -10]]
            (step3Init 0))] := by
  have hN : 0 < unifiedSequenceSize ([[0], [-10, -10]] : List (List ℝ)) := by
    rw [example2_size]; norm_num
  unfold step3Trace
  rw [step3Attempt_real _ _ _ _ hN]
  simp only
  rw [if_pos example2_first_rejected]
  unfold step3Trace
  rw [step3Attempt_real _ _ _ _ hN]
  simp [step3Trace]

theorem step3Trace_attempt_pos {K : Type} [LinearOrderedField K] (expF logF : K → K)
    (o : uqMLSamplingLevelOptionsClass K) (prev : K) (lnL : List (List K))
    (fuel : Nat) (s : Step3State K) :
    ∀ t ∈ step3Trace expF logF o prev lnL fuel s, 0 < t.nowAttempt :=
  step3Trace_forall expF logF o prev lnL (fun _ => True) _
    (fun s _ => ⟨Nat.succ_pos s.nowAttempt, fun _ => trivial⟩) fuel s trivial

theorem step3Trace_ratio {K : Type} [LinearOrderedField K] (expF logF : K → K)
    (o : uqMLSamplingLevelOptionsClass K) (prev : K) (lnL : List (List K))
    (fuel : Nat) (s t : Step3State K) (ht : t ∈ step3Trace expF logF o prev lnL fuel s) :
    t.nowEffectiveSizeRatio = effectiveSizeRatio t.weightSequence (unifiedSequenceSize lnL) := by
  have h := step3Trace_candidate expF logF o prev lnL fuel s t ht
  rw [h.2.2.1, h.1]
  rfl

/-- C5: when step 3 returns `currExponent`, the effective-size ratio of the
returned weights lies in `[r_min, r_max]`, or `currExponent = 1` and the ratio
exceeds the midpoint `(r_min + r_max)/2`; and in every run, the iteration that
follows a rejected candidate works with the bracket in which the candidate
has replaced the lower endpoint when its ratio exceeded the midpoint target
and the upper endpoint otherwise, and tries the midpoint of that bracket. -/
theorem step3_accept_and_bisect (currOptions : uqMLSamplingLevelOptionsClass ℝ)
    (prevExponent : ℝ) (prevLogLikelihoodValues : List (List ℝ))
    (m_logEvidenceFactors : List ℝ) (fuel : Nat) :
    (∀ res, generateSequence_Step3 Real.exp Real.log fuel currOptions
        prevLogLikelihoodValues prevExponent m_logEvidenceFactors = Outcome.returned res →
      (currOptions.m_minEffectiveSizeRatio
          ≤ effectiveSizeRatio res.weightSequence (unifiedSequenceSize prevLogLikelihoodValues)
        ∧ effectiveSizeRatio res.weightSequence (unifiedSequenceSize prevLogLikelihoodValues)
          ≤ currOptions.m_maxEffectiveSizeRatio)
      ∨ (res.currExponent = 1
        ∧ effectiveSizeRatio res.weightSequence (unifiedSequenceSize prevLogLikelihoodValues)
          > (currOptions.m_minEffectiveSizeRatio + currOptions.m_maxEffectiveSizeRatio) / 2))
    ∧ List.Chain' (fun t1 t2 =>
        t1.testResult = false
        ∧ t2.exponents0
          = (if effectiveSizeRatio t1.weightSequence (unifiedSequenceSize prevLogLikelihoodValues)
                > (currOptions.m_minEffectiveSizeRatio
                    + currOptions.m_maxEffectiveSizeRatio) / 2
              then t1.nowExponent else t1.exponents0)
        ∧ t2.exponents1
          = (if effectiveSizeRatio t1.weightSequence (unifiedSequenceSize prevLogLikelihoodValues)
                > (currOptions.m_minEffectiveSizeRatio
                    + currOptions.m_maxEffectiveSizeRatio) / 2
              then t1.exponents1 else t1.nowExponent)
        ∧ t2.nowExponent = (t2.exponents0 + t2.exponents1) / 2)
      (step3Trace Real.exp Real.log currOptions prevExponent prevLogLikelihoodValues fuel
        (step3Init prevExponent)) := by
  have hmean : meanEffectiveSizeRatio currOptions
      = (currOptions.m_minEffectiveSizeRatio + currOptions.m_maxEffectiveSizeRatio) / 2 := by
    unfold meanEffectiveSizeRatio; ring
  constructor
  · intro res h
    obtain ⟨s, hs, rfl⟩ := generateSequence_Step3_returned _ _ _ _ _ _ _ _ h
    obtain ⟨hmem, hacc⟩ := step3Loop_returned _ _ _ _ _ _ _ _ hs
    have hr := step3Trace_ratio _ _ _ _ _ _ _ s hmem
    have hc := (step3Trace_candidate _ _ _ _ _ _ _ s hmem).2.2.2
    simp only
    rw [← hr, ← hmean]
    rw [hacc] at hc
    have hc2 := hc.symm
    simp only [Bool.or_eq_true, Bool.and_eq_true, decide_eq_true_eq] at hc2
    rcases hc2 with h1 | h1
    · exact Or.inr h1
    · exact Or.inl h1
  · have hch := step3Trace_chain Real.exp Real.log currOptions prevExponent
      prevLogLikelihoodValues fuel (step3Init prevExponent)
    rw [List.Chain'.iff_mem] at hch
    refine hch.imp ?_
    rintro t1 t2 ⟨hm1, _, hrej, rfl⟩
    have hpos := step3Trace_attempt_pos _ _ _ _ _ _ _ t1 hm1
    have hr := step3Trace_ratio _ _ _ _ _ _ _ t1 hm1
    rw [← hr, ← hmean]
    refine ⟨hrej, ?_, ?_, ?_⟩
    · simp only [step3NextState, step3Bracket, if_pos hpos]
    · simp only [step3NextState, step3Bracket, if_pos hpos]
    · simp only [step3NextState, step3Bracket, if_pos hpos]
      ring

/-- Witness of C5: a run on two ranks that returns at the first attempt, with
exponent `1` and ratio `1` above the midpoint `7/10`; and a run on the
sequence `[[0], [-10, -10]]` whose first candidate is rejected, so that a
second attempt follows. -/
theorem step3_accept_and_bisect_witness :
    (generateSequence_Step3 Real.exp Real.log 1 (exampleOptions ℝ) [[0], [0]] 0 []
        = Outcome.returned ⟨1, [[1 / 2], [1 / 2]], [0], 1, 1⟩
      ∧ (((exampleOptions ℝ).m_minEffectiveSizeRatio
            ≤ effectiveSizeRatio ([[1 / 2], [1 / 2]] : List (List ℝ))
                (unifiedSequenceSize ([[0], [0]] : List (List ℝ)))
          ∧ effectiveSizeRatio ([[1 / 2], [1 / 2]] : List (List ℝ))
                (unifiedSequenceSize ([[0], [0]] : List (List ℝ)))
            ≤ (exampleOptions ℝ).m_maxEffectiveSizeRatio)
        ∨ ((1 : ℝ) = 1
          ∧ effectiveSizeRatio ([[1 / 2], [1 / 2]] : List (List ℝ))
                (unifiedSequenceSize ([[0], [0]] : List (List ℝ)))
            > ((exampleOptions ℝ).m_minEffectiveSizeRatio
                + (exampleOptions ℝ).m_maxEffectiveSizeRatio) / 2)))
    ∧ (step3Trace Real.exp Real.log (exampleOptions ℝ) 0 [[0], [-10, -10]] 2
        (step3Init 0)).length = 2
    ∧ List.Chain' (fun t1 t2 =>
        t1.testResult = false
        ∧ t2.exponents0
          = (if effectiveSizeRatio t1.weightSequence
                  (unifiedSequenceSize ([[0], [-10, -10]] : List (List ℝ)))
                > ((exampleOptions ℝ).m_minEffectiveSizeRatio
                    + (exampleOptions ℝ).m_maxEffectiveSizeRatio) / 2
              then t1.nowExponent else t1.exponents0)
        ∧ t2.exponents1
          = (if effectiveSizeRatio t1.weightSequence
                  (unifiedSequenceSize ([[0], [-10, -10]] : List (List ℝ)))
                > ((exampleOptions ℝ).m_minEffectiveSizeRatio
                    + (exampleOptions ℝ).m_maxEffectiveSizeRatio) / 2
              then t1.exponents1 else t1.nowExponent)
        ∧ t2.nowExponent = (t2.exponents0 + t2.exponents1) / 2)
      (step3Trace Real.exp Real.log (exampleOptions ℝ) 0 [[0], [-10, -10]] 2
        (step3Init 0)) :=
  ⟨⟨example_run,
      (step3_accept_and_bisect (exampleOptions ℝ) 0 [[0], [0]] [] 1).1
        ⟨1, [[1 / 2], [1 / 2]], [0], 1, 1⟩ example_run⟩,
    by rw [example2_trace]; rfl,
    (step3_accept_and_bisect (exampleOptions ℝ) 0 [[0], [-10, -10]] [] 2).2⟩

/-- Invariant of the loop of step 3 at the end of an iteration. -/
theorem step3Trace_bracket (currOptions : uqMLSamplingLevelOptionsClass ℝ)
    (prevExponent : ℝ) (prevLogLikelihoodValues : List (List ℝ)) (h1 : prevExponent < 1)
    (fuel : Nat) :
    ∀ t ∈ step3Trace Real.exp Real.log currOptions prevExponent prevLogLikelihoodValues fuel
        (step3Init prevExponent),
      prevExponent ≤ t.exponents0 ∧ t.exponents0 < t.nowExponent
        ∧ t.nowExponent ≤ t.exponents1 ∧ t.exponents1 ≤ 1
        ∧ (1 < t.nowAttempt → t.nowExponent < t.exponents1)
        ∧ (t.nowAttempt ≤ 1 → t.nowExponent = 1)
        ∧ 0 < t.nowAttempt
        ∧ (t.testResult = false → t.nowExponent = 1 →
            ¬ t.nowEffectiveSizeRatio > meanEffectiveSizeRatio currOptions) := by
  refine step3Trace_forall Real.exp Real.log currOptions prevExponent prevLogLikelihoodValues
    (fun s => s = step3Init prevExponent ∨
      (s.testResult = false ∧ prevExponent ≤ s.exponents0 ∧ s.exponents0 < s.nowExponent
        ∧ s.nowExponent ≤ s.exponents1 ∧ s.exponents1 ≤ 1
        ∧ (1 < s.nowAttempt → s.nowExponent < s.exponents1)
        ∧ (s.nowAttempt ≤ 1 → s.nowExponent = 1)
        ∧ 0 < s.nowAttempt
        ∧ (s.testResult = false → s.nowExponent = 1 →
            ¬ s.nowEffectiveSizeRatio > meanEffectiveSizeRatio currOptions)))
    _ ?_ fuel (step3Init prevExponent) (Or.inl rfl)
  intro s hs
  have key : prevExponent ≤ (step3NextState Real.exp Real.log currOptions prevExponent
        prevLogLikelihoodValues s).exponents0
      ∧ (step3NextState Real.exp Real.log currOptions prevExponent
        prevLogLikelihoodValues s).exponents0
        < (step3NextState Real.exp Real.log currOptions prevExponent
        prevLogLikelihoodValues s).nowExponent
      ∧ (step3NextState Real.exp Real.log currOptions prevExponent
        prevLogLikelihoodValues s).nowExponent
        ≤ (step3NextState Real.exp Real.log currOptions prevExponent
        prevLogLikelihoodValues s).exponents1
      ∧ (step3NextState Real.exp Real.log currOptions prevExponent
        prevLogLikelihoodValues s).exponents1 ≤ 1
      ∧ (1 < (step3NextState Real.exp Real.log currOptions prevExponent
        prevLogLikelihoodValues s).nowAttempt →
          (step3NextState Real.exp Real.log currOptions prevExponent
            prevLogLikelihoodValues s).nowExponent
          < (step3NextState Real.exp Real.log currOptions prevExponent
            prevLogLikelihoodValues s).exponents1)
      ∧ ((step3NextState Real.exp Real.log currOptions prevExponent
        prevLogLikelihoodValues s).nowAttempt ≤ 1 →
          (step3NextState Real.exp Real.log currOptions prevExponent
            prevLogLikelihoodValues s).nowExponent = 1)
      ∧ 0 < (step3NextState Real.exp Real.log currOptions prevExponent
        prevLogLikelihoodValues s).nowAttempt
      ∧ ((step3NextState Real.exp Real.log currOptions prevExponent
        prevLogLikelihoodValues s).testResult = false →
          (step3NextState Real.exp Real.log currOptions prevExponent
            prevLogLikelihoodValues s).nowExponent = 1 →
          ¬ (step3NextState Real.exp Real.log currOptions prevExponent
            prevLogLikelihoodValues s).nowEffectiveSizeRatio
              > meanEffectiveSizeRatio currOptions) := by
    have hlast : ((step3NextState Real.exp Real.log currOptions prevExponent
        prevLogLikelihoodValues s).testResult = false →
          (step3NextState Real.exp Real.log currOptions prevExponent
            prevLogLikelihoodValues s).nowExponent = 1 →
          ¬ (step3NextState Real.exp Real.log currOptions prevExponent
            prevLogLikelihoodValues s).nowEffectiveSizeRatio
              > meanEffectiveSizeRatio currOptions) := by
      intro hf h1e hgt
      simp only [step3NextState] at hf h1e hgt
      simp only [Bool.or_eq_false_iff, Bool.and_eq_false_iff, decide_eq_false_iff_not] at hf
      rcases hf.1 with h | h
      · exact h h1e
      · exact h hgt
    rcases hs with rfl | ⟨hrej, ha, hb, hc, hd, he, hf, hg, hh⟩
    · refine ⟨?_, ?_, ?_, ?_, ?_, ?_, ?_, hlast⟩ <;>
        simp [step3NextState, step3Bracket, step3Init, h1, h1.le]
    · by_cases hgt : s.nowEffectiveSizeRatio > meanEffectiveSizeRatio currOptions
      · have hlt : s.nowExponent < s.exponents1 := by
          rcases Nat.lt_or_ge 1 s.nowAttempt with h2 | h2
          · exact he h2
          · exact absurd hgt (hh hrej (hf h2))
        have hbr : step3Bracket currOptions s
            = (s.nowExponent, s.exponents1, (1 / 2) * (s.nowExponent + s.exponents1)) := by
          simp only [step3Bracket, if_pos hg, if_pos hgt]
        refine ⟨?_, ?_, ?_, ?_, ?_, ?_, ?_, hlast⟩
        all_goals simp only [step3NextState, hbr]
        all_goals first
          | linarith
          | omega
          | (intro _; linarith)
      · have hbr : step3Bracket currOptions s
            = (s.exponents0, s.nowExponent, (1 / 2) * (s.exponents0 + s.nowExponent)) := by
          simp only [step3Bracket, if_pos hg, if_neg hgt]
        refine ⟨?_, ?_, ?_, ?_, ?_, ?_, ?_, hlast⟩
        all_goals simp only [step3NextState, hbr]
        all_goals first
          | linarith
          | omega
          | (intro _; linarith)
  refine ⟨key, fun hrej => Or.inr ⟨hrej, key⟩⟩

/-- C7: for `prevExponent < 1`, whenever step 3 returns,
`prevExponent < currExponent ≤ 1`; and at the end of every iteration of the
loop the bracket satisfies `prevExponent ≤ exponents[0] < exponents[1] ≤ 1`,
the candidate of the first iteration is `1`, and every later (bisected)
candidate lies strictly between the two endpoints. -/
theorem step3_bracket_invariant (currOptions : uqMLSamplingLevelOptionsClass ℝ)
    (prevExponent : ℝ) (prevLogLikelihoodValues : List (List ℝ))
    (m_logEvidenceFactors : List ℝ) (fuel : Nat) (h1 : prevExponent < 1) :
    (∀ res, generateSequence_Step3 Real.exp Real.log fuel currOptions
        prevLogLikelihoodValues prevExponent m_logEvidenceFactors = Outcome.returned res →
      prevExponent < res.currExponent ∧ res.currExponent ≤ 1)
    ∧ (∀ t ∈ step3Trace Real.exp Real.log currOptions prevExponent prevLogLikelihoodValues
        fuel (step3Init prevExponent),
      prevExponent ≤ t.exponents0 ∧ t.exponents0 < t.exponents1 ∧ t.exponents1 ≤ 1
        ∧ (t.nowAttempt = 1 → t.nowExponent = 1)
        ∧ (1 < t.nowAttempt →
            t.exponents0 < t.nowExponent ∧ t.nowExponent < t.exponents1)) := by
  have hinv := step3Trace_bracket currOptions prevExponent prevLogLikelihoodValues h1 fuel
  constructor
  · intro res h
    obtain ⟨s, hs, rfl⟩ := generateSequence_Step3_returned _ _ _ _ _ _ _ _ h
    obtain ⟨hmem, _⟩ := step3Loop_returned _ _ _ _ _ _ _ _ hs
    obtain ⟨ha, hb, hc, hd, _⟩ := hinv s hmem
    exact ⟨lt_of_le_of_lt ha hb, le_trans hc hd⟩
  · intro t ht
    obtain ⟨ha, hb, hc, hd, he, hf, _, _⟩ := hinv t ht
    exact ⟨ha, lt_of_lt_of_le hb hc, hd, fun h => hf h.le, fun h => ⟨hb, he h⟩⟩

/-- Witness of C7: with `prevExponent = 0` on the sequence
`[[0], [-10, -10]]` the loop makes two attempts, and the invariant holds at
the end of both. -/
theorem step3_bracket_invariant_witness :
    (0 : ℝ) < 1
      ∧ (step3Trace Real.exp Real.log (exampleOptions ℝ) 0 [[0], [-10, -10]] 2
          (step3Init 0)).length = 2
      ∧ (∀ t ∈ step3Trace Real.exp Real.log (exampleOptions ℝ) 0 [[0], [-10, -10]] 2
          (step3Init 0),
        0 ≤ t.exponents0 ∧ t.exponents0 < t.exponents1 ∧ t.exponents1 ≤ 1
          ∧ (t.nowAttempt = 1 → t.nowExponent = 1)
          ∧ (1 < t.nowAttempt →
              t.exponents0 < t.nowExponent ∧ t.nowExponent < t.exponents1)) :=
  ⟨by norm_num, by rw [example2_trace]; rfl,
    (step3_bracket_invariant (exampleOptions ℝ) 0 [[0], [-10, -10]] [] 2 (by norm_num)).2⟩

section Step4Lemmas
variable {K : Type} [Field K] {d : Nat}

theorem foldl_fun_add {α : Type} (f : α → K) (l : List α) (a : K) :
    l.foldl (fun acc p => acc + f p) a = a + (l.map f).sum := by
  induction l generalizing a with
  | nil => simp
  | cons x l ih => simp [List.foldl_cons, ih, add_assoc]

theorem foldl_vec_add {α : Type} (f : α → Fin d → K) (l : List α) (a : Fin d → K)
    (k : Fin d) :
    l.foldl (fun acc p => fun k => acc k + f p k) a k = a k + (l.map (fun p => f p k)).sum := by
  induction l generalizing a with
  | nil => simp
  | cons x l ih => simp [List.foldl_cons, ih, add_assoc]

theorem foldl_mat_add {α : Type} (f : α → Fin d → Fin d → K) (l : List α)
    (a : Fin d → Fin d → K) (i j : Fin d) :
    l.foldl (fun acc p => fun i j => acc i j + f p i j) a i j
      = a i j + (l.map (fun p => f p i j)).sum := by
  induction l generalizing a with
  | nil => simp
  | cons x l ih => simp [List.foldl_cons, ih, add_assoc]

theorem map_zip_eq_zipWith {α β γ : Type} (f : α → β → γ) (l1 : List α) (l2 : List β) :
    (List.zip l1 l2).map (fun p => f p.1 p.2) = List.zipWith f l1 l2 := by
  induction l1 generalizing l2 with
  | nil => simp
  | cons a l1 ih =>
    cases l2 with
    | nil => simp
    | cons b l2 => simp [ih]

theorem weightedMeanVec_eq (prevChain : List (Fin d → K)) (weightSequence : List K) :
    weightedMeanVec prevChain weightSequence = specLocalWeightedMean prevChain weightSequence := by
  funext k
  unfold weightedMeanVec specLocalWeightedMean
  have h := @foldl_vec_add K _ d (K × (Fin d → K)) (fun p k => p.1 * p.2 k)
    (List.zip weightSequence prevChain) (fun _ => 0) k
  rw [h, zero_add]
  exact congrArg List.sum (map_zip_eq_zipWith (fun w x => w * x k) weightSequence prevChain)

theorem subCovMatrix_eq (prevChain : List (Fin d → K)) (weightSequence : List K) :
    subCovMatrix prevChain weightSequence
      = specLocalWeightedCovariance prevChain weightSequence := by
  funext i j
  unfold subCovMatrix specLocalWeightedCovariance
  have h := @foldl_mat_add K _ d (K × (Fin d → K)) (fun p i j => p.1 *
      matrixProduct (fun k => p.2 k - weightedMeanVec prevChain weightSequence k)
        (fun k => p.2 k - weightedMeanVec prevChain weightSequence k) i j)
    (List.zip weightSequence prevChain) (fun _ _ => 0) i j
  rw [h, zero_add, weightedMeanVec_eq]
  simp only [matrixProduct]
  exact congrArg List.sum (map_zip_eq_zipWith
    (fun w x => w * ((x i - specLocalWeightedMean prevChain weightSequence i)
      * (x j - specLocalWeightedMean prevChain weightSequence j))) weightSequence prevChain)

end Step4Lemmas

/-- With a single inter-group rank, step 4 writes the weighted covariance of
the whole chain. -/
theorem step4_single_rank {K : Type} [Field K] {d : Nat}
    (prevChain : List (Fin d → K)) (weightSequence : List K) :
    generateSequence_Step4 [(prevChain, weightSequence)] 0 prevChain weightSequence
      = specWeightedCovariance [(prevChain, weightSequence)] := by
  funext i j
  have hm : specWeightedMean [(prevChain, weightSequence)]
      = specLocalWeightedMean prevChain weightSequence := by
    funext k
    simp [specWeightedMean, specLocalWeightedMean]
  simp only [generateSequence_Step4, ge_iff_le, le_refl, if_true, List.map_cons, List.map_nil]
  rw [mpiAllreduceSum_eq_sum, subCovMatrix_eq]
  simp [specWeightedCovariance, specLocalWeightedCovariance, hm]

/-- C8 (the code departs from the claim): on the two-rank example, whose
weights are non-negative and sum to one globally, the weighted covariance of
the whole chain is `1` (global mean `1`), while `generateSequence_Step4`
writes `1/2` on every inter-group rank: each rank centres its positions on
its own local weighted sum (`0` on rank 0, `1` on rank 1). -/
theorem step4_local_mean_divergence :
    specWeightedMean (step4Example ℚ) 0 = 1
      ∧ specWeightedCovariance (step4Example ℚ) 0 0 = 1
      ∧ generateSequence_Step4 (step4Example ℚ) 0 [fun _ => 0] [1 / 2] 0 0 = 1 / 2
      ∧ generateSequence_Step4 (step4Example ℚ) 1 [fun _ => 2] [1 / 2] 0 0 = 1 / 2
      ∧ weightedMeanVec ([fun _ => 0] : List (Fin 1 → ℚ)) [1 / 2] 0 = 0
      ∧ weightedMeanVec ([fun _ => 2] : List (Fin 1 → ℚ)) [1 / 2] 0 = 1 := by
  refine ⟨?_, ?_, ?_, ?_, ?_, ?_⟩
  · norm_num [specWeightedMean, step4Example]
  · norm_num [specWeightedCovariance, specWeightedMean, step4Example]
  · norm_num [generateSequence_Step4, step4Example, subCovMatrix, weightedMeanVec,
      matrixProduct, mpiAllreduceSum]
  · norm_num [generateSequence_Step4, step4Example, subCovMatrix, weightedMeanVec,
      matrixProduct, mpiAllreduceSum]
  · norm_num [weightedMeanVec]
  · norm_num [weightedMeanVec]

/-- C9: on each rank step 4 computes the local weighted mean
`μ_r = Σ w_i x_i` and the local matrix `S_r = Σ w_i (x_i − μ_r)(x_i − μ_r)ᵀ`
over the rank's own positions; on an inter-group rank every entry of
`unifiedCovMatrix` is the sum over the inter-group ranks of `S_r(i,j)`, and on
a rank outside the inter-group it is the local `S_r(i,j)`. -/
theorem step4_sum_of_local_covariances {K : Type} [Field K] {d : Nat}
    (inter0 : List (List (Fin d → K) × List K)) (inter0Rank : Int)
    (prevChain : List (Fin d → K)) (weightSequence : List K) (i j : Fin d) :
    weightedMeanVec prevChain weightSequence = specLocalWeightedMean prevChain weightSequence
      ∧ subCovMatrix prevChain weightSequence
        = specLocalWeightedCovariance prevChain weightSequence
      ∧ (0 ≤ inter0Rank →
        generateSequence_Step4 inter0 inter0Rank prevChain weightSequence i j
          = (inter0.map (fun r => specLocalWeightedCovariance r.1 r.2 i j)).sum)
      ∧ (inter0Rank < 0 →
        generateSequence_Step4 inter0 inter0Rank prevChain weightSequence i j
          = specLocalWeightedCovariance prevChain weightSequence i j) := by
  refine ⟨weightedMeanVec_eq _ _, subCovMatrix_eq _ _, fun h => ?_, fun h => ?_⟩
  · simp only [generateSequence_Step4, ge_iff_le, if_pos h]
    rw [mpiAllreduceSum_eq_sum]
    congr 1
    apply List.map_congr_left
    intro r _
    rw [subCovMatrix_eq]
  · simp only [generateSequence_Step4, ge_iff_le, if_neg (not_le.mpr h)]
    rw [subCovMatrix_eq]

/-- Witness of C9 on the two-rank example: on rank 1 of the inter-group the
entry is the sum of the two local matrices, on a rank outside the
inter-group it is the local matrix. -/
theorem step4_sum_of_local_covariances_witness :
    ((0 : Int) ≤ 1
      ∧ generateSequence_Step4 (step4Example ℚ) 1 [fun _ => 2] [1 / 2] 0 0
        = ((step4Example ℚ).map (fun r => specLocalWeightedCovariance r.1 r.2 0 0)).sum)
    ∧ ((-1 : Int) < 0
      ∧ generateSequence_Step4 (step4Example ℚ) (-1) [fun _ => 2] [1 / 2] 0 0
        = specLocalWeightedCovariance ([fun _ => 2] : List (Fin 1 → ℚ)) [1 / 2] 0 0) :=
  ⟨⟨by decide, (step4_sum_of_local_covariances (step4Example ℚ) 1 [fun _ => 2] [1 / 2]
      0 0).2.2.1 (by decide)⟩,
    ⟨by decide, (step4_sum_of_local_covariances (step4Example ℚ) (-1) [fun _ => 2] [1 / 2]
      0 0).2.2.2 (by decide)⟩⟩

/-- The ranks `r, r + 1, ...` all return, and their index bounds chain. -/
theorem step2Ranks_spec {V K : Type} (numProc : Nat) :
    ∀ (ranks : List (Step2Sequences V K)) (r : Nat) (received : Option Nat),
      (∀ s ∈ ranks, subSequenceSize s.currChain = subSequenceSize s.currLogLikelihoodValues
        ∧ subSequenceSize s.currChain = subSequenceSize s.currLogTargetValues) →
      r + ranks.length = numProc →
      (0 < r → received.isSome = true) →
      ∃ results, step2Ranks numProc r received ranks = Outcome.returned results
        ∧ results.map (fun res => res.sequences.prevChain) = ranks.map (fun s => s.currChain)
        ∧ (∀ res, results.head? = some res →
            res.indexOfFirstWeight = if 0 < r then received.getD 0 else 0)
        ∧ List.Chain' (fun res0 res1 =>
            res1.indexOfFirstWeight = uintAdd res0.indexOfLastWeight 1) results
        ∧ (∀ res ∈ results, res.indexOfLastWeight
            = uintSub (uintAdd res.indexOfFirstWeight
                (subSequenceSize res.sequences.prevChain)) 1) := by
  intro ranks
  induction ranks with
  | nil =>
    intro r received _ _ _
    exact ⟨[], rfl, rfl, by simp, by simp, by simp⟩
  | cons s rest ih =>
    intro r received hsz hlen hrecv
    have hs := hsz s (List.mem_cons_self _ _)
    have hrest : ∀ s1 ∈ rest,
        subSequenceSize s1.currChain = subSequenceSize s1.currLogLikelihoodValues
        ∧ subSequenceSize s1.currChain = subSequenceSize s1.currLogTargetValues :=
      fun s1 h1 => hsz s1 (List.mem_cons_of_mem _ h1)
    have hlen1 : r + 1 + rest.length = numProc := by
      simp only [List.length_cons] at hlen; omega
    obtain ⟨res, hres, hprev, hfirst, hlast, hsent⟩ :
        ∃ res, generateSequence_Step2 numProc r received s = Outcome.returned res
          ∧ res.sequences.prevChain = s.currChain
          ∧ res.indexOfFirstWeight = (if 0 < r then received.getD 0 else 0)
          ∧ res.indexOfLastWeight = uintSub (uintAdd res.indexOfFirstWeight
              (subSequenceSize res.sequences.prevChain)) 1
          ∧ res.sent = if r + 1 < numProc then some (uintAdd res.indexOfLastWeight 1)
              else none := by
      unfold generateSequence_Step2
      simp only [ne_eq, hs.1.symm, hs.2.symm, not_true_eq_false, if_false, gt_iff_lt]
      by_cases hr : 0 < r
      · obtain ⟨v, hv⟩ := Option.isSome_iff_exists.mp (hrecv hr)
        subst hv
        simp only [if_pos hr]
        exact ⟨_, rfl, rfl, by simp, rfl, rfl⟩
      · simp only [if_neg hr]
        exact ⟨_, rfl, rfl, rfl, rfl, rfl⟩
    cases rest with
    | nil =>
      refine ⟨[res], ?_, ?_, ?_, ?_, ?_⟩
      · simp [step2Ranks, hres]
      · simp [hprev]
      · intro res1 h1
        simp only [List.head?_cons, Option.some.injEq] at h1
        subst h1
        exact hfirst
      · simp
      · intro res1 h1
        simp only [List.mem_singleton] at h1
        subst h1
        exact hlast
    | cons s1 rest1 =>
      obtain ⟨results, hrun, hmap, hhead, hchain, hall⟩ :=
        ih (r + 1) res.sent hrest hlen1 (fun _ => by
          rw [hsent, if_pos (by simp only [List.length_cons] at hlen1; omega)]
          rfl)
      refine ⟨res :: results, ?_, ?_, ?_, ?_, ?_⟩
      · rw [step2Ranks, hres]
        simp only
        rw [hrun]
      · simp only [List.map_cons, hprev, List.cons.injEq, true_and]
        simpa using hmap
      · intro res1 h1
        simp only [List.head?_cons, Option.some.injEq] at h1
        subst h1
        exact hfirst
      · rw [List.chain'_cons']
        refine ⟨?_, hchain⟩
        intro res1 h1
        have := hhead res1 h1
        rw [this, if_pos (Nat.succ_pos r), hsent,
          if_pos (by simp only [List.length_cons] at hlen1; omega)]
        rfl
      · intro res1 h1
        rcases List.mem_cons.mp h1 with rfl | h2
        · exact hlast
        · exact hall res1 h2

/-- C10: when the inter-group ranks run `generateSequence_Step2` on sequences
of matching sizes, every rank returns; rank 0 has `indexOfFirstWeight = 0`,
every later rank has `indexOfFirstWeight` equal to the `indexOfLastWeight` of
the rank before it plus `1`, and on every rank
`indexOfLastWeight = indexOfFirstWeight + (local size of the previous chain) - 1`,
all in unsigned 32-bit arithmetic. -/
theorem step2_index_chain {V K : Type} (ranks : List (Step2Sequences V K))
    (hsizes : ∀ s ∈ ranks,
      subSequenceSize s.currChain = subSequenceSize s.currLogLikelihoodValues
      ∧ subSequenceSize s.currChain = subSequenceSize s.currLogTargetValues) :
    ∃ results, step2InterGroup ranks = Outcome.returned results
      ∧ results.map (fun res => res.sequences.prevChain) = ranks.map (fun s => s.currChain)
      ∧ (∀ res, results.head? = some res → res.indexOfFirstWeight = 0)
      ∧ List.Chain' (fun res0 res1 =>
          res1.indexOfFirstWeight = uintAdd res0.indexOfLastWeight 1) results
      ∧ (∀ res ∈ results, res.indexOfLastWeight
          = uintSub (uintAdd res.indexOfFirstWeight
              (subSequenceSize res.sequences.prevChain)) 1) := by
  obtain ⟨results, h1, h2, h3, h4, h5⟩ :=
    step2Ranks_spec ranks.length ranks 0 none hsizes (Nat.zero_add _)
      (fun h => absurd h (Nat.lt_irrefl 0))
  exact ⟨results, h1, h2, fun res hres => by simpa using h3 res hres, h4, h5⟩

theorem step2Example_run :
    step2InterGroup step2Example = Outcome.returned
      [⟨⟨[], [], [], [7, 8, 9], [1, 2, 3], [4, 5, 6]⟩, 0, 2, some 3⟩,
       ⟨⟨[], [], [], [], [], []⟩, 3, 2, some 3⟩,
       ⟨⟨[], [], [], [5, 6], [1, 2], [3, 4]⟩, 3, 4, none⟩] := by
  rfl

/-- Witness of C10 on three ranks whose chains have 3, 0 and 2 positions: the
index bounds are `[0, 2]`, `[3, 2]` and `[3, 4]`. -/
theorem step2_index_chain_witness :
    (∀ s ∈ step2Example,
      subSequenceSize s.currChain = subSequenceSize s.currLogLikelihoodValues
      ∧ subSequenceSize s.currChain = subSequenceSize s.currLogTargetValues)
    ∧ ∃ results, step2InterGroup step2Example = Outcome.returned results
      ∧ results.map (fun res => res.sequences.prevChain)
        = step2Example.map (fun s => s.currChain)
      ∧ (∀ res, results.head? = some res → res.indexOfFirstWeight = 0)
      ∧ List.Chain' (fun res0 res1 =>
          res1.indexOfFirstWeight = uintAdd res0.indexOfLastWeight 1) results
      ∧ (∀ res ∈ results, res.indexOfLastWeight
          = uintSub (uintAdd res.indexOfFirstWeight
              (subSequenceSize res.sequences.prevChain)) 1) :=
  ⟨by simp [step2Example, subSequenceSize],
    step2_index_chain step2Example (by simp [step2Example, subSequenceSize])⟩

theorem step8Restore_override {K : Type} (o : uqMLSamplingLevelOptionsClass K) (n : Nat) :
    step8Restore o { step8Override o with m_rawChainSize := n } = o := by
  cases o
  rfl

section Step8Loop
variable {K : Type} [LinearOrderedField K] [FloorRing K] {d : Nat}

/-- Induction along the loop of step 8: a property that holds after every
iteration started in a state satisfying `P`, where `P` is carried from a
rejected attempt to the next one, holds for every state of the trace. -/
theorem step8Trace_forall (env : Step8Env K d) (mean : K) (cov : Fin d → Fin d → K)
    (P : Step8State K d → Prop) (Q : Step8State K d → Prop)
    (hstep : ∀ s s1, P s → step8Attempt env mean cov s = Step8Step.continued s1 →
      Q s1 ∧ (s1.testResult = false → P s1)) :
    ∀ fuel s, P s → ∀ t ∈ step8Trace env mean cov fuel s, Q t := by
  intro fuel
  induction fuel with
  | zero => intro s _ t ht; simp [step8Trace] at ht
  | succ n ih =>
    intro s hs t ht
    unfold step8Trace at ht
    cases hatt : step8Attempt env mean cov s with
    | continued s1 =>
      rw [hatt] at ht
      have hq := hstep s s1 hs hatt
      simp only [List.mem_cons] at ht
      rcases ht with rfl | ht
      · exact hq.1
      · by_cases htr : s1.testResult = false
        · rw [if_pos htr] at ht
          exact ih s1 (hq.2 htr) t ht
        · rw [if_neg htr] at ht
          simp at ht
    | aborted e o => rw [hatt] at ht; simp at ht

/-- A returned loop state of step 8 belongs to the trace and is accepted. -/
theorem step8Loop_returned (env : Step8Env K d) (mean : K) (cov : Fin d → Fin d → K) :
    ∀ fuel s r, step8Loop env mean cov fuel s = Step8Outcome.returned r →
      r ∈ step8Trace env mean cov fuel s ∧ r.testResult = true := by
  intro fuel
  induction fuel with
  | zero => intro s r h; simp [step8Loop] at h
  | succ n ih =>
    intro s r h
    unfold step8Loop at h
    unfold step8Trace
    cases hatt : step8Attempt env mean cov s with
    | continued s1 =>
      rw [hatt] at h
      simp only at h ⊢
      by_cases htr : s1.testResult = false
      · rw [if_pos htr] at h ⊢
        have := ih s1 r h
        exact ⟨List.mem_cons_of_mem _ this.1, this.2⟩
      · rw [if_neg htr] at h ⊢
        have e := Step8Outcome.returned.inj h
        subst e
        exact ⟨List.mem_cons_self _ _, by simpa using htr⟩
    | aborted e o => rw [hatt] at h; simp at h

/-- Adjacent states of the trace of step 8: the earlier one was rejected and
the later one ends the next iteration. -/
theorem step8Trace_chain (env : Step8Env K d) (mean : K) (cov : Fin d → Fin d → K) :
    ∀ fuel s, List.Chain' (fun t1 t2 => t1.testResult = false
        ∧ step8Attempt env mean cov t1 = Step8Step.continued t2)
      (step8Trace env mean cov fuel s) := by
  intro fuel
  induction fuel with
  | zero => intro s; simp [step8Trace]
  | succ n ih =>
    intro s
    unfold step8Trace
    cases hatt : step8Attempt env mean cov s with
    | continued s1 =>
      simp only
      by_cases htr : s1.testResult = false
      · rw [if_pos htr]
        rw [List.chain'_cons']
        refine ⟨?_, ih s1⟩
        intro t2 ht2
        refine ⟨htr, ?_⟩
        cases n with
        | zero => simp [step8Trace] at ht2
        | succ m =>
          unfold step8Trace at ht2
          cases hatt2 : step8Attempt env mean cov s1 with
          | continued s2 =>
            rw [hatt2] at ht2
            simp only [List.head?_cons, Option.mem_def, Option.some.injEq] at ht2
            subst ht2
            rfl
          | aborted e o => rw [hatt2] at ht2; simp at ht2
      · rw [if_neg htr]
        simp
    | aborted e o => simp

/-- The first state of the trace of step 8 ends the first iteration. -/
theorem step8Trace_head (env : Step8Env K d) (mean : K) (cov : Fin d → Fin d → K)
    (fuel : Nat) (s t : Step8State K d)
    (h : (step8Trace env mean cov fuel s).head? = some t) :
    step8Attempt env mean cov s = Step8Step.continued t := by
  cases fuel with
  | zero => simp [step8Trace] at h
  | succ n =>
    unfold step8Trace at h
    cases hatt : step8Attempt env mean cov s with
    | continued s1 =>
      rw [hatt] at h
      simp only [List.head?_cons, Option.some.injEq] at h
      rw [h]
    | aborted e o => rw [hatt] at h; simp at h

theorem generateSequence_Step8_returned (env : Step8Env K d) (fuel : Nat) (prevEta : K)
    (o : uqMLSamplingLevelOptionsClass K) (cov : Fin d → Fin d → K) (res : Step8Result K d)
    (h : generateSequence_Step8 env fuel prevEta o cov = Step8Outcome.returned res) :
    ∃ s, step8Loop env (meanRejectionRate o) cov fuel (step8Init prevEta o cov)
        = Step8Outcome.returned s
      ∧ res.currEta = s.nowEta
      ∧ res.unifiedCovMatrix = (if s.nowEta ≠ 1 then matrixScale cov s.nowEta else cov)
      ∧ res.currOptions = s.currOptions
      ∧ res.nowRejectionRate = s.nowRejectionRate
      ∧ res.nowAttempt = s.nowAttempt := by
  unfold generateSequence_Step8 at h
  cases hl : step8Loop env (meanRejectionRate o) cov fuel (step8Init prevEta o cov) with
  | returned s =>
    rw [hl] at h
    have e := Step8Outcome.returned.inj h
    subst e
    exact ⟨s, rfl, rfl, rfl, rfl, rfl, rfl⟩
  | fatal e o1 => rw [hl] at h; simp at h
  | running => rw [hl] at h; simp at h

/-- What an iteration of step 8 that reaches the loop test has done. -/
theorem step8Attempt_continued (env : Step8Env K d) (mean : K) (cov : Fin d → Fin d → K)
    (s s1 : Step8State K d)
    (h : step8Attempt env mean cov s = Step8Step.continued s1) :
    ∃ flag s0 size rej,
      step8RangeFlag s = some flag
      ∧ step8UpdateEta env mean { s with nowRejectionRateIsBelowRange := flag } = some s0
      ∧ env.generateLinkedChains s0.nowAttempt (matrixScale cov s0.nowEta)
          (step8Override s0.currOptions) = PilotGeneration.completed size rej
      ∧ s1 = { s0 with
          nowCovMatrix := matrixScale cov s0.nowEta
          currOptions := s0.currOptions
          pilotOptions := step8Override s0.currOptions
          nowRejectionRate := if env.inter0Rank ≥ 0
            then step8RejectionRate env s0.currOptions rej else s0.nowRejectionRate
          testResult := if env.inter0Rank ≥ 0
            then decide (step8RejectionRate env s0.currOptions rej
                  ≥ s0.currOptions.m_minRejectionRate)
              && decide (step8RejectionRate env s0.currOptions rej
                  ≤ s0.currOptions.m_maxRejectionRate)
            else env.subRootTestResult s0.nowAttempt
          nowAttempt := s0.nowAttempt + 1 } := by
  unfold step8Attempt at h
  cases hf : step8RangeFlag s with
  | none => rw [hf] at h; simp at h
  | some flag =>
    rw [hf] at h
    simp only at h
    cases hu : step8UpdateEta env mean { s with nowRejectionRateIsBelowRange := flag } with
    | none => rw [hu] at h; simp at h
    | some s0 =>
      rw [hu] at h
      simp only at h
      unfold step8Pilot at h
      simp only at h
      split at h
      · simp at h
      · cases hg : env.generateLinkedChains s0.nowAttempt (matrixScale cov s0.nowEta)
            (step8Override s0.currOptions) with
        | aborted n => rw [hg] at h; simp at h
        | completed size rej =>
          rw [hg] at h
          simp only [step8Restore_override] at h
          refine ⟨flag, s0, size, rej, rfl, hu, hg, ?_⟩
          split at h
          · simp at h
          · by_cases hi : env.inter0Rank ≥ 0
            · rw [if_pos hi] at h
              simp only [if_pos hi]
              exact (Step8Step.continued.inj h).symm
            · rw [if_neg hi] at h
              simp only [if_neg hi]
              exact (Step8Step.continued.inj h).symm

end Step8Loop

section Step8Frame
variable {K : Type} [LinearOrderedField K] {d : Nat}

theorem step8EnterBracket_frame (s s1 : Step8State K d) (h : step8EnterBracket s = some s1) :
    s1.currOptions = s.currOptions ∧ s1.nowAttempt = s.nowAttempt
      ∧ s1.nowRejectionRate = s.nowRejectionRate ∧ s1.nowEta = s.nowEta
      ∧ s1.nowRejectionRateIsBelowRange = s.nowRejectionRateIsBelowRange
      ∧ s1.beforeEta = s.beforeEta ∧ s1.beforeRejectionRate = s.beforeRejectionRate
      ∧ s1.beforeRejectionRateIsBelowRange = s.beforeRejectionRateIsBelowRange := by
  unfold step8EnterBracket at h
  split_ifs at h <;>
    (have e := Option.some.inj h; subst e; exact ⟨rfl, rfl, rfl, rfl, rfl, rfl, rfl, rfl⟩)

theorem step8NextEta_frame (mean : K) (s : Step8State K d) :
    (step8NextEta mean s).currOptions = s.currOptions
      ∧ (step8NextEta mean s).nowAttempt = s.nowAttempt
      ∧ (step8NextEta mean s).nowRejectionRate = s.nowRejectionRate
      ∧ (step8NextEta mean s).useMiddlePointLogicForEta = s.useMiddlePointLogicForEta
      ∧ (step8NextEta mean s).beforeEta = s.nowEta
      ∧ (step8NextEta mean s).beforeRejectionRate = s.nowRejectionRate
      ∧ (step8NextEta mean s).beforeRejectionRateIsBelowRange
        = s.nowRejectionRateIsBelowRange
      ∧ (step8NextEta mean s).rejs0 = s.rejs0 := by
  unfold step8NextEta
  split_ifs <;> exact ⟨rfl, rfl, rfl, by simp_all, rfl, rfl, rfl, rfl⟩

theorem step8UpdateEta_frame (env : Step8Env K d) (mean : K) (s s0 : Step8State K d)
    (h : step8UpdateEta env mean s = some s0) :
    s0.currOptions = s.currOptions ∧ s0.nowAttempt = s.nowAttempt
      ∧ s0.nowRejectionRate = s.nowRejectionRate := by
  unfold step8UpdateEta at h
  split_ifs at h
  · cases he : step8EnterBracket s with
    | none => rw [he] at h; simp at h
    | some s1 =>
      rw [he] at h
      have e := Option.some.inj h
      subst e
      have h1 := step8EnterBracket_frame s s1 he
      have h2 := step8NextEta_frame mean s1
      exact ⟨h2.1.trans h1.1, h2.2.1.trans h1.2.1, h2.2.2.1.trans h1.2.2.1⟩
  · have e := Option.some.inj h; subst e; exact ⟨rfl, rfl, rfl⟩
  · have e := Option.some.inj h; subst e; exact ⟨rfl, rfl, rfl⟩

end Step8Frame

section Step8Basic
variable {K : Type} [LinearOrderedField K] [FloorRing K] {d : Nat}

/-- At the end of every iteration of step 8: the options object holds the
entry values, the pilot has received the overridden options and the entry
matrix scaled by the candidate, and on an inter-group rank the rate and the
loop test come from the rejection counts of that pilot. -/
theorem step8Trace_basic (env : Step8Env K d) (prevEta : K)
    (o : uqMLSamplingLevelOptionsClass K) (cov : Fin d → Fin d → K) (fuel : Nat) :
    ∀ t ∈ step8Trace env (meanRejectionRate o) cov fuel (step8Init prevEta o cov),
      t.currOptions = o ∧ t.pilotOptions = step8Override o
        ∧ t.nowCovMatrix = matrixScale cov t.nowEta ∧ 0 < t.nowAttempt
        ∧ ∃ size rej,
          env.generateLinkedChains (t.nowAttempt - 1) (matrixScale cov t.nowEta)
              (step8Override o) = PilotGeneration.completed size rej
          ∧ (env.inter0Rank ≥ 0 →
              t.nowRejectionRate = step8RejectionRate env o rej
              ∧ t.testResult
                = (decide (t.nowRejectionRate ≥ o.m_minRejectionRate)
                  && decide (t.nowRejectionRate ≤ o.m_maxRejectionRate))) := by
  refine step8Trace_forall env (meanRejectionRate o) cov (fun s => s.currOptions = o) _ ?_
    fuel (step8Init prevEta o cov) rfl
  intro s s1 hs hatt
  obtain ⟨flag, s0, size, rej, _, hu, hg, rfl⟩ := step8Attempt_continued env _ cov s s1 hatt
  have hfr := step8UpdateEta_frame env _ _ s0 hu
  have ho : s0.currOptions = o := hfr.1.trans hs
  refine ⟨⟨ho, by simp only [ho], rfl, Nat.succ_pos _, size, rej, ?_, ?_⟩, fun _ => ho⟩
  · simp only [Nat.add_sub_cancel]
    rw [← ho]
    exact hg
  · intro hi
    simp only [if_pos hi, ho]
    exact ⟨trivial, trivial⟩

end Step8Basic

theorem uintAdd_lt (a b : Nat) : uintAdd a b < 2 ^ 32 :=
  Nat.mod_lt _ (by norm_num)

theorem foldl_uintAdd (l : List Nat) (a : Nat) (ha : a < 2 ^ 32) :
    l.foldl uintAdd a = (a + l.sum) % 2 ^ 32 := by
  induction l generalizing a with
  | nil =>
    rw [List.foldl_nil, List.sum_nil, Nat.add_zero, Nat.mod_eq_of_lt ha]
  | cons x l ih =>
    rw [List.foldl_cons, ih _ (uintAdd_lt a x), List.sum_cons]
    unfold uintAdd
    rw [Nat.add_mod ((a + x) % 2 ^ 32), Nat.mod_mod, ← Nat.add_mod, Nat.add_assoc]

section Step8Claims
variable {K : Type} [LinearOrderedField K] [FloorRing K] {d : Nat}

/-- The returned state of step 8 with the facts of `step8Trace_basic`. -/
theorem generateSequence_Step8_last (env : Step8Env K d) (fuel : Nat) (prevEta : K)
    (o : uqMLSamplingLevelOptionsClass K) (cov : Fin d → Fin d → K) (res : Step8Result K d)
    (h : generateSequence_Step8 env fuel prevEta o cov = Step8Outcome.returned res) :
    ∃ s ∈ step8Trace env (meanRejectionRate o) cov fuel (step8Init prevEta o cov),
      s.testResult = true
      ∧ res.currEta = s.nowEta
      ∧ res.unifiedCovMatrix = (if s.nowEta ≠ 1 then matrixScale cov s.nowEta else cov)
      ∧ res.currOptions = s.currOptions
      ∧ res.nowRejectionRate = s.nowRejectionRate
      ∧ res.nowAttempt = s.nowAttempt := by
  obtain ⟨s, hs, h1, h2, h3, h4, h5⟩ := generateSequence_Step8_returned env fuel prevEta o cov res h
  obtain ⟨hmem, hacc⟩ := step8Loop_returned env _ cov fuel _ s hs
  exact ⟨s, hmem, hacc, h1, h2, h3, h4, h5⟩

/-- C13: when step 8 returns, `unifiedCovMatrix` is `currEta` times the matrix
passed in, whatever the number of attempts; and in every iteration the pilot
has received a copy of the matrix passed in scaled by the candidate of that
iteration alone. -/
theorem step8_final_covariance (env : Step8Env K d) (fuel : Nat) (prevEta : K)
    (currOptions : uqMLSamplingLevelOptionsClass K) (unifiedCovMatrix : Fin d → Fin d → K) :
    (∀ res, generateSequence_Step8 env fuel prevEta currOptions unifiedCovMatrix
        = Step8Outcome.returned res →
      ∀ i j, res.unifiedCovMatrix i j = res.currEta * unifiedCovMatrix i j)
    ∧ (∀ t ∈ step8Trace env (meanRejectionRate currOptions) unifiedCovMatrix fuel
          (step8Init prevEta currOptions unifiedCovMatrix),
        ∀ i j, t.nowCovMatrix i j = t.nowEta * unifiedCovMatrix i j) := by
  constructor
  · intro res h i j
    obtain ⟨s, _, _, h1, h2, _⟩ :=
      generateSequence_Step8_last env fuel prevEta currOptions unifiedCovMatrix res h
    rw [h2, h1]
    by_cases he : s.nowEta = 1
    · simp [he]
    · simp only [ne_eq, he, not_false_eq_true, if_true, matrixScale]
      ring
  · intro t ht i j
    have := (step8Trace_basic env prevEta currOptions unifiedCovMatrix fuel t ht).2.2.1
    rw [this, matrixScale]
    ring

/-- C14: when step 8 returns, the options object is exactly the one passed
in: the six fields overridden for the pilots have their entry values and no
other field has changed, whatever the number of attempts. -/
theorem step8_options_restored (env : Step8Env K d) (fuel : Nat) (prevEta : K)
    (currOptions : uqMLSamplingLevelOptionsClass K) (unifiedCovMatrix : Fin d → Fin d → K)
    (res : Step8Result K d)
    (h : generateSequence_Step8 env fuel prevEta currOptions unifiedCovMatrix
      = Step8Outcome.returned res) :
    res.currOptions = currOptions := by
  obtain ⟨s, hmem, _, _, _, h3, _⟩ :=
    generateSequence_Step8_last env fuel prevEta currOptions unifiedCovMatrix res h
  rw [h3]
  exact (step8Trace_basic env prevEta currOptions unifiedCovMatrix fuel s hmem).1

/-- C19: in every iteration of step 8 the pilot chain generation is called
with the options in which `m_amAdaptInterval = 0`, `m_drMaxNumExtraStages = 0`,
`m_rawChainComputeStats = false`, `m_filteredChainGenerate = false`,
`m_totallyMute = true` and `m_rawChainSize = 0`, whatever the values in the
options passed to step 8, whose other fields are handed on unchanged. -/
theorem step8_pilot_options (env : Step8Env K d) (fuel : Nat) (prevEta : K)
    (currOptions : uqMLSamplingLevelOptionsClass K) (unifiedCovMatrix : Fin d → Fin d → K) :
    ∀ t ∈ step8Trace env (meanRejectionRate currOptions) unifiedCovMatrix fuel
        (step8Init prevEta currOptions unifiedCovMatrix),
      (∃ size rej, env.generateLinkedChains (t.nowAttempt - 1) t.nowCovMatrix t.pilotOptions
          = PilotGeneration.completed size rej)
      ∧ t.pilotOptions.m_amAdaptInterval = 0
      ∧ t.pilotOptions.m_drMaxNumExtraStages = 0
      ∧ t.pilotOptions.m_rawChainComputeStats = false
      ∧ t.pilotOptions.m_filteredChainGenerate = false
      ∧ t.pilotOptions.m_totallyMute = true
      ∧ t.pilotOptions.m_rawChainSize = 0
      ∧ t.pilotOptions.m_minEffectiveSizeRatio = currOptions.m_minEffectiveSizeRatio
      ∧ t.pilotOptions.m_maxEffectiveSizeRatio = currOptions.m_maxEffectiveSizeRatio
      ∧ t.pilotOptions.m_minRejectionRate = currOptions.m_minRejectionRate
      ∧ t.pilotOptions.m_maxRejectionRate = currOptions.m_maxRejectionRate
      ∧ t.pilotOptions.m_covRejectionRate = currOptions.m_covRejectionRate := by
  intro t ht
  obtain ⟨_, hp, hc, _, size, rej, hg, _⟩ :=
    step8Trace_basic env prevEta currOptions unifiedCovMatrix fuel t ht
  refine ⟨⟨size, rej, ?_⟩, ?_⟩
  · rw [hp, hc]; exact hg
  · rw [hp]
    exact ⟨rfl, rfl, rfl, rfl, rfl, rfl, rfl, rfl, rfl, rfl, rfl⟩

end Step8Claims

section Step8Fatal
variable {K : Type} [LinearOrderedField K] [FloorRing K] {d : Nat}

/-- An iteration of step 8 that reaches the loop test leaves the options
object as it found it. -/
theorem step8Attempt_continued_options (env : Step8Env K d) (mean : K)
    (cov : Fin d → Fin d → K) (s s1 : Step8State K d)
    (h : step8Attempt env mean cov s = Step8Step.continued s1) :
    s1.currOptions = s.currOptions := by
  obtain ⟨flag, s0, size, rej, _, hu, _, rfl⟩ := step8Attempt_continued env mean cov s s1 h
  exact (step8UpdateEta_frame env mean _ s0 hu).1

/-- The options object when an iteration of step 8 aborts. -/
theorem step8Attempt_aborted (env : Step8Env K d) (mean : K) (cov : Fin d → Fin d → K)
    (s : Step8State K d) (e : FatalError) (o1 : uqMLSamplingLevelOptionsClass K)
    (h : step8Attempt env mean cov s = Step8Step.aborted e o1) :
    (e = FatalError.pilotChainGeneration
        ∧ ∃ n, o1 = { step8Override s.currOptions with m_rawChainSize := n })
      ∨ (e ≠ FatalError.pilotChainGeneration ∧ o1 = s.currOptions) := by
  unfold step8Attempt at h
  cases hf : step8RangeFlag s with
  | none =>
    rw [hf] at h
    simp only [Step8Step.aborted.injEq] at h
    exact Or.inr ⟨by rw [← h.1]; decide, h.2.symm⟩
  | some flag =>
    rw [hf] at h
    simp only at h
    cases hu : step8UpdateEta env mean { s with nowRejectionRateIsBelowRange := flag } with
    | none =>
      rw [hu] at h
      simp only [Step8Step.aborted.injEq] at h
      exact Or.inr ⟨by rw [← h.1]; decide, h.2.symm⟩
    | some s0 =>
      rw [hu] at h
      simp only at h
      have ho : s0.currOptions = s.currOptions := (step8UpdateEta_frame env mean _ s0 hu).1
      unfold step8Pilot at h
      simp only at h
      split at h
      · simp only [Step8Step.aborted.injEq] at h
        exact Or.inr ⟨by rw [← h.1]; decide, by rw [← h.2, ho]⟩
      · cases hg : env.generateLinkedChains s0.nowAttempt (matrixScale cov s0.nowEta)
            (step8Override s0.currOptions) with
        | aborted n =>
          rw [hg] at h
          simp only [Step8Step.aborted.injEq] at h
          exact Or.inl ⟨h.1.symm, n, by rw [← h.2, ho]⟩
        | completed size rej =>
          rw [hg] at h
          simp only [step8Restore_override] at h
          split at h
          · simp only [Step8Step.aborted.injEq] at h
            exact Or.inr ⟨by rw [← h.1]; decide, by rw [← h.2, ho]⟩
          · split at h <;> exact Step8Step.noConfusion h

theorem step8Loop_fatal (env : Step8Env K d) (mean : K) (cov : Fin d → Fin d → K)
    (o : uqMLSamplingLevelOptionsClass K) (e : FatalError)
    (o1 : uqMLSamplingLevelOptionsClass K) :
    ∀ fuel s, s.currOptions = o →
      step8Loop env mean cov fuel s = Step8Outcome.fatal e o1 →
      ∃ s1, s1.currOptions = o ∧ step8Attempt env mean cov s1 = Step8Step.aborted e o1 := by
  intro fuel
  induction fuel with
  | zero => intro s _ h; simp [step8Loop] at h
  | succ n ih =>
    intro s hs h
    unfold step8Loop at h
    cases hatt : step8Attempt env mean cov s with
    | continued s1 =>
      rw [hatt] at h
      simp only at h
      have ho := (step8Attempt_continued_options env mean cov s s1 hatt).trans hs
      split at h
      · exact ih s1 ho h
      · exact Step8Outcome.noConfusion h
    | aborted e2 o2 =>
      rw [hatt] at h
      simp only [Step8Outcome.fatal.injEq] at h
      exact ⟨s, hs, by rw [hatt, h.1, h.2]⟩

/-- C15 as amended: when step 8 ends on a fatal test of a pilot chain
generation, the options object holds the values overridden for the pilot
(`m_totallyMute = true`, `m_rawChainComputeStats = false`,
`m_filteredChainGenerate = false`, `m_drMaxNumExtraStages = 0`,
`m_amAdaptInterval = 0`, and the `m_rawChainSize` that the generation has
set), the other fields being those passed in; on every other fatal exit of
step 8 the options object is the one passed in. -/
theorem step8_options_at_fatal_exit (env : Step8Env K d) (fuel : Nat) (prevEta : K)
    (currOptions : uqMLSamplingLevelOptionsClass K) (unifiedCovMatrix : Fin d → Fin d → K)
    (e : FatalError) (atExit : uqMLSamplingLevelOptionsClass K)
    (h : generateSequence_Step8 env fuel prevEta currOptions unifiedCovMatrix
      = Step8Outcome.fatal e atExit) :
    (e = FatalError.pilotChainGeneration →
        ∃ n, atExit = { step8Override currOptions with m_rawChainSize := n })
      ∧ (e ≠ FatalError.pilotChainGeneration → atExit = currOptions) := by
  have hl : step8Loop env (meanRejectionRate currOptions) unifiedCovMatrix fuel
      (step8Init prevEta currOptions unifiedCovMatrix) = Step8Outcome.fatal e atExit := by
    unfold generateSequence_Step8 at h
    cases hl : step8Loop env (meanRejectionRate currOptions) unifiedCovMatrix fuel
        (step8Init prevEta currOptions unifiedCovMatrix) with
    | returned s => rw [hl] at h; simp at h
    | fatal e1 o1 => rw [hl] at h; simpa using h
    | running => rw [hl] at h; simp at h
  obtain ⟨s1, hs1, hab⟩ := step8Loop_fatal env _ unifiedCovMatrix currOptions e atExit fuel _ rfl hl
  rcases step8Attempt_aborted env _ unifiedCovMatrix s1 e atExit hab with ⟨he, n, hn⟩ | ⟨he, ho⟩
  · exact ⟨fun _ => ⟨n, by rw [hn, hs1]⟩, fun hne => absurd he hne⟩
  · exact ⟨fun heq => absurd heq he, fun _ => by rw [ho, hs1]⟩

end Step8Fatal

theorem isDouble_iff {K : Type} [LinearOrderedField K] [FloorRing K] (x : K) :
    isDouble x = true ↔ roundToDouble x = DoubleValue.finite x := by
  unfold isDouble
  cases h : roundToDouble x with
  | nan => simp
  | negInfinity => simp
  | posInfinity => simp
  | finite y => simp

/-- The conversion of line 767 for a quotient that is a number in
`(-1, 2^32 - 1)`. -/
theorem originalSubNumSamples_of_quotient {K : Type} [LinearOrderedField K] [FloorRing K]
    (u : Nat) (o : uqMLSamplingLevelOptionsClass K) (q : K)
    (hq : pilotLengthQuotient o = DoubleValue.finite q) (hlo : -1 < q)
    (hfit : q < 2 ^ 32 - 1) :
    originalSubNumSamples u o = 1 + ⌊q⌋₊ := by
  have hfl : ⌊q⌋₊ < 2 ^ 32 - 1 := by
    by_cases h0 : 0 ≤ q
    · rw [Nat.floor_lt h0]
      have : (((2 ^ 32 - 1 : Nat)) : K) = 2 ^ 32 - 1 := by norm_num
      rw [this]
      exact hfit
    · rw [Nat.floor_of_nonpos (le_of_lt (not_le.mp h0))]
      norm_num
  unfold originalSubNumSamples
  rw [hq]
  simp only [doubleValueToUint, doubleToUint]
  rw [if_pos ⟨hlo, by linarith⟩]
  unfold uintAdd
  exact Nat.mod_eq_of_lt (by omega)

section Step8PilotLength
variable {K : Type} [LinearOrderedField K] [FloorRing K] {d : Nat}

/-- C16 as amended: the per-rank pilot length of step 8 is one more than the
integer part of the `double` `q` to which line 767 evaluates
`(1.-ρ)/ρ/c/c`, each operation rounded, on the stored `double` values of the
window bounds and of `c`, whenever `q` is a number with `-1 < q < 2^32 - 1`;
the number of indexes sampled for a pilot is that length times the number of
inter-group ranks in `unsigned int` arithmetic, the plain product when it is
below `2^32`. When the bounds, `c` and the results of the operations of lines
630 and 767 are `double` numbers, so that nothing is rounded, `q` is
`(1 - ρ) / (ρ c²)` and the length is `1 + ⌊(1 - ρ) / (ρ c²)⌋`. -/
theorem step8_pilot_length (env : Step8Env K d)
    (currOptions : uqMLSamplingLevelOptionsClass K) (q : K)
    (hq : pilotLengthQuotient currOptions = DoubleValue.finite q)
    (hlo : -1 < q) (hfit : q < 2 ^ 32 - 1) :
    originalSubNumSamples env.undefinedConversion currOptions = 1 + ⌊q⌋₊
      ∧ tmpUnifiedNumSamples env currOptions = ((1 + ⌊q⌋₊) * env.numProc) % 2 ^ 32
      ∧ ((1 + ⌊q⌋₊) * env.numProc < 2 ^ 32 →
          tmpUnifiedNumSamples env currOptions = (1 + ⌊q⌋₊) * env.numProc)
      ∧ (isDouble currOptions.m_minRejectionRate = true →
          isDouble currOptions.m_maxRejectionRate = true →
          isDouble currOptions.m_covRejectionRate = true →
          isDouble (currOptions.m_minRejectionRate + currOptions.m_maxRejectionRate) = true →
          isDouble (meanRejectionRate currOptions) = true →
          isDouble (1 - meanRejectionRate currOptions) = true →
          isDouble ((1 - meanRejectionRate currOptions) / meanRejectionRate currOptions)
            = true →
          isDouble ((1 - meanRejectionRate currOptions) / meanRejectionRate currOptions
            / currOptions.m_covRejectionRate) = true →
          isDouble ((1 - meanRejectionRate currOptions) / meanRejectionRate currOptions
            / currOptions.m_covRejectionRate / currOptions.m_covRejectionRate) = true →
          meanRejectionRate currOptions ≠ 0 → currOptions.m_covRejectionRate ≠ 0 →
          q = (1 - meanRejectionRate currOptions)
              / (meanRejectionRate currOptions * currOptions.m_covRejectionRate ^ 2)
            ∧ originalSubNumSamples env.undefinedConversion currOptions
              = 1 + ⌊(1 - meanRejectionRate currOptions)
                / (meanRejectionRate currOptions * currOptions.m_covRejectionRate ^ 2)⌋₊) := by
  have hlen := originalSubNumSamples_of_quotient env.undefinedConversion currOptions q hq hlo hfit
  refine ⟨hlen, ?_, ?_, ?_⟩
  · rw [tmpUnifiedNumSamples, hlen, uintMul]
  · intro hprod
    rw [tmpUnifiedNumSamples, hlen, uintMul]
    exact Nat.mod_eq_of_lt hprod
  · intro h1 h2 h3 h4 h5 h6 h7 h8 h9 hm0 hc0
    rw [isDouble_iff] at h1 h2 h3 h4 h5 h6 h7 h8 h9
    have hev := (pilotLengthQuotient_eval currOptions _ _ _ _ _ _ _ _ _ h1 h2 h3 h4 h5 h6
      hm0 hc0 h7 h8 h9).2
    rw [hq] at hev
    have hqv := DoubleValue.finite.inj hev
    have hx : (1 - meanRejectionRate currOptions) / meanRejectionRate currOptions
        / currOptions.m_covRejectionRate / currOptions.m_covRejectionRate
        = (1 - meanRejectionRate currOptions)
          / (meanRejectionRate currOptions * currOptions.m_covRejectionRate ^ 2) := by
      rw [div_div, div_div, pow_two]
    have hqf : q = (1 - meanRejectionRate currOptions)
        / (meanRejectionRate currOptions * currOptions.m_covRejectionRate ^ 2) := by
      rw [hqv, hx]
    exact ⟨hqf, by rw [← hqf]; exact hlen⟩

end Step8PilotLength

/-- C15 (counterexample): when the pilot chain generation of the first attempt
ends on a fatal test, the run ends with the options object holding the values
overridden for the pilot, not the values passed in. -/
theorem step8_fatal_pilot_leaves_override :
    generateSequence_Step8 step8AbortEnv 1 1 (exampleOptions ℚ) step8ExampleCov
        = Step8Outcome.fatal FatalError.pilotChainGeneration
            { step8Override (exampleOptions ℚ) with m_rawChainSize := 5 }
      ∧ ({ step8Override (exampleOptions ℚ) with m_rawChainSize := 5 }
          : uqMLSamplingLevelOptionsClass ℚ) ≠ exampleOptions ℚ := by
  constructor
  · simp [generateSequence_Step8, step8Loop, step8Attempt, step8RangeFlag, step8UpdateEta,
      step8Pilot, step8Init, step8AbortEnv, step8ExampleEnv, exampleOptions]
  · intro h
    have := congrArg uqMLSamplingLevelOptionsClass.m_totallyMute h
    simp [step8Override, exampleOptions] at this

/-- Witness of C15 as amended, on the run of `step8AbortEnv`. -/
theorem step8_options_at_fatal_exit_witness :
    generateSequence_Step8 step8AbortEnv 1 1 (exampleOptions ℚ) step8ExampleCov
        = Step8Outcome.fatal FatalError.pilotChainGeneration
            { step8Override (exampleOptions ℚ) with m_rawChainSize := 5 }
      ∧ ∃ n, ({ step8Override (exampleOptions ℚ) with m_rawChainSize := 5 }
          : uqMLSamplingLevelOptionsClass ℚ)
        = { step8Override (exampleOptions ℚ) with m_rawChainSize := n } := by
  have hrun : generateSequence_Step8 step8AbortEnv 1 1 (exampleOptions ℚ) step8ExampleCov
      = Step8Outcome.fatal FatalError.pilotChainGeneration
          { step8Override (exampleOptions ℚ) with m_rawChainSize := 5 } := by
    simp [generateSequence_Step8, step8Loop, step8Attempt, step8RangeFlag, step8UpdateEta,
      step8Pilot, step8Init, step8AbortEnv, step8ExampleEnv, exampleOptions]
  exact ⟨hrun, (step8_options_at_fatal_exit step8AbortEnv 1 1 (exampleOptions ℚ)
    step8ExampleCov _ _ hrun).1 rfl⟩

section Step8Cases
variable {K : Type} [LinearOrderedField K] {d : Nat}

theorem step8RangeFlag_some (s : Step8State K d) (flag : Bool)
    (h : step8RangeFlag s = some flag) :
    (flag = true ∧ s.nowRejectionRate < s.currOptions.m_minRejectionRate)
      ∨ (flag = false ∧ ¬ s.nowRejectionRate < s.currOptions.m_minRejectionRate
        ∧ s.nowRejectionRate > s.currOptions.m_maxRejectionRate) := by
  unfold step8RangeFlag at h
  split_ifs at h with h1 h2
  · exact Or.inl ⟨(Option.some.inj h).symm, h1⟩
  · exact Or.inr ⟨(Option.some.inj h).symm, h1, h2⟩

/-- The three ways through lines 665-708. -/
theorem step8EnterBracket_cases (s s1 : Step8State K d) (h : step8EnterBracket s = some s1) :
    (s1 = s ∧ (s.useMiddlePointLogicForEta = true ∨ s.nowAttempt = 1
        ∨ s.beforeRejectionRateIsBelowRange = s.nowRejectionRateIsBelowRange))
      ∨ (s.useMiddlePointLogicForEta = false ∧ s.nowAttempt ≠ 1
        ∧ s.beforeRejectionRateIsBelowRange = true ∧ s.nowRejectionRateIsBelowRange = false
        ∧ s1 = { s with
            useMiddlePointLogicForEta := true
            etas0 := min s.beforeEta s.nowEta
            etas1 := max s.beforeEta s.nowEta
            rejs0 := if min s.beforeEta s.nowEta = s.beforeEta
              then s.beforeRejectionRate else s.nowRejectionRate
            rejs1 := if min s.beforeEta s.nowEta = s.beforeEta
              then s.nowRejectionRate else s.beforeRejectionRate })
      ∨ (s.useMiddlePointLogicForEta = false ∧ s.nowAttempt ≠ 1
        ∧ s.beforeRejectionRateIsBelowRange = false ∧ s.nowRejectionRateIsBelowRange = true
        ∧ s1 = { s with
            useMiddlePointLogicForEta := true
            etas0 := min s.beforeEta s.nowEta
            etas1 := max s.beforeEta s.nowEta }) := by
  unfold step8EnterBracket at h
  by_cases h1 : s.useMiddlePointLogicForEta = false
  · rw [if_pos h1] at h
    by_cases h2 : s.nowAttempt = 1
    · rw [if_pos h2] at h
      exact Or.inl ⟨(Option.some.inj h).symm, Or.inr (Or.inl h2)⟩
    · rw [if_neg h2] at h
      by_cases h3 : s.beforeRejectionRateIsBelowRange = true
          ∧ s.nowRejectionRateIsBelowRange = true
      · rw [if_pos h3] at h
        exact Or.inl ⟨(Option.some.inj h).symm, Or.inr (Or.inr (h3.1.trans h3.2.symm))⟩
      · rw [if_neg h3] at h
        by_cases h4 : s.beforeRejectionRateIsBelowRange = false
            ∧ s.nowRejectionRateIsBelowRange = false
        · rw [if_pos h4] at h
          exact Or.inl ⟨(Option.some.inj h).symm, Or.inr (Or.inr (h4.1.trans h4.2.symm))⟩
        · rw [if_neg h4] at h
          by_cases h5 : s.beforeRejectionRateIsBelowRange = true
              ∧ s.nowRejectionRateIsBelowRange = false
          · rw [if_pos h5] at h
            exact Or.inr (Or.inl ⟨h1, h2, h5.1, h5.2, (Option.some.inj h).symm⟩)
          · rw [if_neg h5] at h
            by_cases h6 : s.beforeRejectionRateIsBelowRange = false
                ∧ s.nowRejectionRateIsBelowRange = true
            · rw [if_pos h6] at h
              exact Or.inr (Or.inr ⟨h1, h2, h6.1, h6.2, (Option.some.inj h).symm⟩)
            · rw [if_neg h6] at h
              exact Option.noConfusion h
  · rw [if_neg h1] at h
    exact Or.inl ⟨(Option.some.inj h).symm, Or.inl (by simpa using h1)⟩

end Step8Cases

section Step8Eta
variable {K : Type} [LinearOrderedField K] [FloorRing K] {d : Nat}

/-- An iteration of step 8 after the first one, on an inter-group rank. -/
theorem step8_transition (env : Step8Env K d) (mean : K) (cov : Fin d → Fin d → K)
    (s s1 : Step8State K d) (hi : env.inter0Rank ≥ 0) (hpos : 0 < s.nowAttempt)
    (h : step8Attempt env mean cov s = Step8Step.continued s1) :
    ∃ flag s2, step8RangeFlag s = some flag
      ∧ step8EnterBracket { s with nowRejectionRateIsBelowRange := flag } = some s2
      ∧ s1.nowEta = (step8NextEta mean s2).nowEta
      ∧ s1.etas0 = (step8NextEta mean s2).etas0
      ∧ s1.etas1 = (step8NextEta mean s2).etas1
      ∧ s1.rejs0 = s2.rejs0
      ∧ s1.useMiddlePointLogicForEta = s2.useMiddlePointLogicForEta
      ∧ s1.beforeEta = s.nowEta
      ∧ s1.beforeRejectionRate = s.nowRejectionRate
      ∧ s1.beforeRejectionRateIsBelowRange = flag
      ∧ s1.nowAttempt = s.nowAttempt + 1
      ∧ s1.currOptions = s.currOptions := by
  obtain ⟨flag, s0, size, rej, hf, hu, _, rfl⟩ := step8Attempt_continued env mean cov s s1 h
  unfold step8UpdateEta at hu
  rw [if_pos hi, if_pos (by exact hpos)] at hu
  cases he : step8EnterBracket { s with nowRejectionRateIsBelowRange := flag } with
  | none => rw [he] at hu; simp at hu
  | some s2 =>
    rw [he] at hu
    have e := Option.some.inj hu
    subst e
    have hfr := step8EnterBracket_frame _ s2 he
    have hn := step8NextEta_frame mean s2
    refine ⟨flag, s2, hf, he, rfl, rfl, rfl, hn.2.2.2.2.2.2.2, hn.2.2.2.1, ?_, ?_, ?_, ?_, ?_⟩
    · exact hn.2.2.2.2.1.trans hfr.2.2.2.1
    · exact hn.2.2.2.2.2.1.trans hfr.2.2.1
    · exact hn.2.2.2.2.2.2.1.trans hfr.2.2.2.2.1
    · simp only [hn.2.1, hfr.2.1]
    · exact hn.1.trans hfr.1

/-- The first iteration of step 8 leaves the candidate and the bracket
variables as they are on entry. -/
theorem step8_transition_first (env : Step8Env K d) (mean : K) (cov : Fin d → Fin d → K)
    (s s1 : Step8State K d) (hzero : s.nowAttempt = 0)
    (h : step8Attempt env mean cov s = Step8Step.continued s1) :
    s1.nowEta = s.nowEta ∧ s1.etas0 = s.etas0 ∧ s1.etas1 = s.etas1 ∧ s1.rejs0 = s.rejs0
      ∧ s1.useMiddlePointLogicForEta = s.useMiddlePointLogicForEta
      ∧ s1.nowAttempt = 1 ∧ s1.currOptions = s.currOptions := by
  obtain ⟨flag, s0, size, rej, hf, hu, _, rfl⟩ := step8Attempt_continued env mean cov s s1 h
  unfold step8UpdateEta at hu
  have hn : ¬ (({ s with nowRejectionRateIsBelowRange := flag } : Step8State K d).nowAttempt
      > 0) := by
    simp [hzero]
  rw [if_neg hn] at hu
  have e : s0 = { s with nowRejectionRateIsBelowRange := flag } := by
    split at hu <;> exact (Option.some.inj hu).symm
  subst e
  simp [hzero]

end Step8Eta

section Step8Bracket
variable {K : Type} [LinearOrderedField K] [FloorRing K] {d : Nat}

/-- On a rank outside the inter-group an iteration of step 8 that reaches the
loop test has changed neither the candidate nor the rate variable, and has not
switched to the middle point logic. -/
theorem step8Attempt_outside (env : Step8Env K d) (mean : K) (cov : Fin d → Fin d → K)
    (s s1 : Step8State K d) (ho : ¬ env.inter0Rank ≥ 0)
    (h : step8Attempt env mean cov s = Step8Step.continued s1) :
    s1.nowEta = s.nowEta ∧ s1.useMiddlePointLogicForEta = s.useMiddlePointLogicForEta
      ∧ s1.nowRejectionRate = s.nowRejectionRate
      ∧ s1.testResult = env.subRootTestResult s.nowAttempt := by
  obtain ⟨flag, s0, size, rej, _, hu, _, rfl⟩ := step8Attempt_continued env mean cov s s1 h
  unfold step8UpdateEta at hu
  rw [if_neg ho] at hu
  have e := (Option.some.inj hu).symm
  subst e
  simp only [if_neg ho]
  exact ⟨trivial, trivial, trivial, trivial⟩

theorem step8Trace_outside (env : Step8Env K d) (mean : K) (cov : Fin d → Fin d → K)
    (ho : ¬ env.inter0Rank ≥ 0) (eta : K) :
    ∀ fuel (s : Step8State K d), s.nowEta = eta → s.useMiddlePointLogicForEta = false →
      ∀ t ∈ step8Trace env mean cov fuel s,
        t.nowEta = eta ∧ t.useMiddlePointLogicForEta = false := by
  intro fuel s h1 h2
  refine step8Trace_forall env mean cov
    (fun s => s.nowEta = eta ∧ s.useMiddlePointLogicForEta = false)
    (fun t => t.nowEta = eta ∧ t.useMiddlePointLogicForEta = false) ?_ fuel s ⟨h1, h2⟩
  intro s s1 hs hatt
  obtain ⟨g1, g2, _, _⟩ := step8Attempt_outside env mean cov s s1 ho hatt
  exact ⟨⟨g1.trans hs.1, g2.trans hs.2⟩, fun _ => ⟨g1.trans hs.1, g2.trans hs.2⟩⟩

/-- C17 as amended: the first pilot of step 8 is run with `eta = prevEta`. On
an inter-group rank, as long as the middle point logic is not in use, the eta
of a pilot is 4 times the eta of the pilot before it when that pilot's
rejection rate was below `minRejectionRate`, and a quarter of it otherwise,
which for `minRejectionRate ≤ maxRejectionRate` is when that rate was above
`maxRejectionRate`. On a rank outside the inter-group every pilot is run with
`eta = prevEta` and the middle point logic is never in use. -/
theorem step8_expansion_mode (env : Step8Env K d) (fuel : Nat) (prevEta : K)
    (currOptions : uqMLSamplingLevelOptionsClass K) (unifiedCovMatrix : Fin d → Fin d → K) :
    (∀ t, (step8Trace env (meanRejectionRate currOptions) unifiedCovMatrix fuel
          (step8Init prevEta currOptions unifiedCovMatrix)).head? = some t →
        t.nowEta = prevEta ∧ t.nowCovMatrix = matrixScale unifiedCovMatrix prevEta)
    ∧ (env.inter0Rank ≥ 0 →
        List.Chain' (fun t1 t2 =>
          t2.useMiddlePointLogicForEta = false →
            (t1.nowRejectionRate < currOptions.m_minRejectionRate →
                t2.nowEta = 4 * t1.nowEta)
            ∧ (currOptions.m_minRejectionRate ≤ currOptions.m_maxRejectionRate →
                t1.nowRejectionRate > currOptions.m_maxRejectionRate →
                t2.nowEta = t1.nowEta / 4)
            ∧ (¬ t1.nowRejectionRate < currOptions.m_minRejectionRate →
                t2.nowEta = t1.nowEta / 4))
        (step8Trace env (meanRejectionRate currOptions) unifiedCovMatrix fuel
          (step8Init prevEta currOptions unifiedCovMatrix)))
    ∧ (¬ env.inter0Rank ≥ 0 →
        ∀ t ∈ step8Trace env (meanRejectionRate currOptions) unifiedCovMatrix fuel
            (step8Init prevEta currOptions unifiedCovMatrix),
          t.nowEta = prevEta ∧ t.useMiddlePointLogicForEta = false
            ∧ t.nowCovMatrix = matrixScale unifiedCovMatrix prevEta) := by
  refine ⟨?_, ?_, ?_⟩
  · intro t ht
    have hatt := step8Trace_head env _ unifiedCovMatrix fuel _ t ht
    have h1 := (step8_transition_first env _ unifiedCovMatrix _ t rfl hatt).1
    have hmem : t ∈ step8Trace env (meanRejectionRate currOptions) unifiedCovMatrix fuel
        (step8Init prevEta currOptions unifiedCovMatrix) := List.mem_of_mem_head? ht
    have h2 := (step8Trace_basic env prevEta currOptions unifiedCovMatrix fuel t hmem).2.2.1
    have h3 : t.nowEta = prevEta := h1
    exact ⟨h3, by rw [h2, h3]⟩
  · intro hi
    have hch := step8Trace_chain env (meanRejectionRate currOptions) unifiedCovMatrix fuel
      (step8Init prevEta currOptions unifiedCovMatrix)
    rw [List.Chain'.iff_mem] at hch
    refine hch.imp ?_
    rintro t1 t2 ⟨hm1, _, _, hatt⟩ hmid
    obtain ⟨ho, _, _, hpos, _⟩ :=
      step8Trace_basic env prevEta currOptions unifiedCovMatrix fuel t1 hm1
    obtain ⟨flag, s2, hf, he, hEta, _, _, _, hU, _⟩ :=
      step8_transition env _ unifiedCovMatrix t1 t2 hi hpos hatt
    rw [hU] at hmid
    have hs2 : s2 = { t1 with nowRejectionRateIsBelowRange := flag } := by
      rcases step8EnterBracket_cases _ s2 he with ⟨h, _⟩ | ⟨_, _, _, _, h⟩ | ⟨_, _, _, _, h⟩
      · exact h
      · rw [h] at hmid; simp at hmid
      · rw [h] at hmid; simp at hmid
    rw [hs2] at hmid
    have hnext : t2.nowEta = if flag then t1.nowEta * 4 else t1.nowEta / 4 := by
      rw [hEta, hs2]
      simp only at hmid
      simp [step8NextEta, hmid]
    rcases step8RangeFlag_some t1 flag hf with ⟨hfl, hlt⟩ | ⟨hfl, hnlt, hgt⟩
    · rw [ho] at hlt
      subst hfl
      refine ⟨fun _ => by rw [hnext]; simp [mul_comm], fun hwin hgt => ?_,
        fun hn => absurd hlt hn⟩
      exact absurd (lt_of_lt_of_le hlt hwin) (not_lt.mpr hgt.le)
    · rw [ho] at hnlt
      subst hfl
      exact ⟨fun h => absurd h hnlt, fun _ _ => by rw [hnext]; simp,
        fun _ => by rw [hnext]; simp⟩
  · intro ho t ht
    obtain ⟨g1, g2⟩ := step8Trace_outside env _ unifiedCovMatrix ho prevEta fuel
      (step8Init prevEta currOptions unifiedCovMatrix) rfl rfl t ht
    have h2 := (step8Trace_basic env prevEta currOptions unifiedCovMatrix fuel t ht).2.2.1
    exact ⟨g1, g2, by rw [h2, g1]⟩

end Step8Bracket

theorem meanRejectionRate_bounds {K : Type} [LinearOrderedField K]
    (o : uqMLSamplingLevelOptionsClass K)
    (hwin : o.m_minRejectionRate ≤ o.m_maxRejectionRate) :
    o.m_minRejectionRate ≤ meanRejectionRate o ∧ meanRejectionRate o ≤ o.m_maxRejectionRate := by
  unfold meanRejectionRate
  constructor <;> linarith

section Step8Invariant
variable {K : Type} [LinearOrderedField K] [FloorRing K] {d : Nat}

/-- What an iteration of step 8 after the first one does to the candidate and
to the bracket, from a state that satisfies the invariant. -/
theorem step8_bracket_step (env : Step8Env K d) (cov : Fin d → Fin d → K)
    (o : uqMLSamplingLevelOptionsClass K) (s s1 : Step8State K d)
    (hi : env.inter0Rank ≥ 0) (hmin : 0 < o.m_minRejectionRate)
    (hwin : o.m_minRejectionRate ≤ o.m_maxRejectionRate)
    (hinv : Step8Invariant o s)
    (h : step8Attempt env (meanRejectionRate o) cov s = Step8Step.continued s1) :
    s1.beforeEta = s.nowEta
      ∧ s1.beforeRejectionRate = s.nowRejectionRate
      ∧ s1.beforeRejectionRateIsBelowRange = decide (s.nowRejectionRate < o.m_minRejectionRate)
      ∧ s1.nowAttempt = s.nowAttempt + 1 ∧ s1.currOptions = o
      ∧ (s.useMiddlePointLogicForEta = false →
          (s1.useMiddlePointLogicForEta = true ↔
            (2 ≤ s.nowAttempt ∧ s.beforeRejectionRateIsBelowRange
              ≠ decide (s.nowRejectionRate < o.m_minRejectionRate)))
          ∧ (s1.useMiddlePointLogicForEta = false →
              s1.rejs0 = 0
              ∧ s1.nowEta = (if s.nowRejectionRate < o.m_minRejectionRate
                  then s.nowEta * 4 else s.nowEta / 4))
          ∧ (s1.useMiddlePointLogicForEta = true →
              s1.etas0 = min s.beforeEta s.nowEta ∧ s1.etas1 = max s.beforeEta s.nowEta
              ∧ s1.nowEta = (1 / 2) * (s1.etas0 + s1.etas1)
              ∧ s1.rejs0 < meanRejectionRate o))
      ∧ (s.useMiddlePointLogicForEta = true →
          s1.useMiddlePointLogicForEta = true
          ∧ s1.rejs0 = s.rejs0
          ∧ s1.etas0 = (if s.nowRejectionRate > meanRejectionRate o then s.etas0 else s.nowEta)
          ∧ s1.etas1 = (if s.nowRejectionRate > meanRejectionRate o then s.nowEta else s.etas1)
          ∧ s1.nowEta = (1 / 2) * (s1.etas0 + s1.etas1)) := by
  obtain ⟨hEtaPos, hAtt, hOpt, hExp, hBr⟩ := hinv
  obtain ⟨flag, s2, hf, he, hEta, hE0, hE1, hR0, hU, hbE, hbR, hbF, hN, hO⟩ :=
    step8_transition env _ cov s s1 hi (by omega) h
  have hmean := meanRejectionRate_bounds o hwin
  have hflag : flag = decide (s.nowRejectionRate < o.m_minRejectionRate) := by
    rcases step8RangeFlag_some s flag hf with ⟨hfl, hlt⟩ | ⟨hfl, hnlt, _⟩
    · rw [hOpt] at hlt; rw [hfl]; simp [hlt]
    · rw [hOpt] at hnlt; rw [hfl]; simp [hnlt]
  have hrate : flag = false → s.nowRejectionRate > meanRejectionRate o := by
    intro hfl
    rcases step8RangeFlag_some s flag hf with ⟨hfl2, _⟩ | ⟨_, _, hgt⟩
    · rw [hfl] at hfl2; exact absurd hfl2 (by decide)
    · rw [hOpt] at hgt; exact lt_of_le_of_lt hmean.2 hgt
  have hrate2 : flag = true → ¬ s.nowRejectionRate > meanRejectionRate o := by
    intro hfl
    rcases step8RangeFlag_some s flag hf with ⟨_, hlt⟩ | ⟨hfl2, _, _⟩
    · rw [hOpt] at hlt; exact not_lt.mpr (le_trans hlt.le hmean.1)
    · rw [hfl] at hfl2; exact absurd hfl2 (by decide)
  refine ⟨hbE, hbR, by rw [hbF, hflag], hN, hO.trans hOpt, ?_, ?_⟩
  · intro hmid
    obtain ⟨hrej0, hexp2⟩ := hExp hmid
    rcases step8EnterBracket_cases _ s2 he with ⟨hs2, hc⟩ | ⟨_, hne, hb, hn, hs2⟩
        | ⟨_, hne, hb, hn, hs2⟩
    · -- no switch
      have hU2 : s1.useMiddlePointLogicForEta = false := by rw [hU, hs2]; exact hmid
      have hnot : ¬ (2 ≤ s.nowAttempt ∧ s.beforeRejectionRateIsBelowRange
          ≠ decide (s.nowRejectionRate < o.m_minRejectionRate)) := by
        rintro ⟨h2, hneq⟩
        rcases hc with hc | hc | hc
        · simp only at hc; rw [hmid] at hc; exact absurd hc (by decide)
        · simp only at hc; omega
        · simp only at hc; rw [← hflag] at hneq; exact hneq hc
      refine ⟨⟨fun h => by rw [hU2] at h; exact absurd h (by decide), fun h => absurd h hnot⟩,
        fun _ => ⟨?_, ?_⟩, fun h => by rw [hU2] at h; exact absurd h (by decide)⟩
      · rw [hR0, hs2]; exact hrej0
      · rw [hEta, hs2]
        simp only [step8NextEta, hmid, if_true]
        rw [hflag]
        by_cases hlt : s.nowRejectionRate < o.m_minRejectionRate <;> simp [hlt]
    · -- switch, the pilot before was below the range and the latest above
      simp only at hne hb hn
      have h2 : 2 ≤ s.nowAttempt := by omega
      obtain ⟨hbpos, hbelow, _⟩ := hexp2 h2
      obtain ⟨hnow, hbrate⟩ := hbelow hb
      have hlt : s.beforeEta < s.nowEta := by rw [hnow]; linarith
      have hminE : min s.beforeEta s.nowEta = s.beforeEta := min_eq_left hlt.le
      have hmaxE : max s.beforeEta s.nowEta = s.nowEta := max_eq_right hlt.le
      have hU2 : s1.useMiddlePointLogicForEta = true := by rw [hU, hs2]
      have hgt := hrate hn
      have hr0 : s2.rejs0 = s.beforeRejectionRate := by rw [hs2]; simp [hminE]
      have hr0lt : s2.rejs0 < meanRejectionRate o := by
        rw [hr0]; exact lt_of_lt_of_le hbrate hmean.1
      have he0 : s1.etas0 = min s.beforeEta s.nowEta := by
        rw [hE0, hs2]
        simp [step8NextEta, hgt, hminE, not_lt.mpr (lt_of_lt_of_le hbrate hmean.1).le]
      have he1 : s1.etas1 = max s.beforeEta s.nowEta := by
        rw [hE1, hs2]
        simp [step8NextEta, hgt, hminE, hmaxE, not_lt.mpr (lt_of_lt_of_le hbrate hmean.1).le]
      refine ⟨⟨fun _ => ⟨h2, ?_⟩, fun _ => hU2⟩,
        fun h => by rw [hU2] at h; exact absurd h (by decide), fun _ => ⟨he0, he1, ?_, ?_⟩⟩
      · rw [← hflag, hb, hn]; decide
      · rw [hEta, he0, he1, hs2]
        simp [step8NextEta, hgt, hminE, hmaxE, not_lt.mpr (lt_of_lt_of_le hbrate hmean.1).le]
      · rw [hR0]; exact hr0lt
    · -- switch, the pilot before was above the range and the latest below
      simp only at hne hb hn
      have h2 : 2 ≤ s.nowAttempt := by omega
      obtain ⟨hbpos, _, habove⟩ := hexp2 h2
      have hnow := habove hb
      have hlt : s.nowEta < s.beforeEta := by rw [hnow]; linarith
      have hminE : min s.beforeEta s.nowEta = s.nowEta := min_eq_right hlt.le
      have hmaxE : max s.beforeEta s.nowEta = s.beforeEta := max_eq_left hlt.le
      have hU2 : s1.useMiddlePointLogicForEta = true := by rw [hU, hs2]
      have hngt := hrate2 hn
      have hmpos : 0 < meanRejectionRate o := lt_of_lt_of_le hmin hmean.1
      have hr0 : s2.rejs0 = 0 := by rw [hs2]; exact hrej0
      have he0 : s1.etas0 = min s.beforeEta s.nowEta := by
        rw [hE0, hs2]
        simp [step8NextEta, hngt, hminE, hrej0, hmpos]
      have he1 : s1.etas1 = max s.beforeEta s.nowEta := by
        rw [hE1, hs2]
        simp [step8NextEta, hngt, hminE, hmaxE, hrej0, hmpos]
      refine ⟨⟨fun _ => ⟨h2, ?_⟩, fun _ => hU2⟩,
        fun h => by rw [hU2] at h; exact absurd h (by decide), fun _ => ⟨he0, he1, ?_, ?_⟩⟩
      · rw [← hflag, hb, hn]; decide
      · rw [hEta, he0, he1, hs2]
        simp [step8NextEta, hngt, hminE, hmaxE, hrej0, hmpos]
      · rw [hR0, hr0]; exact hmpos
  · intro hmid
    obtain ⟨hr0lt, _, _, _⟩ := hBr hmid
    have hs2 : s2 = { s with nowRejectionRateIsBelowRange := flag } := by
      rcases step8EnterBracket_cases _ s2 he with ⟨hs2, _⟩ | ⟨hc, _⟩ | ⟨hc, _⟩
      · exact hs2
      · simp only at hc; rw [hmid] at hc; exact absurd hc (by decide)
      · simp only at hc; rw [hmid] at hc; exact absurd hc (by decide)
    have hU2 : s1.useMiddlePointLogicForEta = true := by rw [hU, hs2]; exact hmid
    have he0 : s1.etas0
        = (if s.nowRejectionRate > meanRejectionRate o then s.etas0 else s.nowEta) := by
      rw [hE0, hs2]
      by_cases hgt : s.nowRejectionRate > meanRejectionRate o
      · simp [step8NextEta, hmid, hgt, not_lt.mpr hr0lt.le]
      · simp [step8NextEta, hmid, hgt, hr0lt]
    have he1 : s1.etas1
        = (if s.nowRejectionRate > meanRejectionRate o then s.nowEta else s.etas1) := by
      rw [hE1, hs2]
      by_cases hgt : s.nowRejectionRate > meanRejectionRate o
      · simp [step8NextEta, hmid, hgt, not_lt.mpr hr0lt.le]
      · simp [step8NextEta, hmid, hgt, hr0lt]
    refine ⟨hU2, by rw [hR0, hs2], he0, he1, ?_⟩
    rw [hEta, he0, he1, hs2]
    by_cases hgt : s.nowRejectionRate > meanRejectionRate o
    · simp [step8NextEta, hmid, hgt, not_lt.mpr hr0lt.le]
    · simp [step8NextEta, hmid, hgt, hr0lt]

end Step8Invariant

section Step8BracketClaim
variable {K : Type} [LinearOrderedField K] [FloorRing K] {d : Nat}

theorem step8_invariant_step (env : Step8Env K d) (cov : Fin d → Fin d → K)
    (o : uqMLSamplingLevelOptionsClass K) (s s1 : Step8State K d)
    (hi : env.inter0Rank ≥ 0) (hmin : 0 < o.m_minRejectionRate)
    (hwin : o.m_minRejectionRate ≤ o.m_maxRejectionRate)
    (hinv : Step8Invariant o s)
    (h : step8Attempt env (meanRejectionRate o) cov s = Step8Step.continued s1) :
    Step8Invariant o s1 := by
  obtain ⟨hbE, hbR, hbF, hN, hO, hExp, hBr⟩ :=
    step8_bracket_step env cov o s s1 hi hmin hwin hinv h
  obtain ⟨hEtaPos, hAtt, _, hExpS, hBrS⟩ := hinv
  by_cases hmid : s.useMiddlePointLogicForEta = true
  · obtain ⟨hU, hR0, he0, he1, hEta⟩ := hBr hmid
    obtain ⟨hr0, hpos0, hle, hnow⟩ := hBrS hmid
    have hlo : s.etas0 ≤ s.nowEta := by rw [hnow]; linarith
    have hhi : s.nowEta ≤ s.etas1 := by rw [hnow]; linarith
    have hpos0' : 0 < s1.etas0 := by
      rw [he0]; split_ifs <;> assumption
    have hle' : s1.etas0 ≤ s1.etas1 := by
      rw [he0, he1]; split_ifs <;> assumption
    refine ⟨?_, by omega, hO, fun hf => ?_, fun _ => ⟨by rw [hR0]; exact hr0, hpos0', hle', hEta⟩⟩
    · rw [hEta]; linarith
    · rw [hU] at hf; exact absurd hf (by decide)
  · have hmidf : s.useMiddlePointLogicForEta = false := by simpa using hmid
    obtain ⟨hiff, hstay, henter⟩ := hExp hmidf
    by_cases hU : s1.useMiddlePointLogicForEta = true
    · obtain ⟨he0, he1, hEta, hr0⟩ := henter hU
      obtain ⟨h2, _⟩ := hiff.mp hU
      obtain ⟨hbpos, _, _⟩ := (hExpS hmidf).2 h2
      have hpos0 : 0 < s1.etas0 := by rw [he0]; exact lt_min hbpos hEtaPos
      have hle : s1.etas0 ≤ s1.etas1 := by
        rw [he0, he1]; exact le_trans (min_le_left _ _) (le_max_left _ _)
      refine ⟨?_, by omega, hO, fun hf => ?_, fun _ => ⟨hr0, hpos0, hle, hEta⟩⟩
      · rw [hEta]; linarith
      · rw [hU] at hf; exact absurd hf (by decide)
    · have hUf : s1.useMiddlePointLogicForEta = false := by simpa using hU
      obtain ⟨hr0, hEta⟩ := hstay hUf
      refine ⟨?_, by omega, hO, fun _ => ⟨hr0, fun _ => ⟨by rw [hbE]; exact hEtaPos, ?_, ?_⟩⟩,
        fun hf => absurd hf hU⟩
      · rw [hEta]; split_ifs <;> linarith
      · intro hb
        rw [hbF] at hb
        have hlt : s.nowRejectionRate < o.m_minRejectionRate := by simpa using hb
        rw [hEta, if_pos hlt, hbE, hbR]
        exact ⟨rfl, hlt⟩
      · intro hb
        rw [hbF] at hb
        have hlt : ¬ s.nowRejectionRate < o.m_minRejectionRate := by simpa using hb
        rw [hEta, if_neg hlt, hbE]

/-- The invariant holds at the end of every iteration of step 8. -/
theorem step8Trace_invariant (env : Step8Env K d) (fuel : Nat) (prevEta : K)
    (o : uqMLSamplingLevelOptionsClass K) (cov : Fin d → Fin d → K)
    (hi : env.inter0Rank ≥ 0) (hprev : 0 < prevEta) (hmin : 0 < o.m_minRejectionRate)
    (hwin : o.m_minRejectionRate ≤ o.m_maxRejectionRate) :
    ∀ t ∈ step8Trace env (meanRejectionRate o) cov fuel (step8Init prevEta o cov),
      Step8Invariant o t := by
  refine step8Trace_forall env (meanRejectionRate o) cov
    (fun s => s = step8Init prevEta o cov ∨ Step8Invariant o s) _ ?_ fuel _ (Or.inl rfl)
  intro s s1 hs hatt
  have key : Step8Invariant o s1 := by
    rcases hs with rfl | hinv
    · obtain ⟨h1, _, _, h4, h5, h6, h7⟩ :=
        step8_transition_first env _ cov _ s1 rfl hatt
      refine ⟨by rw [h1]; exact hprev, by omega, h7, fun _ => ⟨by rw [h4]; rfl, fun h2 => ?_⟩,
        fun hf => ?_⟩
      · omega
      · rw [h5] at hf; simp [step8Init] at hf
    · exact step8_invariant_step env cov o s s1 hi hmin hwin hinv hatt
  exact ⟨key, fun _ => Or.inr key⟩

/-- C18: on an inter-group rank, for `prevEta > 0` and
`0 < minRejectionRate ≤ maxRejectionRate`. Between two successive iterations
of step 8 (`t1` ends the earlier, `t2` the later): the middle point logic
starts exactly when the pilot of `t1` is not the first and its below-range
flag differs from that of the pilot before it, and then `etas[0]`, `etas[1]`
are the min and the max of the etas of those two pilots and the candidate is
their middle; once it is in use, the latest eta replaces `etas[1]` when the
rate of its pilot exceeded the mean rejection rate and `etas[0]` otherwise,
the candidate is the middle of the new bracket and the width of the bracket
is halved. With the middle point logic `etas[0] ≤ eta ≤ etas[1]`. -/
theorem step8_bracket_mode (env : Step8Env K d) (fuel : Nat) (prevEta : K)
    (currOptions : uqMLSamplingLevelOptionsClass K) (unifiedCovMatrix : Fin d → Fin d → K)
    (hi : env.inter0Rank ≥ 0) (hprev : 0 < prevEta)
    (hmin : 0 < currOptions.m_minRejectionRate)
    (hwin : currOptions.m_minRejectionRate ≤ currOptions.m_maxRejectionRate) :
    List.Chain' (fun t1 t2 =>
        t2.beforeEta = t1.nowEta
        ∧ t2.beforeRejectionRateIsBelowRange
          = decide (t1.nowRejectionRate < currOptions.m_minRejectionRate)
        ∧ (t1.useMiddlePointLogicForEta = false →
            (t2.useMiddlePointLogicForEta = true ↔
              (2 ≤ t1.nowAttempt ∧ t1.beforeRejectionRateIsBelowRange
                ≠ decide (t1.nowRejectionRate < currOptions.m_minRejectionRate)))
            ∧ (t2.useMiddlePointLogicForEta = true →
                t2.etas0 = min t1.beforeEta t1.nowEta
                ∧ t2.etas1 = max t1.beforeEta t1.nowEta
                ∧ t2.nowEta = (t2.etas0 + t2.etas1) / 2))
        ∧ (t1.useMiddlePointLogicForEta = true →
            t2.useMiddlePointLogicForEta = true
            ∧ t2.etas0 = (if t1.nowRejectionRate
                  > (currOptions.m_minRejectionRate + currOptions.m_maxRejectionRate) / 2
                then t1.etas0 else t1.nowEta)
            ∧ t2.etas1 = (if t1.nowRejectionRate
                  > (currOptions.m_minRejectionRate + currOptions.m_maxRejectionRate) / 2
                then t1.nowEta else t1.etas1)
            ∧ t2.nowEta = (t2.etas0 + t2.etas1) / 2
            ∧ t2.etas1 - t2.etas0 = (t1.etas1 - t1.etas0) / 2))
      (step8Trace env (meanRejectionRate currOptions) unifiedCovMatrix fuel
        (step8Init prevEta currOptions unifiedCovMatrix))
    ∧ (∀ t ∈ step8Trace env (meanRejectionRate currOptions) unifiedCovMatrix fuel
          (step8Init prevEta currOptions unifiedCovMatrix),
        t.useMiddlePointLogicForEta = true → t.etas0 ≤ t.nowEta ∧ t.nowEta ≤ t.etas1) := by
  have hinv := step8Trace_invariant env fuel prevEta currOptions unifiedCovMatrix hi hprev
    hmin hwin
  have hmean : meanRejectionRate currOptions
      = (currOptions.m_minRejectionRate + currOptions.m_maxRejectionRate) / 2 := by
    unfold meanRejectionRate; ring
  constructor
  · have hch := step8Trace_chain env (meanRejectionRate currOptions) unifiedCovMatrix fuel
      (step8Init prevEta currOptions unifiedCovMatrix)
    rw [List.Chain'.iff_mem] at hch
    refine hch.imp ?_
    rintro t1 t2 ⟨hm1, _, _, hatt⟩
    have hI := hinv t1 hm1
    obtain ⟨hbE, _, hbF, _, _, hExp, hBr⟩ :=
      step8_bracket_step env unifiedCovMatrix currOptions t1 t2 hi hmin hwin hI hatt
    refine ⟨hbE, hbF, fun hmid => ?_, fun hmid => ?_⟩
    · obtain ⟨hiff, _, henter⟩ := hExp hmid
      refine ⟨hiff, fun hU => ?_⟩
      obtain ⟨he0, he1, hEta, _⟩ := henter hU
      exact ⟨he0, he1, by rw [hEta]; ring⟩
    · obtain ⟨hU, _, he0, he1, hEta⟩ := hBr hmid
      obtain ⟨_, _, _, _, hBrS⟩ := hI
      obtain ⟨_, _, _, hnow⟩ := hBrS hmid
      rw [hmean] at he0 he1
      refine ⟨hU, he0, he1, by rw [hEta]; ring, ?_⟩
      rw [he0, he1]
      split_ifs
      · rw [hnow]; ring
      · rw [hnow]; ring
  · intro t ht hU
    obtain ⟨_, _, _, _, hBrS⟩ := hinv t ht
    obtain ⟨_, _, hle, hnow⟩ := hBrS hU
    constructor <;> rw [hnow] <;> linarith

end Step8BracketClaim

theorem example_meanRejectionRate : meanRejectionRate (exampleOptions ℚ) = 7 / 20 := by
  norm_num [meanRejectionRate, exampleOptions]

/-- Lines 630 and 767 in `double` arithmetic for the window `[1/4, 9/20]` and
`c = 1/4`: the quotient is `29.71428571428572`. -/
theorem example_pilotLengthQuotient :
    meanRejectionRateDouble (exampleOptions ℚ)
        = DoubleValue.finite (3152519739159347 / 9007199254740992)
      ∧ pilotLengthQuotient (exampleOptions ℚ)
        = DoubleValue.finite (8363827879402351 / 281474976710656) :=
  pilotLengthQuotient_eval (exampleOptions ℚ)
    (1 / 4)
    (8106479329266893 / 18014398509481984)
    (1 / 4)
    (3152519739159347 / 4503599627370496)
    (3152519739159347 / 9007199254740992)
    (5854679515581645 / 9007199254740992)
    (8363827879402351 / 4503599627370496)
    (8363827879402351 / 1125899906842624)
    (8363827879402351 / 281474976710656)
    (roundToDouble_pos (1 / 4 : ℚ) (-2) 4503599627370496 (1 / 18014398509481984) (1 / 4)
      (by norm_num) (by norm_num) (by norm_num) (by norm_num)
      (roundHalfEven_below _ 4503599627370496 (by norm_num) (by norm_num))
      (by norm_num) (by norm_num))
    (roundToDouble_pos (9 / 20 : ℚ)
      (-2) (8106479329266892 + 1) (1 / 18014398509481984) (8106479329266893 / 18014398509481984)
      (by norm_num) (by norm_num) (by norm_num) (by norm_num)
      (roundHalfEven_above _ 8106479329266892 (by norm_num) (by norm_num))
      (by norm_num) (by norm_num))
    (roundToDouble_pos (1 / 4 : ℚ) (-2) 4503599627370496 (1 / 18014398509481984) (1 / 4)
      (by norm_num) (by norm_num) (by norm_num) (by norm_num)
      (roundHalfEven_below _ 4503599627370496 (by norm_num) (by norm_num))
      (by norm_num) (by norm_num))
    (roundToDouble_pos (1 / 4 + 8106479329266893 / 18014398509481984 : ℚ)
      (-1) (if
      (6305039478318694 : Int) % 2 = 0 then 6305039478318694 else 6305039478318694 + 1)
      (1 / 9007199254740992) (3152519739159347 / 4503599627370496)
      (by norm_num) (by norm_num) (by norm_num) (by norm_num)
      (roundHalfEven_tie _ 6305039478318694 (by norm_num))
      (by norm_num) (by norm_num))
    (roundToDouble_pos (1 / 2 * (3152519739159347 / 4503599627370496) : ℚ)
      (-2) 6305039478318694 (1 / 18014398509481984) (3152519739159347 / 9007199254740992)
      (by norm_num) (by norm_num) (by norm_num) (by norm_num)
      (roundHalfEven_below _ 6305039478318694 (by norm_num) (by norm_num))
      (by norm_num) (by norm_num))
    (roundToDouble_pos (1 - 3152519739159347 / 9007199254740992 : ℚ)
      (-1) 5854679515581645 (1 / 9007199254740992) (5854679515581645 / 9007199254740992)
      (by norm_num) (by norm_num) (by norm_num) (by norm_num)
      (roundHalfEven_below _ 5854679515581645 (by norm_num) (by norm_num))
      (by norm_num) (by norm_num))
    (by norm_num)
    (by norm_num)
    (roundToDouble_pos
      (5854679515581645 / 9007199254740992 / (3152519739159347 / 9007199254740992) : ℚ)
      0 (8363827879402350 + 1) (1 / 4503599627370496) (8363827879402351 / 4503599627370496)
      (by norm_num) (by norm_num) (by norm_num) (by norm_num)
      (roundHalfEven_above _ 8363827879402350 (by norm_num) (by norm_num))
      (by norm_num) (by norm_num))
    (roundToDouble_pos (8363827879402351 / 4503599627370496 / (1 / 4) : ℚ)
      2 8363827879402351 (1 / 1125899906842624) (8363827879402351 / 1125899906842624)
      (by norm_num) (by norm_num) (by norm_num) (by norm_num)
      (roundHalfEven_below _ 8363827879402351 (by norm_num) (by norm_num))
      (by norm_num) (by norm_num))
    (roundToDouble_pos (8363827879402351 / 1125899906842624 / (1 / 4) : ℚ)
      4 8363827879402351 (1 / 281474976710656) (8363827879402351 / 281474976710656)
      (by norm_num) (by norm_num) (by norm_num) (by norm_num)
      (roundHalfEven_below _ 8363827879402351 (by norm_num) (by norm_num))
      (by norm_num) (by norm_num))

/-- Lines 630 and 767 in `double` arithmetic for the window `[3/10, 1/2]` and
`c = 1/2`: the mean is the `double` `0.4`, below `2/5`, `1.-0.4` is exact,
the quotient by `0.4` is rounded down to `1.5 - 2^-52`, and the result is
`5.999999999999999 = 6 - 2^-50`. -/
theorem roundedQuotient_pilotLengthQuotient :
    meanRejectionRateDouble (roundedQuotientOptions ℚ)
        = DoubleValue.finite (3602879701896397 / 9007199254740992)
      ∧ pilotLengthQuotient (roundedQuotientOptions ℚ)
        = DoubleValue.finite (6755399441055743 / 1125899906842624) :=
  pilotLengthQuotient_eval (roundedQuotientOptions ℚ)
    (5404319552844595 / 18014398509481984)
    (1 / 2)
    (1 / 2)
    (3602879701896397 / 4503599627370496)
    (3602879701896397 / 9007199254740992)
    (5404319552844595 / 9007199254740992)
    (6755399441055743 / 4503599627370496)
    (6755399441055743 / 2251799813685248)
    (6755399441055743 / 1125899906842624)
    (roundToDouble_pos (3 / 10 : ℚ)
      (-2) 5404319552844595 (1 / 18014398509481984) (5404319552844595 / 18014398509481984)
      (by norm_num) (by norm_num) (by norm_num) (by norm_num)
      (roundHalfEven_below _ 5404319552844595 (by norm_num) (by norm_num))
      (by norm_num) (by norm_num))
    (roundToDouble_pos (1 / 2 : ℚ) (-1) 4503599627370496 (1 / 9007199254740992) (1 / 2)
      (by norm_num) (by norm_num) (by norm_num) (by norm_num)
      (roundHalfEven_below _ 4503599627370496 (by norm_num) (by norm_num))
      (by norm_num) (by norm_num))
    (roundToDouble_pos (1 / 2 : ℚ) (-1) 4503599627370496 (1 / 9007199254740992) (1 / 2)
      (by norm_num) (by norm_num) (by norm_num) (by norm_num)
      (roundHalfEven_below _ 4503599627370496 (by norm_num) (by norm_num))
      (by norm_num) (by norm_num))
    (roundToDouble_pos (5404319552844595 / 18014398509481984 + 1 / 2 : ℚ)
      (-1) (if
      (7205759403792793 : Int) % 2 = 0 then 7205759403792793 else 7205759403792793 + 1)
      (1 / 9007199254740992) (3602879701896397 / 4503599627370496)
      (by norm_num) (by norm_num) (by norm_num) (by norm_num)
      (roundHalfEven_tie _ 7205759403792793 (by norm_num))
      (by norm_num) (by norm_num))
    (roundToDouble_pos (1 / 2 * (3602879701896397 / 4503599627370496) : ℚ)
      (-2) 7205759403792794 (1 / 18014398509481984) (3602879701896397 / 9007199254740992)
      (by norm_num) (by norm_num) (by norm_num) (by norm_num)
      (roundHalfEven_below _ 7205759403792794 (by norm_num) (by norm_num))
      (by norm_num) (by norm_num))
    (roundToDouble_pos (1 - 3602879701896397 / 9007199254740992 : ℚ)
      (-1) 5404319552844595 (1 / 9007199254740992) (5404319552844595 / 9007199254740992)
      (by norm_num) (by norm_num) (by norm_num) (by norm_num)
      (roundHalfEven_below _ 5404319552844595 (by norm_num) (by norm_num))
      (by norm_num) (by norm_num))
    (by norm_num)
    (by norm_num)
    (roundToDouble_pos
      (5404319552844595 / 9007199254740992 / (3602879701896397 / 9007199254740992) : ℚ)
      0 6755399441055743 (1 / 4503599627370496) (6755399441055743 / 4503599627370496)
      (by norm_num) (by norm_num) (by norm_num) (by norm_num)
      (roundHalfEven_below _ 6755399441055743 (by norm_num) (by norm_num))
      (by norm_num) (by norm_num))
    (roundToDouble_pos (6755399441055743 / 4503599627370496 / (1 / 2) : ℚ)
      1 6755399441055743 (1 / 2251799813685248) (6755399441055743 / 2251799813685248)
      (by norm_num) (by norm_num) (by norm_num) (by norm_num)
      (roundHalfEven_below _ 6755399441055743 (by norm_num) (by norm_num))
      (by norm_num) (by norm_num))
    (roundToDouble_pos (6755399441055743 / 2251799813685248 / (1 / 2) : ℚ)
      2 6755399441055743 (1 / 1125899906842624) (6755399441055743 / 1125899906842624)
      (by norm_num) (by norm_num) (by norm_num) (by norm_num)
      (roundHalfEven_below _ 6755399441055743 (by norm_num) (by norm_num))
      (by norm_num) (by norm_num))

/-- Lines 630 and 767 in `double` arithmetic for the window `[1/4, 3/4]` and
`c = 1/2`: the mean is `1/2` and the quotient `4`. -/
theorem exactQuotient_pilotLengthQuotient :
    meanRejectionRateDouble (exactQuotientOptions ℚ)
        = DoubleValue.finite (1 / 2)
      ∧ pilotLengthQuotient (exactQuotientOptions ℚ)
        = DoubleValue.finite (4) :=
  pilotLengthQuotient_eval (exactQuotientOptions ℚ)
    (1 / 4)
    (3 / 4)
    (1 / 2)
    (1)
    (1 / 2)
    (1 / 2)
    (1)
    (2)
    (4)
    (roundToDouble_pos (1 / 4 : ℚ) (-2) 4503599627370496 (1 / 18014398509481984) (1 / 4)
      (by norm_num) (by norm_num) (by norm_num) (by norm_num)
      (roundHalfEven_below _ 4503599627370496 (by norm_num) (by norm_num))
      (by norm_num) (by norm_num))
    (roundToDouble_pos (3 / 4 : ℚ) (-1) 6755399441055744 (1 / 9007199254740992) (3 / 4)
      (by norm_num) (by norm_num) (by norm_num) (by norm_num)
      (roundHalfEven_below _ 6755399441055744 (by norm_num) (by norm_num))
      (by norm_num) (by norm_num))
    (roundToDouble_pos (1 / 2 : ℚ) (-1) 4503599627370496 (1 / 9007199254740992) (1 / 2)
      (by norm_num) (by norm_num) (by norm_num) (by norm_num)
      (roundHalfEven_below _ 4503599627370496 (by norm_num) (by norm_num))
      (by norm_num) (by norm_num))
    (roundToDouble_pos (1 / 4 + 3 / 4 : ℚ) 0 4503599627370496 (1 / 4503599627370496) (1)
      (by norm_num) (by norm_num) (by norm_num) (by norm_num)
      (roundHalfEven_below _ 4503599627370496 (by norm_num) (by norm_num))
      (by norm_num) (by norm_num))
    (roundToDouble_pos (1 / 2 * (1) : ℚ) (-1) 4503599627370496 (1 / 9007199254740992) (1 / 2)
      (by norm_num) (by norm_num) (by norm_num) (by norm_num)
      (roundHalfEven_below _ 4503599627370496 (by norm_num) (by norm_num))
      (by norm_num) (by norm_num))
    (roundToDouble_pos (1 - 1 / 2 : ℚ) (-1) 4503599627370496 (1 / 9007199254740992) (1 / 2)
      (by norm_num) (by norm_num) (by norm_num) (by norm_num)
      (roundHalfEven_below _ 4503599627370496 (by norm_num) (by norm_num))
      (by norm_num) (by norm_num))
    (by norm_num)
    (by norm_num)
    (roundToDouble_pos (1 / 2 / (1 / 2) : ℚ) 0 4503599627370496 (1 / 4503599627370496) (1)
      (by norm_num) (by norm_num) (by norm_num) (by norm_num)
      (roundHalfEven_below _ 4503599627370496 (by norm_num) (by norm_num))
      (by norm_num) (by norm_num))
    (roundToDouble_pos (1 / (1 / 2) : ℚ) 1 4503599627370496 (1 / 2251799813685248) (2)
      (by norm_num) (by norm_num) (by norm_num) (by norm_num)
      (roundHalfEven_below _ 4503599627370496 (by norm_num) (by norm_num))
      (by norm_num) (by norm_num))
    (roundToDouble_pos (2 / (1 / 2) : ℚ) 2 4503599627370496 (1 / 1125899906842624) (4)
      (by norm_num) (by norm_num) (by norm_num) (by norm_num)
      (roundHalfEven_below _ 4503599627370496 (by norm_num) (by norm_num))
      (by norm_num) (by norm_num))

/-- The bounds `1/4` and `3/4`, the coefficient `1/2` and the exact results of
the operations of lines 630 and 767 on them are `double` numbers. -/
theorem exactQuotient_isDouble :
    isDouble (exactQuotientOptions ℚ).m_minRejectionRate = true
      ∧ isDouble (exactQuotientOptions ℚ).m_maxRejectionRate = true
      ∧ isDouble (exactQuotientOptions ℚ).m_covRejectionRate = true
      ∧ isDouble ((exactQuotientOptions ℚ).m_minRejectionRate
          + (exactQuotientOptions ℚ).m_maxRejectionRate) = true
      ∧ isDouble (meanRejectionRate (exactQuotientOptions ℚ)) = true
      ∧ isDouble (1 - meanRejectionRate (exactQuotientOptions ℚ)) = true
      ∧ isDouble ((1 - meanRejectionRate (exactQuotientOptions ℚ))
          / meanRejectionRate (exactQuotientOptions ℚ)) = true
      ∧ isDouble ((1 - meanRejectionRate (exactQuotientOptions ℚ))
          / meanRejectionRate (exactQuotientOptions ℚ)
          / (exactQuotientOptions ℚ).m_covRejectionRate) = true
      ∧ isDouble ((1 - meanRejectionRate (exactQuotientOptions ℚ))
          / meanRejectionRate (exactQuotientOptions ℚ)
          / (exactQuotientOptions ℚ).m_covRejectionRate
          / (exactQuotientOptions ℚ).m_covRejectionRate) = true := by
  have hd : ∀ x : ℚ, roundToDouble x = DoubleValue.finite x → isDouble x = true :=
    fun x h => (isDouble_iff x).mpr h
  have h0 : isDouble (1 / 4 : ℚ) = true :=
    hd _
    (roundToDouble_pos (1 / 4 : ℚ) (-2) 4503599627370496 (1 / 18014398509481984) (1 / 4)
      (by norm_num) (by norm_num) (by norm_num) (by norm_num)
      (roundHalfEven_below _ 4503599627370496 (by norm_num) (by norm_num))
      (by norm_num) (by norm_num))
  have h1 : isDouble (1 / 2 : ℚ) = true :=
    hd _
    (roundToDouble_pos (1 / 2 : ℚ) (-1) 4503599627370496 (1 / 9007199254740992) (1 / 2)
      (by norm_num) (by norm_num) (by norm_num) (by norm_num)
      (roundHalfEven_below _ 4503599627370496 (by norm_num) (by norm_num))
      (by norm_num) (by norm_num))
  have h2 : isDouble (3 / 4 : ℚ) = true :=
    hd _
    (roundToDouble_pos (3 / 4 : ℚ) (-1) 6755399441055744 (1 / 9007199254740992) (3 / 4)
      (by norm_num) (by norm_num) (by norm_num) (by norm_num)
      (roundHalfEven_below _ 6755399441055744 (by norm_num) (by norm_num))
      (by norm_num) (by norm_num))
  have h3 : isDouble (1 : ℚ) = true :=
    hd _
    (roundToDouble_pos (1 : ℚ) 0 4503599627370496 (1 / 4503599627370496) (1)
      (by norm_num) (by norm_num) (by norm_num) (by norm_num)
      (roundHalfEven_below _ 4503599627370496 (by norm_num) (by norm_num))
      (by norm_num) (by norm_num))
  have h4 : isDouble (2 : ℚ) = true :=
    hd _
    (roundToDouble_pos (2 : ℚ) 1 4503599627370496 (1 / 2251799813685248) (2)
      (by norm_num) (by norm_num) (by norm_num) (by norm_num)
      (roundHalfEven_below _ 4503599627370496 (by norm_num) (by norm_num))
      (by norm_num) (by norm_num))
  have h5 : isDouble (4 : ℚ) = true :=
    hd _
    (roundToDouble_pos (4 : ℚ) 2 4503599627370496 (1 / 1125899906842624) (4)
      (by norm_num) (by norm_num) (by norm_num) (by norm_num)
      (roundHalfEven_below _ 4503599627370496 (by norm_num) (by norm_num))
      (by norm_num) (by norm_num))
  have e1 : meanRejectionRate (exactQuotientOptions ℚ) = 1 / 2 := by
    norm_num [meanRejectionRate, exactQuotientOptions, exampleOptions]
  have e2 : (exactQuotientOptions ℚ).m_minRejectionRate = 1 / 4 := rfl
  have e3 : (exactQuotientOptions ℚ).m_maxRejectionRate = 3 / 4 := rfl
  have e4 : (exactQuotientOptions ℚ).m_covRejectionRate = 1 / 2 := rfl
  rw [e1, e2, e3, e4]
  have a1 : (1 / 4 + 3 / 4 : ℚ) = 1 := by norm_num
  have a2 : (1 - 1 / 2 : ℚ) = 1 / 2 := by norm_num
  have a3 : ((1 / 2 : ℚ) / (1 / 2)) = 1 := by norm_num
  have a4 : ((1 : ℚ) / (1 / 2)) = 2 := by norm_num
  have a5 : ((2 : ℚ) / (1 / 2)) = 4 := by norm_num
  rw [a1, a2, a3, a4, a5]
  exact ⟨h0, h2, h1, h3, h1, h1, h3, h4, h5⟩

theorem example_originalSubNumSamples (u : Nat) :
    originalSubNumSamples u (exampleOptions ℚ) = 30 := by
  rw [originalSubNumSamples_of_quotient u (exampleOptions ℚ) _ example_pilotLengthQuotient.2
    (by norm_num) (by norm_num)]
  have hfl : ⌊(8363827879402351 / 281474976710656 : ℚ)⌋₊ = 29 := by
    rw [Nat.floor_eq_iff (by norm_num)]
    norm_num
  rw [hfl]

theorem example_rejectionRate (a b : Nat) (h : a + b < 2 ^ 32) :
    step8RejectionRate step8ExampleEnv (exampleOptions ℚ) [a, b]
      = ((a + b : Nat) : ℚ) / 60 := by
  have h1 : tmpUnifiedNumSamples step8ExampleEnv (exampleOptions ℚ) = 60 := by
    simp only [tmpUnifiedNumSamples, example_originalSubNumSamples]
    rfl
  have h2 : [a, b].foldl uintAdd 0 = a + b := by
    rw [foldl_uintAdd _ 0 (by norm_num)]
    simp only [List.sum_cons, List.sum_nil, Nat.add_zero, Nat.zero_add]
    exact Nat.mod_eq_of_lt h
  rw [step8RejectionRate, h1, h2]
  norm_num

theorem example_attempt0 :
    step8Attempt step8ExampleEnv (7 / 20) step8ExampleCov
        (step8Init 1 (exampleOptions ℚ) step8ExampleCov)
      = Step8Step.continued step8ExampleState1 := by
  have hr := example_rejectionRate 0 1 (by norm_num)
  have hg : ∀ m o, step8ExampleEnv.generateLinkedChains 0 m o
      = PilotGeneration.completed 7 [0, 1] := fun _ _ => rfl
  have hrank : step8ExampleEnv.inter0Rank = 0 := rfl
  have hnull : ∀ k, step8ExampleEnv.nullInitialPosition k = false := fun _ => rfl
  have hidx : ∀ k, step8ExampleEnv.indexCountersSize k = 4 := fun _ => rfl
  have hw : step8ExampleEnv.weightUnifiedSize = 4 := rfl
  have hmin : (exampleOptions ℚ).m_minRejectionRate = 1 / 4 := rfl
  have hmax : (exampleOptions ℚ).m_maxRejectionRate = 9 / 20 := rfl
  simp [step8Attempt, step8RangeFlag, step8UpdateEta, step8EnterBracket, step8NextEta,
    step8Pilot, step8Init, step8Restore_override, step8ExampleState1,
    hg, hr, hrank, hnull, hidx, hw, hmin, hmax]
  try norm_num [hg, hr, hmin, hmax]

theorem example_attempt1 :
    step8Attempt step8ExampleEnv (7 / 20) step8ExampleCov
        step8ExampleState1
      = Step8Step.continued step8ExampleState2 := by
  have hr := example_rejectionRate 20 20 (by norm_num)
  have hg : ∀ m o, step8ExampleEnv.generateLinkedChains 1 m o
      = PilotGeneration.completed 7 [20, 20] := fun _ _ => rfl
  have hrank : step8ExampleEnv.inter0Rank = 0 := rfl
  have hnull : ∀ k, step8ExampleEnv.nullInitialPosition k = false := fun _ => rfl
  have hidx : ∀ k, step8ExampleEnv.indexCountersSize k = 4 := fun _ => rfl
  have hw : step8ExampleEnv.weightUnifiedSize = 4 := rfl
  have hmin : (exampleOptions ℚ).m_minRejectionRate = 1 / 4 := rfl
  have hmax : (exampleOptions ℚ).m_maxRejectionRate = 9 / 20 := rfl
  simp [step8Attempt, step8RangeFlag, step8UpdateEta, step8EnterBracket, step8NextEta,
    step8Pilot, step8Init, step8Restore_override, step8ExampleState1, step8ExampleState2,
    hg, hr, hrank, hnull, hidx, hw, hmin, hmax]
  try norm_num [hg, hr, hmin, hmax]

theorem example_attempt2 :
    step8Attempt step8ExampleEnv (7 / 20) step8ExampleCov
        step8ExampleState2
      = Step8Step.continued step8ExampleState3 := by
  have hr := example_rejectionRate 6 7 (by norm_num)
  have hg : ∀ m o, step8ExampleEnv.generateLinkedChains 2 m o
      = PilotGeneration.completed 7 [6, 7] := fun _ _ => rfl
  have hrank : step8ExampleEnv.inter0Rank = 0 := rfl
  have hnull : ∀ k, step8ExampleEnv.nullInitialPosition k = false := fun _ => rfl
  have hidx : ∀ k, step8ExampleEnv.indexCountersSize k = 4 := fun _ => rfl
  have hw : step8ExampleEnv.weightUnifiedSize = 4 := rfl
  have hmin : (exampleOptions ℚ).m_minRejectionRate = 1 / 4 := rfl
  have hmax : (exampleOptions ℚ).m_maxRejectionRate = 9 / 20 := rfl
  simp [step8Attempt, step8RangeFlag, step8UpdateEta, step8EnterBracket, step8NextEta,
    step8Pilot, step8Init, step8Restore_override, step8ExampleState1, step8ExampleState2,
    step8ExampleState3,
    hg, hr, hrank, hnull, hidx, hw, hmin, hmax]
  try norm_num [hg, hr, hmin, hmax]

theorem example_attempt3 :
    step8Attempt step8ExampleEnv (7 / 20) step8ExampleCov
        step8ExampleState3
      = Step8Step.continued step8ExampleState4 := by
  have hr := example_rejectionRate 9 9 (by norm_num)
  have hg : ∀ m o, step8ExampleEnv.generateLinkedChains 3 m o
      = PilotGeneration.completed 7 [9, 9] := fun _ _ => rfl
  have hrank : step8ExampleEnv.inter0Rank = 0 := rfl
  have hnull : ∀ k, step8ExampleEnv.nullInitialPosition k = false := fun _ => rfl
  have hidx : ∀ k, step8ExampleEnv.indexCountersSize k = 4 := fun _ => rfl
  have hw : step8ExampleEnv.weightUnifiedSize = 4 := rfl
  have hmin : (exampleOptions ℚ).m_minRejectionRate = 1 / 4 := rfl
  have hmax : (exampleOptions ℚ).m_maxRejectionRate = 9 / 20 := rfl
  simp [step8Attempt, step8RangeFlag, step8UpdateEta, step8EnterBracket, step8NextEta,
    step8Pilot, step8Init, step8Restore_override, step8ExampleState1, step8ExampleState2,
    step8ExampleState3, step8ExampleState4,
    hg, hr, hrank, hnull, hidx, hw, hmin, hmax]
  try norm_num [hg, hr, hmin, hmax]


theorem example_trace :
    step8Trace step8ExampleEnv (meanRejectionRate (exampleOptions ℚ)) step8ExampleCov 4
        (step8Init 1 (exampleOptions ℚ) step8ExampleCov)
      = [step8ExampleState1, step8ExampleState2, step8ExampleState3, step8ExampleState4] := by
  rw [example_meanRejectionRate]
  have h1 : step8ExampleState1.testResult = false := rfl
  have h2 : step8ExampleState2.testResult = false := rfl
  have h3 : step8ExampleState3.testResult = false := rfl
  have h4 : ¬ (step8ExampleState4.testResult = false) := by decide
  rw [step8Trace, example_attempt0]
  simp only
  rw [if_pos h1, step8Trace, example_attempt1]
  simp only
  rw [if_pos h2, step8Trace, example_attempt2]
  simp only
  rw [if_pos h3, step8Trace, example_attempt3]
  simp only
  rw [if_neg h4]

theorem example_step8_run :
    generateSequence_Step8 step8ExampleEnv 4 1 (exampleOptions ℚ) step8ExampleCov
      = Step8Outcome.returned
          ⟨13 / 4, matrixScale step8ExampleCov (13 / 4), exampleOptions ℚ, 3 / 10, 4⟩ := by
  have h1 : step8ExampleState1.testResult = false := rfl
  have h2 : step8ExampleState2.testResult = false := rfl
  have h3 : step8ExampleState3.testResult = false := rfl
  have h4 : ¬ (step8ExampleState4.testResult = false) := by decide
  have hl : step8Loop step8ExampleEnv (7 / 20) step8ExampleCov 4
      (step8Init 1 (exampleOptions ℚ) step8ExampleCov)
      = Step8Outcome.returned step8ExampleState4 := by
    rw [step8Loop, example_attempt0]
    simp only
    rw [if_pos h1, step8Loop, example_attempt1]
    simp only
    rw [if_pos h2, step8Loop, example_attempt2]
    simp only
    rw [if_pos h3, step8Loop, example_attempt3]
    simp only
    rw [if_neg h4]
  rw [generateSequence_Step8, example_meanRejectionRate, hl]
  have he : step8ExampleState4.nowEta = 13 / 4 := rfl
  simp only [he]
  rw [if_pos (by norm_num)]
  rfl

/-- Witness of C13 on the example run: after four attempts the matrix is
`13/4` times the matrix passed in. -/
theorem step8_final_covariance_witness :
    ∀ i j, matrixScale step8ExampleCov (13 / 4) i j = 13 / 4 * step8ExampleCov i j :=
  (step8_final_covariance step8ExampleEnv 4 1 (exampleOptions ℚ) step8ExampleCov).1
    ⟨13 / 4, matrixScale step8ExampleCov (13 / 4), exampleOptions ℚ, 3 / 10, 4⟩
    example_step8_run

/-- Witness of C14 on the example run of four attempts. -/
theorem step8_options_restored_witness :
    generateSequence_Step8 step8ExampleEnv 4 1 (exampleOptions ℚ) step8ExampleCov
        = Step8Outcome.returned
            ⟨13 / 4, matrixScale step8ExampleCov (13 / 4), exampleOptions ℚ, 3 / 10, 4⟩
      ∧ (⟨13 / 4, matrixScale step8ExampleCov (13 / 4), exampleOptions ℚ, 3 / 10, 4⟩
          : Step8Result ℚ 1).currOptions = exampleOptions ℚ :=
  ⟨example_step8_run, step8_options_restored step8ExampleEnv 4 1 (exampleOptions ℚ)
    step8ExampleCov _ example_step8_run⟩

/-- Witness of C19 on the example run: the options that the pilot of the
fourth attempt has received. -/
theorem step8_pilot_options_witness :
    step8ExampleState4 ∈ step8Trace step8ExampleEnv (meanRejectionRate (exampleOptions ℚ))
        step8ExampleCov 4 (step8Init 1 (exampleOptions ℚ) step8ExampleCov)
      ∧ step8ExampleState4.pilotOptions.m_amAdaptInterval = 0
      ∧ step8ExampleState4.pilotOptions.m_drMaxNumExtraStages = 0
      ∧ step8ExampleState4.pilotOptions.m_rawChainComputeStats = false
      ∧ step8ExampleState4.pilotOptions.m_filteredChainGenerate = false
      ∧ step8ExampleState4.pilotOptions.m_totallyMute = true
      ∧ step8ExampleState4.pilotOptions.m_rawChainSize = 0 := by
  have hmem : step8ExampleState4 ∈ step8Trace step8ExampleEnv
      (meanRejectionRate (exampleOptions ℚ)) step8ExampleCov 4
      (step8Init 1 (exampleOptions ℚ) step8ExampleCov) := by
    rw [example_trace]; simp
  have h := step8_pilot_options step8ExampleEnv 4 1 (exampleOptions ℚ) step8ExampleCov
    step8ExampleState4 hmem
  exact ⟨hmem, h.2.1, h.2.2.1, h.2.2.2.1, h.2.2.2.2.1, h.2.2.2.2.2.1, h.2.2.2.2.2.2.1⟩

/-- Witness of C18 on the example run of four attempts, in which the middle
point logic starts at the third attempt: with the middle point logic the
candidate lies in the bracket. -/
theorem step8_bracket_mode_witness :
    step8ExampleEnv.inter0Rank ≥ 0 ∧ (0 : ℚ) < 1
      ∧ 0 < (exampleOptions ℚ).m_minRejectionRate
      ∧ (exampleOptions ℚ).m_minRejectionRate ≤ (exampleOptions ℚ).m_maxRejectionRate
      ∧ (step8Trace step8ExampleEnv (meanRejectionRate (exampleOptions ℚ)) step8ExampleCov 4
          (step8Init 1 (exampleOptions ℚ) step8ExampleCov)).length = 4
      ∧ (∀ t ∈ step8Trace step8ExampleEnv (meanRejectionRate (exampleOptions ℚ))
            step8ExampleCov 4 (step8Init 1 (exampleOptions ℚ) step8ExampleCov),
          t.useMiddlePointLogicForEta = true → t.etas0 ≤ t.nowEta ∧ t.nowEta ≤ t.etas1) :=
  ⟨by decide, by norm_num, by norm_num [exampleOptions], by norm_num [exampleOptions],
    by rw [example_trace]; rfl,
    (step8_bracket_mode step8ExampleEnv 4 1 (exampleOptions ℚ) step8ExampleCov (by decide)
      (by norm_num) (by norm_num [exampleOptions]) (by norm_num [exampleOptions])).2⟩

/-- C16 (counterexample): with the window `[3/10, 1/2]` (mean `2/5`) and
`c = 1/2` the number `1 + ⌊(1 - ρ) / (ρ c²)⌋` is `7`, while the per-rank pilot
length of step 8 is `6`: line 767 gets `5.999999999999999` in `double`
arithmetic and truncates it to `5`. And with the window `[1/4, 9/20]` and
`c = 1/100000` the number `1 + ⌊(1 - ρ) / (ρ c²)⌋` is at least `2^32`, while
the pilot length is an `unsigned int`, whatever the out-of-range conversion
yields. -/
theorem step8_pilot_length_not_formula :
    (0 < ((roundedQuotientOptions ℚ).m_minRejectionRate
          + (roundedQuotientOptions ℚ).m_maxRejectionRate) / 2
      ∧ ((roundedQuotientOptions ℚ).m_minRejectionRate
          + (roundedQuotientOptions ℚ).m_maxRejectionRate) / 2 ≤ 1
      ∧ 0 < (roundedQuotientOptions ℚ).m_covRejectionRate)
    ∧ 1 + ⌊(1 - ((roundedQuotientOptions ℚ).m_minRejectionRate
              + (roundedQuotientOptions ℚ).m_maxRejectionRate) / 2)
          / (((roundedQuotientOptions ℚ).m_minRejectionRate
              + (roundedQuotientOptions ℚ).m_maxRejectionRate) / 2
            * (roundedQuotientOptions ℚ).m_covRejectionRate ^ 2)⌋₊ = 7
    ∧ pilotLengthQuotient (roundedQuotientOptions ℚ)
      = DoubleValue.finite (6 - 1 / 2 ^ 50)
    ∧ (∀ u : Nat, originalSubNumSamples u (roundedQuotientOptions ℚ) = 6)
    ∧ (0 < ((smallCovOptions ℚ).m_minRejectionRate
          + (smallCovOptions ℚ).m_maxRejectionRate) / 2
      ∧ ((smallCovOptions ℚ).m_minRejectionRate
          + (smallCovOptions ℚ).m_maxRejectionRate) / 2 ≤ 1
      ∧ 0 < (smallCovOptions ℚ).m_covRejectionRate)
    ∧ ¬ ∃ u : Nat,
      originalSubNumSamples u (smallCovOptions ℚ)
        = 1 + ⌊(1 - ((smallCovOptions ℚ).m_minRejectionRate
                + (smallCovOptions ℚ).m_maxRejectionRate) / 2)
            / (((smallCovOptions ℚ).m_minRejectionRate
                + (smallCovOptions ℚ).m_maxRejectionRate) / 2
              * (smallCovOptions ℚ).m_covRejectionRate ^ 2)⌋₊ := by
  have hq : pilotLengthQuotient (roundedQuotientOptions ℚ)
      = DoubleValue.finite (6 - 1 / 2 ^ 50) := by
    rw [roundedQuotient_pilotLengthQuotient.2]
    norm_num
  refine ⟨by norm_num [roundedQuotientOptions, exampleOptions], ?_, hq, ?_,
    by norm_num [smallCovOptions, exampleOptions], ?_⟩
  · have hx : (1 - ((roundedQuotientOptions ℚ).m_minRejectionRate
              + (roundedQuotientOptions ℚ).m_maxRejectionRate) / 2)
          / (((roundedQuotientOptions ℚ).m_minRejectionRate
              + (roundedQuotientOptions ℚ).m_maxRejectionRate) / 2
            * (roundedQuotientOptions ℚ).m_covRejectionRate ^ 2) = ((6 : Nat) : ℚ) := by
      norm_num [roundedQuotientOptions, exampleOptions]
    rw [hx, Nat.floor_natCast]
  · intro u
    rw [originalSubNumSamples_of_quotient u (roundedQuotientOptions ℚ) _ hq
      (by norm_num) (by norm_num)]
    have hfl : ⌊(6 - 1 / 2 ^ 50 : ℚ)⌋₊ = 5 := by
      rw [Nat.floor_eq_iff (by norm_num)]
      norm_num
    rw [hfl]
  · rintro ⟨u, hu⟩
    have hlt : originalSubNumSamples u (smallCovOptions ℚ) < 2 ^ 32 := uintAdd_lt _ _
    have hge : 2 ^ 32 ≤ ⌊(1 - ((smallCovOptions ℚ).m_minRejectionRate
                  + (smallCovOptions ℚ).m_maxRejectionRate) / 2)
              / (((smallCovOptions ℚ).m_minRejectionRate
                  + (smallCovOptions ℚ).m_maxRejectionRate) / 2
                * (smallCovOptions ℚ).m_covRejectionRate ^ 2)⌋₊ := by
      apply Nat.le_floor
      norm_num [smallCovOptions, exampleOptions]
    omega

/-- Witness of C16 as amended. With the window `[1/4, 3/4]`, `c = 1/2` and
two inter-group ranks nothing is rounded: the quotient is `4`, which is
`(1 - ρ) / (ρ c²)`, the pilot length is `5` and `10` indexes are sampled. With
the window `[1/4, 9/20]` and `c = 1/4` the quotient is `29.71428571428572`, the
pilot length `30`, and `60` indexes are sampled. -/
theorem step8_pilot_length_witness :
    pilotLengthQuotient (exactQuotientOptions ℚ) = DoubleValue.finite 4
    ∧ (-1 : ℚ) < 4 ∧ (4 : ℚ) < 2 ^ 32 - 1
    ∧ originalSubNumSamples step8ExampleEnv.undefinedConversion (exactQuotientOptions ℚ) = 5
    ∧ tmpUnifiedNumSamples step8ExampleEnv (exactQuotientOptions ℚ) = 10
    ∧ (4 : ℚ) = (1 - meanRejectionRate (exactQuotientOptions ℚ))
        / (meanRejectionRate (exactQuotientOptions ℚ)
          * (exactQuotientOptions ℚ).m_covRejectionRate ^ 2)
    ∧ originalSubNumSamples step8ExampleEnv.undefinedConversion (exampleOptions ℚ) = 30
    ∧ tmpUnifiedNumSamples step8ExampleEnv (exampleOptions ℚ) = 60 := by
  have h := step8_pilot_length step8ExampleEnv (exactQuotientOptions ℚ) 4
    exactQuotient_pilotLengthQuotient.2 (by norm_num) (by norm_num)
  have h2 := step8_pilot_length step8ExampleEnv (exampleOptions ℚ) _
    example_pilotLengthQuotient.2 (by norm_num) (by norm_num)
  have hfl : ⌊(4 : ℚ)⌋₊ = 4 := by
    have : (4 : ℚ) = ((4 : Nat) : ℚ) := by norm_num
    rw [this, Nat.floor_natCast]
  have hfl2 : ⌊(8363827879402351 / 281474976710656 : ℚ)⌋₊ = 29 := by
    rw [Nat.floor_eq_iff (by norm_num)]
    norm_num
  have hP : step8ExampleEnv.numProc = 2 := rfl
  obtain ⟨d1, d2, d3, d4, d5, d6, d7, d8, d9⟩ := exactQuotient_isDouble
  refine ⟨exactQuotient_pilotLengthQuotient.2, by norm_num, by norm_num, ?_, ?_, ?_, ?_, ?_⟩
  · rw [h.1, hfl]
  · rw [h.2.1, hfl, hP]
    rfl
  · exact (h.2.2.2 d1 d2 d3 d4 d5 d6 d7 d8 d9
      (by norm_num [meanRejectionRate, exactQuotientOptions, exampleOptions])
      (by norm_num [exactQuotientOptions, exampleOptions])).1
  · rw [h2.1, hfl2]
  · rw [h2.2.1, hfl2, hP]
    rfl

/-- C11: when `generateSequence_Step2` returns on a rank, `prevChain`,
`prevLogLikelihoodValues` and `prevLogTargetValues` hold the contents that
`currChain`, `currLogLikelihoodValues` and `currLogTargetValues` had on entry,
and the three current sequences are empty. -/
theorem step2_sequences_rolled {V K : Type} (numProc r : Nat) (received : Option Nat)
    (s : Step2Sequences V K) (res : Step2Result V K)
    (h : generateSequence_Step2 numProc r received s = Outcome.returned res) :
    res.sequences.prevChain = s.currChain
      ∧ res.sequences.prevLogLikelihoodValues = s.currLogLikelihoodValues
      ∧ res.sequences.prevLogTargetValues = s.currLogTargetValues
      ∧ res.sequences.currChain = []
      ∧ res.sequences.currLogLikelihoodValues = []
      ∧ res.sequences.currLogTargetValues = [] := by
  unfold generateSequence_Step2 at h
  simp only at h
  split at h
  · exact Outcome.noConfusion h
  · split at h
    · exact Outcome.noConfusion h
    · split at h
      · cases received with
        | none => exact Outcome.noConfusion h
        | some v =>
          have e := Outcome.returned.inj h
          subst e
          exact ⟨rfl, rfl, rfl, rfl, rfl, rfl⟩
      · have e := Outcome.returned.inj h
        subst e
        exact ⟨rfl, rfl, rfl, rfl, rfl, rfl⟩

/-- Witness of C11 on rank 1 of three ranks, which holds two positions and
receives the index `3`. -/
theorem step2_sequences_rolled_witness :
    generateSequence_Step2 3 1 (some 3)
        (⟨[5, 6], [1, 2], [3, 4], [9], [8], [7]⟩ : Step2Sequences Nat Nat)
      = Outcome.returned ⟨⟨[], [], [], [5, 6], [1, 2], [3, 4]⟩, 3, 4, some 5⟩
    ∧ ([5, 6] : List Nat) = [5, 6] ∧ ([1, 2] : List Nat) = [1, 2]
    ∧ ([3, 4] : List Nat) = [3, 4]
    ∧ ([] : List Nat) = [] ∧ ([] : List Nat) = [] ∧ ([] : List Nat) = [] :=
  ⟨rfl, step2_sequences_rolled 3 1 (some 3)
    (⟨[5, 6], [1, 2], [3, 4], [9], [8], [7]⟩ : Step2Sequences Nat Nat)
    ⟨⟨[], [], [], [5, 6], [1, 2], [3, 4]⟩, 3, 4, some 5⟩ rfl⟩

/-- C20: `generateSequence_Level0` with requested size `n = m_rawChainSize`
(an `unsigned int`) returns; `currChain`, `currLogLikelihoodValues` and
`currLogTargetValues` have local length `n`, and at every position `i < n`
`currChain[i]` is the `i`-th prior draw, `currLogLikelihoodValues[i]` is the
log-likelihood of `currChain[i]` and `currLogTargetValues[i]` is the log-prior
of `currChain[i]` plus its log-likelihood. -/
theorem level0_sequences {V K : Type} [Add K] (inter0Rank : Int) (rawChainSizes : List Nat)
    (currOptions : uqMLSamplingLevelOptionsClass K) (realization : Nat → V)
    (lnLikelihood lnPrior : V → K) (hn : currOptions.m_rawChainSize < 2 ^ 32) :
    ∃ res, generateSequence_Level0 inter0Rank rawChainSizes currOptions realization
          lnLikelihood lnPrior = Outcome.returned res
      ∧ res.currChain.length = currOptions.m_rawChainSize
      ∧ res.currLogLikelihoodValues.length = currOptions.m_rawChainSize
      ∧ res.currLogTargetValues.length = currOptions.m_rawChainSize
      ∧ ∀ i, i < currOptions.m_rawChainSize →
          ∃ x, res.currChain[i]? = some x ∧ x = realization i
            ∧ res.currLogLikelihoodValues[i]? = some (lnLikelihood x)
            ∧ res.currLogTargetValues[i]? = some (lnPrior x + lnLikelihood x) := by
  have hsize : subSequenceSize ((List.range currOptions.m_rawChainSize).map realization)
      = currOptions.m_rawChainSize := by
    unfold subSequenceSize
    rw [List.length_map, List.length_range]
    exact Nat.mod_eq_of_lt hn
  unfold generateSequence_Level0
  simp only [hsize, ne_eq, not_true_eq_false, if_false]
  refine ⟨_, rfl, by simp, by simp, by simp, fun i hi => ⟨realization i, ?_, rfl, ?_, ?_⟩⟩
  · simp [List.getElem?_map, List.getElem?_range hi]
  · simp [List.getElem?_map, List.getElem?_range hi]
  · simp [List.getElem?_map, List.getElem?_range hi]

/-- Witness of C20 with `m_rawChainSize = 2` on a rank of the inter-group. -/
theorem level0_sequences_witness :
    (exampleOptions ℚ).m_rawChainSize < 2 ^ 32
      ∧ ∃ res, generateSequence_Level0 0 [2, 2] (exampleOptions ℚ) level0ExamplePrior
            level0ExampleLnLikelihood level0ExampleLnPrior = Outcome.returned res
        ∧ res.currChain.length = (exampleOptions ℚ).m_rawChainSize
        ∧ res.currLogLikelihoodValues.length = (exampleOptions ℚ).m_rawChainSize
        ∧ res.currLogTargetValues.length = (exampleOptions ℚ).m_rawChainSize
        ∧ ∀ i, i < (exampleOptions ℚ).m_rawChainSize →
            ∃ x, res.currChain[i]? = some x ∧ x = level0ExamplePrior i
              ∧ res.currLogLikelihoodValues[i]? = some (level0ExampleLnLikelihood x)
              ∧ res.currLogTargetValues[i]?
                = some (level0ExampleLnPrior x + level0ExampleLnLikelihood x) :=
  ⟨by norm_num [exampleOptions],
    level0_sequences 0 [2, 2] (exampleOptions ℚ) level0ExamplePrior
      level0ExampleLnLikelihood level0ExampleLnPrior (by norm_num [exampleOptions])⟩

theorem foldl_append_singleton {α β : Type} (f : α → β) (l : List α) (acc : List β) :
    l.foldl (fun calls i => calls ++ [f i]) acc = acc ++ l.map f := by
  induction l generalizing acc with
  | nil => simp
  | cons x l ih => simp [List.foldl_cons, ih]

/-- C22: `computeLogOfNormalizationFactor` of the concatenated density calls no
component when the domain volume is `NaN`, `+∞`, `-∞` or a number `≤ 0`;
otherwise (the volume is a number `> 0`) it calls every component once, in
the order of the components, with the `numSamples` and
`updateFactorInternally` it has received. In both cases it returns `0`; every
volume falls under one of the two cases. -/
theorem computeLogOfNormalizationFactor_calls {K : Type} [LinearOrderedField K]
    (pdf : ConcatenatedJointPdf K) (volume : DoubleValue K) (numSamples : Nat)
    (updateFactorInternally : Bool) :
    ((volume = DoubleValue.nan ∨ volume = DoubleValue.posInfinity
          ∨ volume = DoubleValue.negInfinity ∨ ∃ x, volume = DoubleValue.finite x ∧ x ≤ 0) →
        computeLogOfNormalizationFactor pdf volume numSamples updateFactorInternally = (0, []))
      ∧ ((∃ x, volume = DoubleValue.finite x ∧ 0 < x) →
        computeLogOfNormalizationFactor pdf volume numSamples updateFactorInternally
          = (0, (List.range pdf.m_densities.length).map
              (fun i => ⟨i, numSamples, updateFactorInternally⟩)))
      ∧ ((volume = DoubleValue.nan ∨ volume = DoubleValue.posInfinity
          ∨ volume = DoubleValue.negInfinity ∨ ∃ x, volume = DoubleValue.finite x ∧ x ≤ 0)
        ∨ ∃ x, volume = DoubleValue.finite x ∧ 0 < x) := by
  refine ⟨?_, ?_, ?_⟩
  · rintro (h | h | h | ⟨x, h, hx⟩)
    · subst h
      simp [computeLogOfNormalizationFactor, doubleIsNan]
    · subst h
      simp [computeLogOfNormalizationFactor, doubleEqInfinity]
    · subst h
      simp [computeLogOfNormalizationFactor, doubleEqNegInfinity]
    · subst h
      simp [computeLogOfNormalizationFactor, doubleLeZero, hx]
  · rintro ⟨x, h, hx⟩
    subst h
    simp [computeLogOfNormalizationFactor, doubleIsNan, doubleEqNegInfinity,
      doubleEqInfinity, doubleLeZero, hx, foldl_append_singleton]
  · cases volume with
    | nan => exact Or.inl (Or.inl rfl)
    | negInfinity => exact Or.inl (Or.inr (Or.inr (Or.inl rfl)))
    | posInfinity => exact Or.inl (Or.inr (Or.inl rfl))
    | finite x =>
      rcases le_or_lt x 0 with hx | hx
      · exact Or.inl (Or.inr (Or.inr (Or.inr ⟨x, rfl, hx⟩)))
      · exact Or.inr ⟨x, rfl, hx⟩

/-- Witness of C22 on the example density of two components: no call for the
volume `0`, the calls `(0, 5, true)`, `(1, 5, true)` for the volume `3`. -/
theorem computeLogOfNormalizationFactor_calls_witness :
    computeLogOfNormalizationFactor (⟨exampleDensities ℚ, 3⟩ : ConcatenatedJointPdf ℚ)
        (DoubleValue.finite 0) 5 true = (0, [])
      ∧ computeLogOfNormalizationFactor (⟨exampleDensities ℚ, 3⟩ : ConcatenatedJointPdf ℚ)
        (DoubleValue.finite 3) 5 true = (0, [⟨0, 5, true⟩, ⟨1, 5, true⟩]) :=
  ⟨(computeLogOfNormalizationFactor_calls ⟨exampleDensities ℚ, 3⟩ (DoubleValue.finite 0) 5
      true).1 (Or.inr (Or.inr (Or.inr ⟨0, rfl, le_refl 0⟩))),
    (computeLogOfNormalizationFactor_calls ⟨exampleDensities ℚ, 3⟩ (DoubleValue.finite 3) 5
      true).2.1 ⟨3, rfl, by norm_num⟩⟩

theorem getElem?_append_length {K : Type} (pre suf : List (BaseJointPdf K)) (density : BaseJointPdf K) :
    (pre ++ density :: suf)[pre.length]? = some density := by
  rw [List.getElem?_append_right (le_refl _)]
  simp

theorem specSlice_append {K : Type} (pre suf : List (BaseJointPdf K)) (density : BaseJointPdf K)
    (v : List K) :
    specSlice (pre ++ density :: suf) pre.length v
      = cwExtract ((pre.map (fun x => x.dimLocal)).sum) density.dimLocal v := by
  unfold specSlice cwExtract
  rw [getElem?_append_length, List.take_left']
  rfl

theorem sum_dims_le {K : Type} (pre suf : List (BaseJointPdf K)) (density : BaseJointPdf K) :
    (pre.map (fun x => x.dimLocal)).sum + density.dimLocal
      ≤ ((pre ++ density :: suf).map (fun x => x.dimLocal)).sum := by
  simp

theorem lnValue_loop {K : Type} [LinearOrderedField K] (v : List K) :
    ∀ (suf pre : List (BaseJointPdf K)) (a : K),
      ((pre ++ suf).map (fun x => x.dimLocal)).sum < 2 ^ 32 →
      (suf.foldl
        (fun (acc : K × Nat) density =>
          (acc.1 + density.lnValue (cwExtract acc.2 density.dimLocal v),
            uintAdd acc.2 density.dimLocal))
        (a, (pre.map (fun x => x.dimLocal)).sum)).1
      = a + ((List.range suf.length).map (fun k =>
          match (pre ++ suf)[pre.length + k]? with
          | some density => density.lnValue (specSlice (pre ++ suf) (pre.length + k) v)
          | none => 0)).sum := by
  intro suf
  induction suf with
  | nil => intro pre a _; simp
  | cons density suf ih =>
    intro pre a hlt
    have hle := sum_dims_le pre suf density
    have hoff : uintAdd ((pre.map (fun x => x.dimLocal)).sum) density.dimLocal
        = ((pre ++ [density]).map (fun x => x.dimLocal)).sum := by
      unfold uintAdd
      rw [Nat.mod_eq_of_lt (lt_of_le_of_lt hle hlt)]
      simp
    have happ : pre ++ density :: suf = (pre ++ [density]) ++ suf := by simp
    rw [List.foldl_cons]
    simp only []
    rw [hoff, ih (pre ++ [density]) _ (by rw [← happ]; exact hlt)]
    rw [List.length_cons, List.range_succ_eq_map, List.map_cons, List.sum_cons, List.map_map]
    rw [Nat.add_zero, getElem?_append_length, specSlice_append, ← happ, add_assoc]
    congr 2
    congr 1
    refine List.map_congr_left ?_
    intro k _
    simp only [Function.comp, List.length_append, List.length_singleton]
    rw [Nat.add_assoc, Nat.add_comm 1 k]

theorem actualValue_loop {K : Type} [LinearOrderedField K] (v : List K) :
    ∀ (suf pre : List (BaseJointPdf K)) (a : K),
      ((pre ++ suf).map (fun x => x.dimLocal)).sum < 2 ^ 32 →
      (suf.foldl
        (fun (acc : K × Nat) density =>
          (acc.1 * density.actualValue (cwExtract acc.2 density.dimLocal v),
            uintAdd acc.2 density.dimLocal))
        (a, (pre.map (fun x => x.dimLocal)).sum)).1
      = a * ((List.range suf.length).map (fun k =>
          match (pre ++ suf)[pre.length + k]? with
          | some density => density.actualValue (specSlice (pre ++ suf) (pre.length + k) v)
          | none => 1)).prod := by
  intro suf
  induction suf with
  | nil => intro pre a _; simp
  | cons density suf ih =>
    intro pre a hlt
    have hle := sum_dims_le pre suf density
    have hoff : uintAdd ((pre.map (fun x => x.dimLocal)).sum) density.dimLocal
        = ((pre ++ [density]).map (fun x => x.dimLocal)).sum := by
      unfold uintAdd
      rw [Nat.mod_eq_of_lt (lt_of_le_of_lt hle hlt)]
      simp
    have happ : pre ++ density :: suf = (pre ++ [density]) ++ suf := by simp
    rw [List.foldl_cons]
    simp only []
    rw [hoff, ih (pre ++ [density]) _ (by rw [← happ]; exact hlt)]
    rw [List.length_cons, List.range_succ_eq_map, List.map_cons, List.prod_cons, List.map_map]
    rw [Nat.add_zero, getElem?_append_length, specSlice_append, ← happ, mul_assoc]
    congr 2
    congr 1
    refine List.map_congr_left ?_
    intro k _
    simp only [Function.comp, List.length_append, List.length_singleton]
    rw [Nat.add_assoc, Nat.add_comm 1 k]

theorem concatenatedJointPdf_returned {K : Type} (densities : List (BaseJointPdf K)) (dim : Nat)
    (pdf : ConcatenatedJointPdf K)
    (h : concatenatedJointPdf densities dim = Outcome.returned pdf) :
    pdf.m_densities = densities ∧ pdf.domainDimLocal = dim
      ∧ (densities.map (fun x => x.dimLocal)).sum % 2 ^ 32 = dim := by
  unfold concatenatedJointPdf at h
  simp only at h
  split at h
  · exact Outcome.noConfusion h
  · rename_i hs
    have e := Outcome.returned.inj h
    subst e
    refine ⟨rfl, rfl, ?_⟩
    have hf : ∀ (l : List (BaseJointPdf K)) (a : Nat),
        l.foldl (fun acc density => uintAdd acc density.dimLocal) a
          = (l.map (fun x => x.dimLocal)).foldl uintAdd a := by
      intro l
      induction l with
      | nil => intro a; rfl
      | cons x l ih => intro a; simp [List.foldl_cons, ih]
    rw [hf, foldl_uintAdd _ _ (by norm_num), Nat.zero_add] at hs
    exact not_not.mp hs

/-- C30: for a concatenated density built from `densities` and a domain vector
`v` whose length is the sum of the component dimensions (an `unsigned int`),
`lnValue(v)` returns the sum over the components `k` of
`lnValue_k(slice_k(v))` and `actualValue(v)` returns the product of
`actualValue_k(slice_k(v))`; hence, if `actualValue_k = exp(lnValue_k)` on the
slice of every component, `actualValue(v) = exp(lnValue(v))`. -/
theorem concatenated_values (densities : List (BaseJointPdf ℝ)) (dim : Nat)
    (pdf : ConcatenatedJointPdf ℝ) (v : List ℝ)
    (hpdf : concatenatedJointPdf densities dim = Outcome.returned pdf)
    (hlen : v.length = (densities.map (fun density => density.dimLocal)).sum)
    (hsize : v.length < 2 ^ 32) :
    lnValue pdf v false = Outcome.returned (specLnValue densities v)
      ∧ actualValue pdf v false = Outcome.returned (specActualValue densities v)
      ∧ ((∀ (k : Nat) (density : BaseJointPdf ℝ), densities[k]? = some density →
            density.actualValue (specSlice densities k v)
              = Real.exp (density.lnValue (specSlice densities k v))) →
          ∃ a l, actualValue pdf v false = Outcome.returned a
            ∧ lnValue pdf v false = Outcome.returned l ∧ a = Real.exp l) := by
  obtain ⟨hd, hdim, hsum⟩ := concatenatedJointPdf_returned densities dim pdf hpdf
  have hlt : ((([] : List (BaseJointPdf ℝ)) ++ densities).map
      (fun x => x.dimLocal)).sum < 2 ^ 32 := by
    rw [List.nil_append, ← hlen]; exact hsize
  have hln : lnValue pdf v false = Outcome.returned (specLnValue densities v) := by
    unfold lnValue specLnValue
    rw [hd]
    have h := lnValue_loop v densities [] 0 hlt
    simp only [List.map_nil, List.sum_nil, List.nil_append, List.length_nil, Nat.zero_add,
      zero_add] at h
    simp only [Bool.false_eq_true, if_false]
    exact congrArg Outcome.returned h
  have hact : actualValue pdf v false = Outcome.returned (specActualValue densities v) := by
    unfold actualValue specActualValue
    rw [hd, hdim, ← hsum, ← hlen]
    have h := actualValue_loop v densities [] 1 hlt
    simp only [List.map_nil, List.sum_nil, List.nil_append, List.length_nil, Nat.zero_add,
      one_mul] at h
    have hs : subSequenceSize v = v.length % 2 ^ 32 := rfl
    simp only [hs, ne_eq, not_true_eq_false, Bool.false_eq_true, if_false]
    exact congrArg Outcome.returned h
  refine ⟨hln, hact, fun hexp => ⟨_, _, hact, hln, ?_⟩⟩
  unfold specActualValue specLnValue
  rw [Real.exp_list_sum, List.map_map]
  congr 1
  refine List.map_congr_left ?_
  intro k hk
  have hk2 : k < densities.length := List.mem_range.mp hk
  have hget : densities[k]? = some (densities.get ⟨k, hk2⟩) := by
    simp [List.getElem?_eq_getElem hk2]
  simp only [Function.comp, hget]
  exact hexp k _ hget

/-- Witness of C30 on the example density of two components (dimensions 1
and 2) at `v = (3, 5, 1)`: the log-value is `10·3 + (5 - 1) = 34`, the value
`3·(5 + 1) = 18`. -/
theorem concatenated_values_witness :
    concatenatedJointPdf (exampleDensities ℝ) 3 = Outcome.returned ⟨exampleDensities ℝ, 3⟩
      ∧ lnValue (⟨exampleDensities ℝ, 3⟩ : ConcatenatedJointPdf ℝ) [3, 5, 1] false
        = Outcome.returned (specLnValue (exampleDensities ℝ) [3, 5, 1])
      ∧ actualValue (⟨exampleDensities ℝ, 3⟩ : ConcatenatedJointPdf ℝ) [3, 5, 1] false
        = Outcome.returned (specActualValue (exampleDensities ℝ) [3, 5, 1])
      ∧ specLnValue (exampleDensities ℝ) [3, 5, 1] = 34
      ∧ specActualValue (exampleDensities ℝ) [3, 5, 1] = 18 := by
  have hpdf : concatenatedJointPdf (exampleDensities ℝ) 3
      = Outcome.returned ⟨exampleDensities ℝ, 3⟩ := by
    simp [concatenatedJointPdf, exampleDensities, uintAdd]
  have h := concatenated_values (exampleDensities ℝ) 3 ⟨exampleDensities ℝ, 3⟩ [3, 5, 1] hpdf
    (by simp [exampleDensities]) (by norm_num)
  refine ⟨hpdf, h.1, h.2.1, ?_, ?_⟩
  · simp [specLnValue, specSlice, exampleDensities, List.range_succ]
    norm_num
  · simp [specActualValue, specSlice, exampleDensities, List.range_succ]
    norm_num


theorem effectiveSizeRatio_nonneg {K : Type} [LinearOrderedField K] (w : List (List K))
    (n : Nat) : 0 ≤ effectiveSizeRatio w n := by
  rw [effectiveSizeRatio_eq]
  apply div_nonneg
  · apply div_nonneg zero_le_one
    apply sum_nonneg_of_nonneg
    intro y hy
    obtain ⟨x, _, rfl⟩ := List.mem_map.mp hy
    exact mul_self_nonneg x
  · exact Nat.cast_nonneg n

theorem candidate_ratio_double (prev : ℝ) (lnL : List (List ℝ)) (b : ℝ) :
    (unifiedSequenceSize lnL = 0 →
        effectiveSizeRatioDouble (step3Candidate Real.exp Real.log prev lnL b).weightSequence
          (unifiedSequenceSize lnL) = DoubleValue.posInfinity)
      ∧ (0 < unifiedSequenceSize lnL →
        effectiveSizeRatioDouble (step3Candidate Real.exp Real.log prev lnL b).weightSequence
            (unifiedSequenceSize lnL)
          = DoubleValue.finite
              (step3Candidate Real.exp Real.log prev lnL b).nowEffectiveSizeRatio
        ∧ 0 < (step3Candidate Real.exp Real.log prev lnL b).nowEffectiveSizeRatio
        ∧ (step3Candidate Real.exp Real.log prev lnL b).nowEffectiveSizeRatio ≤ 1) := by
  constructor
  · intro h0
    rw [effectiveSizeRatioDouble_eq, if_pos (Or.inr h0)]
  · intro hN
    have hb := candidate_ratio_bounds prev lnL b hN
    have hn : (0 : ℝ) < (unifiedSequenceSize lnL : ℝ) := by exact_mod_cast hN
    refine ⟨effectiveSizeRatioDouble_finite _ _ (candidate_sumSq_pos prev lnL b hN).ne'
      (by omega), lt_of_lt_of_le (div_pos zero_lt_one hn) hb.1, hb.2⟩

theorem nextState_ratio_double (o : uqMLSamplingLevelOptionsClass ℝ) (prev : ℝ)
    (lnL : List (List ℝ)) (s : Step3State ℝ) :
    (unifiedSequenceSize lnL = 0 →
        effectiveSizeRatioDouble
          (step3NextState Real.exp Real.log o prev lnL s).weightSequence
          (unifiedSequenceSize lnL) = DoubleValue.posInfinity)
      ∧ (0 < unifiedSequenceSize lnL →
        effectiveSizeRatioDouble
            (step3NextState Real.exp Real.log o prev lnL s).weightSequence
            (unifiedSequenceSize lnL)
          = DoubleValue.finite
              (step3NextState Real.exp Real.log o prev lnL s).nowEffectiveSizeRatio
        ∧ 0 < (step3NextState Real.exp Real.log o prev lnL s).nowEffectiveSizeRatio
        ∧ (step3NextState Real.exp Real.log o prev lnL s).nowEffectiveSizeRatio ≤ 1) :=
  candidate_ratio_double prev lnL (step3Bracket o s).2.2

theorem step3Loop_real_not_fatal (o : uqMLSamplingLevelOptionsClass ℝ) (prev : ℝ)
    (lnL : List (List ℝ)) (hN : 0 < unifiedSequenceSize lnL) :
    ∀ (fuel : Nat) (s : Step3State ℝ) (e : FatalError),
      step3Loop Real.exp Real.log o prev lnL fuel s ≠ Outcome.fatal e := by
  intro fuel
  induction fuel with
  | zero => intro s e h; simp [step3Loop] at h
  | succ n ih =>
    intro s e h
    unfold step3Loop at h
    rw [step3Attempt_real o prev lnL s hN] at h
    simp only at h
    split at h
    · exact ih _ e h
    · exact Outcome.noConfusion h

/-- C21: in every iteration of the loop of step 3, from any state, the
effective-size ratio computed for the candidate exponent is `INFINITY` when
the sequence is globally empty and a number in `(0, 1]` otherwise; it is
never below `0`. The iteration ends on the fatal test exactly when the ratio
is above `1 + 1e-8`, that is exactly on a globally empty sequence, and the run
then aborts; it does not end on that test when `0 ≤ ratio ≤ 1 + 1e-8`. -/
theorem step3_ratio_fatal_test (currOptions : uqMLSamplingLevelOptionsClass ℝ)
    (prevExponent : ℝ) (prevLogLikelihoodValues : List (List ℝ)) (s : Step3State ℝ) :
    (unifiedSequenceSize prevLogLikelihoodValues = 0 →
        effectiveSizeRatioDouble
            (step3NextState Real.exp Real.log currOptions prevExponent prevLogLikelihoodValues
              s).weightSequence
            (unifiedSequenceSize prevLogLikelihoodValues) = DoubleValue.posInfinity)
      ∧ (0 < unifiedSequenceSize prevLogLikelihoodValues →
        effectiveSizeRatioDouble
            (step3NextState Real.exp Real.log currOptions prevExponent prevLogLikelihoodValues
              s).weightSequence
            (unifiedSequenceSize prevLogLikelihoodValues)
          = DoubleValue.finite
              (step3NextState Real.exp Real.log currOptions prevExponent
                prevLogLikelihoodValues s).nowEffectiveSizeRatio
        ∧ 0 < (step3NextState Real.exp Real.log currOptions prevExponent
                prevLogLikelihoodValues s).nowEffectiveSizeRatio
        ∧ (step3NextState Real.exp Real.log currOptions prevExponent
                prevLogLikelihoodValues s).nowEffectiveSizeRatio ≤ 1)
      ∧ doubleLt
          (effectiveSizeRatioDouble
            (step3NextState Real.exp Real.log currOptions prevExponent prevLogLikelihoodValues
              s).weightSequence
            (unifiedSequenceSize prevLogLikelihoodValues)) 0 = false
      ∧ ((∃ e, step3Attempt Real.exp Real.log currOptions prevExponent
              prevLogLikelihoodValues s = Outcome.fatal e)
          ↔ doubleGt
              (effectiveSizeRatioDouble
                (step3NextState Real.exp Real.log currOptions prevExponent
                  prevLogLikelihoodValues s).weightSequence
                (unifiedSequenceSize prevLogLikelihoodValues))
              (1 + 1 / 100000000) = true)
      ∧ (step3Attempt Real.exp Real.log currOptions prevExponent prevLogLikelihoodValues s
            = Outcome.fatal FatalError.effectiveSizeRatioAboveOne
          ↔ unifiedSequenceSize prevLogLikelihoodValues = 0)
      ∧ ((doubleLt
              (effectiveSizeRatioDouble
                (step3NextState Real.exp Real.log currOptions prevExponent
                  prevLogLikelihoodValues s).weightSequence
                (unifiedSequenceSize prevLogLikelihoodValues))
              (0 - 1 / 100000000) = true
            ∨ doubleGt
              (effectiveSizeRatioDouble
                (step3NextState Real.exp Real.log currOptions prevExponent
                  prevLogLikelihoodValues s).weightSequence
                (unifiedSequenceSize prevLogLikelihoodValues))
              (1 + 1 / 100000000) = true) →
          ∀ fuel, step3Loop Real.exp Real.log currOptions prevExponent
              prevLogLikelihoodValues (fuel + 1) s
            = Outcome.fatal FatalError.effectiveSizeRatioAboveOne)
      ∧ (∀ r, effectiveSizeRatioDouble
              (step3NextState Real.exp Real.log currOptions prevExponent
                prevLogLikelihoodValues s).weightSequence
              (unifiedSequenceSize prevLogLikelihoodValues) = DoubleValue.finite r →
          0 ≤ r → r ≤ 1 + 1 / 100000000 →
          step3Attempt Real.exp Real.log currOptions prevExponent prevLogLikelihoodValues s
            = Outcome.returned
                (step3NextState Real.exp Real.log currOptions prevExponent
                  prevLogLikelihoodValues s))
      ∧ (∀ fuel m_logEvidenceFactors,
          generateSequence_Step3 Real.exp Real.log (fuel + 1) currOptions
              prevLogLikelihoodValues prevExponent m_logEvidenceFactors
            = Outcome.fatal FatalError.effectiveSizeRatioAboveOne
          ↔ unifiedSequenceSize prevLogLikelihoodValues = 0) := by
  have hd := nextState_ratio_double currOptions prevExponent prevLogLikelihoodValues s
  have hempty : ∀ s1 : Step3State ℝ, unifiedSequenceSize prevLogLikelihoodValues = 0 →
      step3Attempt Real.exp Real.log currOptions prevExponent prevLogLikelihoodValues s1
        = Outcome.fatal FatalError.effectiveSizeRatioAboveOne := by
    intro s1 h0
    unfold step3Attempt
    rw [if_pos]
    rw [(nextState_ratio_double currOptions prevExponent prevLogLikelihoodValues s1).1 h0]
    rfl
  have hiff : step3Attempt Real.exp Real.log currOptions prevExponent prevLogLikelihoodValues s
        = Outcome.fatal FatalError.effectiveSizeRatioAboveOne
      ↔ unifiedSequenceSize prevLogLikelihoodValues = 0 := by
    constructor
    · intro h
      by_contra hne
      rw [step3Attempt_real currOptions prevExponent prevLogLikelihoodValues s
        (Nat.pos_of_ne_zero hne)] at h
      exact Outcome.noConfusion h
    · exact hempty s
  have hfatal : (∃ e, step3Attempt Real.exp Real.log currOptions prevExponent
        prevLogLikelihoodValues s = Outcome.fatal e)
      ↔ doubleGt
          (effectiveSizeRatioDouble
            (step3NextState Real.exp Real.log currOptions prevExponent
              prevLogLikelihoodValues s).weightSequence
            (unifiedSequenceSize prevLogLikelihoodValues))
          (1 + 1 / 100000000) = true := by
    unfold step3Attempt
    constructor
    · rintro ⟨e, he⟩
      by_contra hgt
      rw [if_neg hgt] at he
      exact Outcome.noConfusion he
    · intro hgt
      rw [if_pos hgt]
      exact ⟨_, rfl⟩
  have hlt : ∀ y : ℝ, y ≤ 0 → doubleLt
      (effectiveSizeRatioDouble
        (step3NextState Real.exp Real.log currOptions prevExponent prevLogLikelihoodValues
          s).weightSequence
        (unifiedSequenceSize prevLogLikelihoodValues)) y = false := by
    intro y hy
    rcases Nat.eq_zero_or_pos (unifiedSequenceSize prevLogLikelihoodValues) with h0 | hN
    · rw [hd.1 h0]
      rfl
    · obtain ⟨h1, h2, _⟩ := hd.2 hN
      rw [h1]
      simp only [doubleLt, decide_eq_false_iff_not, not_lt]
      exact le_trans hy h2.le
  refine ⟨hd.1, hd.2, hlt 0 le_rfl, hfatal, hiff, ?_, ?_, ?_⟩
  · rintro (hl | hgt) fuel
    · rw [hlt _ (by norm_num)] at hl
      exact absurd hl (by decide)
    · unfold step3Loop step3Attempt
      rw [if_pos hgt]
  · intro r hr _ hle
    unfold step3Attempt
    rw [hr, if_neg]
    simp only [doubleGt, decide_eq_true_eq, not_lt]
    exact hle
  · intro fuel L
    constructor
    · intro h
      by_contra hne
      unfold generateSequence_Step3 at h
      cases hl : step3Loop Real.exp Real.log currOptions prevExponent prevLogLikelihoodValues
          (fuel + 1) (step3Init prevExponent) with
      | returned s1 => rw [hl] at h; exact Outcome.noConfusion h
      | running => rw [hl] at h; exact Outcome.noConfusion h
      | fatal e =>
        exact step3Loop_real_not_fatal currOptions prevExponent prevLogLikelihoodValues
          (Nat.pos_of_ne_zero hne) _ _ e hl
    · intro h0
      unfold generateSequence_Step3 step3Loop
      rw [hempty _ h0]

/-- Witness of C21: on two ranks that hold no position the run of step 3
aborts on the ratio test in its first iteration, the ratio being `INFINITY`;
on two ranks that hold one zero log-likelihood each it does not. -/
theorem step3_ratio_fatal_test_witness :
    generateSequence_Step3 Real.exp Real.log 1 (exampleOptions ℝ) [[], []] 0 []
        = Outcome.fatal FatalError.effectiveSizeRatioAboveOne
      ∧ effectiveSizeRatioDouble
          (step3NextState Real.exp Real.log (exampleOptions ℝ) 0 [[], []]
            (step3Init 0)).weightSequence
          (unifiedSequenceSize ([[], []] : List (List ℝ))) = DoubleValue.posInfinity
      ∧ step3Attempt Real.exp Real.log (exampleOptions ℝ) 0 [[0], [0]] (step3Init 0)
        ≠ Outcome.fatal FatalError.effectiveSizeRatioAboveOne :=
  ⟨((step3_ratio_fatal_test (exampleOptions ℝ) 0 [[], []] (step3Init 0)).2.2.2.2.2.2.2 0
      []).mpr (by simp [unifiedSequenceSize]),
    (step3_ratio_fatal_test (exampleOptions ℝ) 0 [[], []] (step3Init 0)).1
      (by simp [unifiedSequenceSize]),
    fun h => absurd
      ((step3_ratio_fatal_test (exampleOptions ℝ) 0 [[0], [0]] (step3Init 0)).2.2.2.2.1.mp h)
      (by rw [example_size]; norm_num)⟩


theorem foldl_max_spec {K : Type} [LinearOrderedField K] (l : List K) :
    ∀ a : K, a ≤ l.foldl max a ∧ (∀ x ∈ l, x ≤ l.foldl max a)
      ∧ (l.foldl max a = a ∨ l.foldl max a ∈ l) := by
  induction l with
  | nil => intro a; simp
  | cons y l ih =>
    intro a
    obtain ⟨h1, h2, h3⟩ := ih (max a y)
    rw [List.foldl_cons]
    refine ⟨le_trans (le_max_left a y) h1, ?_, ?_⟩
    · intro x hx
      rcases List.mem_cons.mp hx with rfl | hx
      · exact le_trans (le_max_right a x) h1
      · exact h2 x hx
    · rcases h3 with h3 | h3
      · rcases max_choice a y with hm | hm
        · left; rw [h3, hm]
        · right; rw [h3, hm]; exact List.mem_cons_self _ _
      · right; exact List.mem_cons_of_mem _ h3

theorem unifiedMax_spec {K : Type} [LinearOrderedField K] (seq : List (List K))
    (hne : seq.flatten ≠ []) :
    unifiedMax seq ∈ seq.flatten ∧ ∀ x ∈ seq.flatten, x ≤ unifiedMax seq := by
  unfold unifiedMax
  cases hfl : seq.flatten with
  | nil => exact absurd hfl hne
  | cons y l =>
    simp only
    obtain ⟨h1, h2, h3⟩ := foldl_max_spec l y
    constructor
    · rcases h3 with h3 | h3
      · rw [h3]; exact List.mem_cons_self _ _
      · exact List.mem_cons_of_mem _ h3
    · intro x hx
      rcases List.mem_cons.mp hx with rfl | hx
      · exact h1
      · exact h2 x hx

/-- C28: for a globally non-empty sequence of previous log-likelihoods of
global size `N` and any candidate exponent, the sum of the max-shifted
un-normalised weights of step 3 lies in `[1, N]`; so the divisor that
normalises the weights and the argument of the logarithm in the evidence
factor are positive, as are `N` (argument of the second logarithm, and
divisor of the effective sample size) and the sum of the squared weights, of
which the effective sample size is the reciprocal. -/
theorem step3_weight_ratio_sum_bounds (prevExponent : ℝ)
    (prevLogLikelihoodValues : List (List ℝ)) (nowExponent : ℝ)
    (h : 0 < unifiedSequenceSize prevLogLikelihoodValues) :
    1 ≤ unifiedWeightRatioSum Real.exp prevExponent prevLogLikelihoodValues nowExponent
      ∧ unifiedWeightRatioSum Real.exp prevExponent prevLogLikelihoodValues nowExponent
        ≤ (unifiedSequenceSize prevLogLikelihoodValues : ℝ)
      ∧ 0 < unifiedWeightRatioSum Real.exp prevExponent prevLogLikelihoodValues nowExponent
      ∧ (0 : ℝ) < (unifiedSequenceSize prevLogLikelihoodValues : ℝ)
      ∧ 0 < mpiAllreduceSum
          ((step3Candidate Real.exp Real.log prevExponent prevLogLikelihoodValues
              nowExponent).weightSequence.map
            (fun sub => subSum (sub.map (fun w => w * w)))) := by
  have hne : (omegaLnDiffSequence prevExponent prevLogLikelihoodValues nowExponent).flatten
      ≠ [] := by
    rw [flatten_omegaLnDiffSequence]
    simpa using flatten_ne_nil_of_size_pos prevLogLikelihoodValues h
  obtain ⟨hmem, hmax⟩ := unifiedMax_spec _ hne
  have hlen : ((omegaLnDiffSequence prevExponent prevLogLikelihoodValues
      nowExponent).flatten.map (fun x => Real.exp (x - unifiedMax
        (omegaLnDiffSequence prevExponent prevLogLikelihoodValues nowExponent)))).length
      = unifiedSequenceSize prevLogLikelihoodValues := by
    rw [List.length_map, flatten_omegaLnDiffSequence, List.length_map, unifiedSequenceSize_eq]
  have h1 : 1 ≤ unifiedWeightRatioSum Real.exp prevExponent prevLogLikelihoodValues
      nowExponent := by
    rw [unifiedWeightRatioSum_shift]
    have hone : (1 : ℝ) ∈ (omegaLnDiffSequence prevExponent prevLogLikelihoodValues
        nowExponent).flatten.map (fun x => Real.exp (x - unifiedMax
          (omegaLnDiffSequence prevExponent prevLogLikelihoodValues nowExponent))) :=
      List.mem_map.mpr ⟨_, hmem, by simp⟩
    refine List.single_le_sum ?_ 1 hone
    intro y hy
    obtain ⟨x, _, rfl⟩ := List.mem_map.mp hy
    exact (Real.exp_pos _).le
  have h2 : unifiedWeightRatioSum Real.exp prevExponent prevLogLikelihoodValues nowExponent
      ≤ (unifiedSequenceSize prevLogLikelihoodValues : ℝ) := by
    rw [unifiedWeightRatioSum_shift]
    have hb := List.sum_le_card_nsmul ((omegaLnDiffSequence prevExponent
      prevLogLikelihoodValues nowExponent).flatten.map (fun x => Real.exp (x - unifiedMax
        (omegaLnDiffSequence prevExponent prevLogLikelihoodValues nowExponent)))) 1
      (by
        intro y hy
        obtain ⟨x, hx, rfl⟩ := List.mem_map.mp hy
        rw [← Real.exp_zero]
        exact Real.exp_le_exp.mpr (sub_nonpos.mpr (hmax x hx)))
    rw [hlen] at hb
    simpa using hb
  have hN : (0 : ℝ) < (unifiedSequenceSize prevLogLikelihoodValues : ℝ) := by
    exact_mod_cast h
  refine ⟨h1, h2, lt_of_lt_of_le zero_lt_one h1, hN, ?_⟩
  rw [sumSq_eq]
  have hpos := candidate_weights_nonneg prevExponent prevLogLikelihoodValues nowExponent h
  apply sum_pos_of_pos
  · have hl := candidate_weights_length Real.exp Real.log prevExponent prevLogLikelihoodValues
      nowExponent
    intro hnil
    have hz := congrArg List.length hnil
    rw [List.length_map, hl, List.length_nil] at hz
    omega
  · intro y hy
    obtain ⟨x, hx, rfl⟩ := List.mem_map.mp hy
    exact mul_pos (hpos x hx) (hpos x hx)

/-- Witness of C28 on two ranks that hold the log-likelihoods `0` and
`-10, -10` (`N = 3`), for the candidate exponent `1` after the exponent `0`. -/
theorem step3_weight_ratio_sum_bounds_witness :
    0 < unifiedSequenceSize ([[0], [-10, -10]] : List (List ℝ))
      ∧ 1 ≤ unifiedWeightRatioSum Real.exp 0 [[0], [-10, -10]] 1
      ∧ unifiedWeightRatioSum Real.exp 0 [[0], [-10, -10]] 1
        ≤ (unifiedSequenceSize ([[0], [-10, -10]] : List (List ℝ)) : ℝ)
      ∧ 0 < mpiAllreduceSum
          ((step3Candidate Real.exp Real.log 0 [[0], [-10, -10]] 1).weightSequence.map
            (fun sub => subSum (sub.map (fun w => w * w)))) :=
  ⟨by rw [example2_size]; norm_num,
    (step3_weight_ratio_sum_bounds 0 [[0], [-10, -10]] 1 (by rw [example2_size]; norm_num)).1,
    (step3_weight_ratio_sum_bounds 0 [[0], [-10, -10]] 1 (by rw [example2_size]; norm_num)).2.1,
    (step3_weight_ratio_sum_bounds 0 [[0], [-10, -10]] 1
      (by rw [example2_size]; norm_num)).2.2.2.2⟩

section Step4Psd
variable {K : Type} [LinearOrderedField K] {d : Nat}

theorem quad_list_sum {α : Type} (f : α → Fin d → Fin d → K) (L : List α) (v : Fin d → K) :
    ∑ i, ∑ j, v i * (L.map (fun a => f a i j)).sum * v j
      = (L.map (fun a => ∑ i, ∑ j, v i * f a i j * v j)).sum := by
  induction L with
  | nil => simp
  | cons a L ih =>
    simp only [List.map_cons, List.sum_cons, mul_add, add_mul, Finset.sum_add_distrib]
    rw [ih]

theorem quad_outer (w : K) (y v : Fin d → K) :
    ∑ i, ∑ j, v i * (w * (y i * y j)) * v j
      = w * ((∑ i, v i * y i) * (∑ i, v i * y i)) := by
  rw [Finset.sum_mul_sum, Finset.mul_sum]
  refine Finset.sum_congr rfl (fun i _ => ?_)
  rw [Finset.mul_sum]
  refine Finset.sum_congr rfl (fun j _ => ?_)
  ring

theorem subCovMatrix_symm (prevChain : List (Fin d → K)) (weightSequence : List K)
    (i j : Fin d) :
    subCovMatrix prevChain weightSequence i j = subCovMatrix prevChain weightSequence j i := by
  rw [subCovMatrix_eq]
  unfold specLocalWeightedCovariance
  congr 1
  rw [← map_zip_eq_zipWith, ← map_zip_eq_zipWith]
  refine List.map_congr_left (fun p _ => ?_)
  ring

theorem subCovMatrix_quad_nonneg (prevChain : List (Fin d → K)) (weightSequence : List K)
    (hw : ∀ w ∈ weightSequence, 0 ≤ w) (v : Fin d → K) :
    0 ≤ ∑ i, ∑ j, v i * subCovMatrix prevChain weightSequence i j * v j := by
  rw [subCovMatrix_eq]
  unfold specLocalWeightedCovariance
  have hz : ∀ i j, (List.zipWith
      (fun w x => w * ((x i - specLocalWeightedMean prevChain weightSequence i)
        * (x j - specLocalWeightedMean prevChain weightSequence j)))
      weightSequence prevChain)
      = (List.zip weightSequence prevChain).map
        (fun p => p.1 * ((p.2 i - specLocalWeightedMean prevChain weightSequence i)
          * (p.2 j - specLocalWeightedMean prevChain weightSequence j))) :=
    fun i j => (map_zip_eq_zipWith _ _ _).symm
  simp only [hz]
  rw [quad_list_sum (fun (p : K × (Fin d → K)) i j =>
    p.1 * ((p.2 i - specLocalWeightedMean prevChain weightSequence i)
      * (p.2 j - specLocalWeightedMean prevChain weightSequence j)))]
  apply sum_nonneg_of_nonneg
  intro y hy
  obtain ⟨p, hp, rfl⟩ := List.mem_map.mp hy
  rw [quad_outer]
  exact mul_nonneg (hw p.1 (List.of_mem_zip hp).1) (mul_self_nonneg _)

/-- C26: for every previous chain and weights `≥ 0`, on any number of
inter-group ranks and on any rank, the matrix `S` that step 4 writes to
`unifiedCovMatrix` is symmetric and positive semidefinite: `vᵀ S v ≥ 0` for
every vector `v`. -/
theorem step4_symmetric_psd (inter0 : List (List (Fin d → K) × List K)) (inter0Rank : Int)
    (prevChain : List (Fin d → K)) (weightSequence : List K)
    (hw : ∀ r ∈ inter0, ∀ w ∈ r.2, 0 ≤ w) (hown : ∀ w ∈ weightSequence, 0 ≤ w) :
    (∀ i j, generateSequence_Step4 inter0 inter0Rank prevChain weightSequence i j
        = generateSequence_Step4 inter0 inter0Rank prevChain weightSequence j i)
      ∧ ∀ v : Fin d → K,
        0 ≤ ∑ i, ∑ j,
          v i * generateSequence_Step4 inter0 inter0Rank prevChain weightSequence i j * v j := by
  by_cases hi : inter0Rank ≥ 0
  · have hS : ∀ i j, generateSequence_Step4 inter0 inter0Rank prevChain weightSequence i j
        = (inter0.map (fun r => subCovMatrix r.1 r.2 i j)).sum := by
      intro i j
      unfold generateSequence_Step4
      simp only [hi, if_true]
      exact mpiAllreduceSum_eq_sum _
    constructor
    · intro i j
      rw [hS, hS]
      congr 1
      exact List.map_congr_left (fun r _ => subCovMatrix_symm r.1 r.2 i j)
    · intro v
      simp only [hS]
      rw [quad_list_sum (fun (r : List (Fin d → K) × List K) i j => subCovMatrix r.1 r.2 i j)]
      apply sum_nonneg_of_nonneg
      intro y hy
      obtain ⟨r, hr, rfl⟩ := List.mem_map.mp hy
      exact subCovMatrix_quad_nonneg r.1 r.2 (hw r hr) v
  · have hS : ∀ i j, generateSequence_Step4 inter0 inter0Rank prevChain weightSequence i j
        = subCovMatrix prevChain weightSequence i j := by
      intro i j
      unfold generateSequence_Step4
      simp only [hi, if_false]
    constructor
    · intro i j
      rw [hS, hS]
      exact subCovMatrix_symm _ _ i j
    · intro v
      simp only [hS]
      exact subCovMatrix_quad_nonneg _ _ hown v

end Step4Psd

/-- Witness of C26 on the example of two ranks that hold the positions `0`
and `2` with weight `1/2` each. -/
theorem step4_symmetric_psd_witness :
    (∀ r ∈ step4Example ℚ, ∀ w ∈ r.2, 0 ≤ w)
      ∧ (∀ w ∈ ([1 / 2] : List ℚ), 0 ≤ w)
      ∧ (∀ i j, generateSequence_Step4 (step4Example ℚ) 0 [fun _ => 0] [1 / 2] i j
          = generateSequence_Step4 (step4Example ℚ) 0 [fun _ => 0] [1 / 2] j i)
      ∧ ∀ v : Fin 1 → ℚ,
        0 ≤ ∑ i, ∑ j,
          v i * generateSequence_Step4 (step4Example ℚ) 0 [fun _ => 0] [1 / 2] i j * v j := by
  have h1 : ∀ r ∈ step4Example ℚ, ∀ w ∈ r.2, 0 ≤ w := by
    intro r hr w hw
    simp [step4Example] at hr
    rcases hr with rfl | rfl
    · simp at hw; rw [hw]; norm_num
    · simp at hw; rw [hw]; norm_num
  have h2 : ∀ w ∈ ([1 / 2] : List ℚ), 0 ≤ w := by
    intro w hw
    simp at hw
    rw [hw]; norm_num
  exact ⟨h1, h2, step4_symmetric_psd (step4Example ℚ) 0 [fun _ => 0] [1 / 2] h1 h2⟩

/-- C24 (evaluation at the failing input): in dimension one, on two
inter-group ranks that each hold the single position `2` with weight `1/2`
(all positions are the same vector, the weights are `≥ 0` and sum to 1
globally), the local means are `1`, and step 4 writes the matrix `(1)`, whose
determinant is not zero. -/
theorem step4_same_positions_nonsingular :
    (∀ r ∈ step4SamePositionsExample ℚ, ∀ x ∈ r.1, x = fun _ => 2)
      ∧ (∀ r ∈ step4SamePositionsExample ℚ, ∀ w ∈ r.2, 0 ≤ w)
      ∧ (((step4SamePositionsExample ℚ).map (fun r => r.2)).flatten).sum = 1
      ∧ weightedMeanVec ([fun _ => 2] : List (Fin 1 → ℚ)) [1 / 2] 0 = 1
      ∧ generateSequence_Step4 (step4SamePositionsExample ℚ) 0 [fun _ => 2] [1 / 2] 0 0 = 1
      ∧ generateSequence_Step4 (step4SamePositionsExample ℚ) 1 [fun _ => 2] [1 / 2] 0 0 = 1
      ∧ Matrix.det (Matrix.of
          (generateSequence_Step4 (step4SamePositionsExample ℚ) 0 [fun _ => 2] [1 / 2]))
        ≠ 0 := by
  have hval : generateSequence_Step4 (step4SamePositionsExample ℚ) 0 [fun _ => 2] [1 / 2] 0 0
      = 1 := by
    norm_num [generateSequence_Step4, step4SamePositionsExample, subCovMatrix, weightedMeanVec,
      matrixProduct, mpiAllreduceSum]
  refine ⟨?_, ?_, ?_, ?_, hval, ?_, ?_⟩
  · intro r hr x hx
    simp [step4SamePositionsExample] at hr
    subst hr
    simpa using hx
  · intro r hr w hw
    simp [step4SamePositionsExample] at hr
    subst hr
    simp at hw
    rw [hw]
    norm_num
  · norm_num [step4SamePositionsExample]
  · norm_num [weightedMeanVec]
  · norm_num [generateSequence_Step4, step4SamePositionsExample, subCovMatrix, weightedMeanVec,
      matrixProduct, mpiAllreduceSum]
  · rw [Matrix.det_unique]
    simp only [Matrix.of_apply]
    have h0 : (default : Fin 1) = 0 := rfl
    rw [h0, hval]
    norm_num

section Step8Positive
variable {K : Type} [LinearOrderedField K] {d : Nat}

theorem step8EnterBracket_pos (s s1 : Step8State K d) (h : step8EnterBracket s = some s1)
    (hp : 0 < s.nowEta ∧ 0 < s.beforeEta ∧ 0 < s.etas0 ∧ 0 < s.etas1) :
    0 < s1.nowEta ∧ 0 < s1.beforeEta ∧ 0 < s1.etas0 ∧ 0 < s1.etas1 := by
  rcases step8EnterBracket_cases s s1 h with ⟨rfl, _⟩ | ⟨_, _, _, _, rfl⟩ | ⟨_, _, _, _, rfl⟩
  · exact hp
  · exact ⟨hp.1, hp.2.1, lt_min hp.2.1 hp.1, lt_max_of_lt_left hp.2.1⟩
  · exact ⟨hp.1, hp.2.1, lt_min hp.2.1 hp.1, lt_max_of_lt_left hp.2.1⟩

theorem step8NextEta_pos (mean : K) (s : Step8State K d)
    (hp : 0 < s.nowEta ∧ 0 < s.beforeEta ∧ 0 < s.etas0 ∧ 0 < s.etas1) :
    0 < (step8NextEta mean s).nowEta ∧ 0 < (step8NextEta mean s).beforeEta
      ∧ 0 < (step8NextEta mean s).etas0 ∧ 0 < (step8NextEta mean s).etas1 := by
  obtain ⟨h1, h2, h3, h4⟩ := hp
  unfold step8NextEta
  by_cases hm : s.useMiddlePointLogicForEta = false
  · rw [if_pos hm]
    refine ⟨?_, h1, h3, h4⟩
    show 0 < (if s.nowRejectionRateIsBelowRange = true then s.nowEta * 4 else s.nowEta / 4)
    split_ifs
    · exact mul_pos h1 (by norm_num)
    · exact div_pos h1 (by norm_num)
  · rw [if_neg hm]
    simp only
    have ha : 0 < (if (if s.nowRejectionRate > mean then decide (s.rejs0 > mean)
        else decide (s.rejs0 < mean)) = true then s.nowEta else s.etas0) := by
      split_ifs <;> assumption
    have hb : 0 < (if (if s.nowRejectionRate > mean then decide (s.rejs0 > mean)
        else decide (s.rejs0 < mean)) = true then s.etas1 else s.nowEta) := by
      split_ifs <;> assumption
    exact ⟨mul_pos (by norm_num) (add_pos ha hb), h1, ha, hb⟩

end Step8Positive

section Step8PositiveClaim
variable {K : Type} [LinearOrderedField K] [FloorRing K] {d : Nat}

theorem step8Attempt_pos (env : Step8Env K d) (mean : K) (cov : Fin d → Fin d → K)
    (s s1 : Step8State K d)
    (hp : 0 < s.nowEta ∧ 0 < s.beforeEta ∧ 0 < s.etas0 ∧ 0 < s.etas1)
    (h : step8Attempt env mean cov s = Step8Step.continued s1) :
    0 < s1.nowEta ∧ 0 < s1.beforeEta ∧ 0 < s1.etas0 ∧ 0 < s1.etas1 := by
  obtain ⟨flag, s0, size, rej, _, hu, _, rfl⟩ := step8Attempt_continued env mean cov s s1 h
  show 0 < s0.nowEta ∧ 0 < s0.beforeEta ∧ 0 < s0.etas0 ∧ 0 < s0.etas1
  unfold step8UpdateEta at hu
  split_ifs at hu
  · cases he : step8EnterBracket { s with nowRejectionRateIsBelowRange := flag } with
    | none => rw [he] at hu; simp at hu
    | some s2 =>
      rw [he] at hu
      have e := Option.some.inj hu
      subst e
      exact step8NextEta_pos mean s2 (step8EnterBracket_pos _ s2 he hp)
  · have e := Option.some.inj hu; subst e; exact hp
  · have e := Option.some.inj hu; subst e; exact hp

/-- C27: for every `prevEta > 0`, every candidate eta that step 8 tries, with
or without the middle point logic, is strictly positive, and so is the
returned `currEta` (exact arithmetic). -/
theorem step8_eta_positive (env : Step8Env K d) (fuel : Nat) (prevEta : K)
    (currOptions : uqMLSamplingLevelOptionsClass K) (unifiedCovMatrix : Fin d → Fin d → K)
    (hprev : 0 < prevEta) :
    (∀ t ∈ step8Trace env (meanRejectionRate currOptions) unifiedCovMatrix fuel
          (step8Init prevEta currOptions unifiedCovMatrix),
        0 < t.nowEta ∧ (t.useMiddlePointLogicForEta = true → 0 < t.etas0 ∧ 0 < t.etas1))
      ∧ ∀ res, generateSequence_Step8 env fuel prevEta currOptions unifiedCovMatrix
          = Step8Outcome.returned res → 0 < res.currEta := by
  have hall : ∀ t ∈ step8Trace env (meanRejectionRate currOptions) unifiedCovMatrix fuel
      (step8Init prevEta currOptions unifiedCovMatrix),
      0 < t.nowEta ∧ 0 < t.beforeEta ∧ 0 < t.etas0 ∧ 0 < t.etas1 := by
    refine step8Trace_forall env _ unifiedCovMatrix
      (fun s => 0 < s.nowEta ∧ 0 < s.beforeEta ∧ 0 < s.etas0 ∧ 0 < s.etas1)
      (fun s => 0 < s.nowEta ∧ 0 < s.beforeEta ∧ 0 < s.etas0 ∧ 0 < s.etas1)
      (fun s s1 hp h => ?_) fuel _ ?_
    · have := step8Attempt_pos env _ unifiedCovMatrix s s1 hp h
      exact ⟨this, fun _ => this⟩
    · exact ⟨hprev, hprev, hprev, zero_lt_one⟩
  constructor
  · intro t ht
    exact ⟨(hall t ht).1, fun _ => (hall t ht).2.2⟩
  · intro res hres
    obtain ⟨s, hs, _, he, _⟩ := generateSequence_Step8_last env fuel prevEta currOptions
      unifiedCovMatrix res hres
    rw [he]
    exact (hall s hs).1

end Step8PositiveClaim

/-- Witness of C27 on the example run of four attempts from `prevEta = 1`,
which tries `1`, `4`, `5/2` and returns `13/4`. -/
theorem step8_eta_positive_witness :
    (0 : ℚ) < 1
      ∧ (step8Trace step8ExampleEnv (meanRejectionRate (exampleOptions ℚ)) step8ExampleCov 4
          (step8Init 1 (exampleOptions ℚ) step8ExampleCov)).map (fun t => t.nowEta)
        = [1, 4, 5 / 2, 13 / 4]
      ∧ (∀ t ∈ step8Trace step8ExampleEnv (meanRejectionRate (exampleOptions ℚ))
            step8ExampleCov 4 (step8Init 1 (exampleOptions ℚ) step8ExampleCov),
          0 < t.nowEta ∧ (t.useMiddlePointLogicForEta = true → 0 < t.etas0 ∧ 0 < t.etas1)) :=
  ⟨by norm_num,
    by
      rw [example_trace]
      simp [step8ExampleState1, step8ExampleState2, step8ExampleState3, step8ExampleState4,
        step8Init],
    (step8_eta_positive step8ExampleEnv 4 1 (exampleOptions ℚ) step8ExampleCov
      (by norm_num)).1⟩

theorem step8RangeFlag_none_iff {K : Type} [LinearOrderedField K] {d : Nat}
    (s : Step8State K d) :
    step8RangeFlag s = none
      ↔ (s.currOptions.m_minRejectionRate ≤ s.nowRejectionRate
        ∧ s.nowRejectionRate ≤ s.currOptions.m_maxRejectionRate) := by
  unfold step8RangeFlag
  constructor
  · intro h
    split_ifs at h with h1 h2
    exact ⟨not_lt.mp h1, not_lt.mp h2⟩
  · rintro ⟨h1, h2⟩
    rw [if_neg (not_lt.mpr h1), if_neg (not_lt.mpr h2)]

section Step8RangeFatal
variable {K : Type} [LinearOrderedField K] [FloorRing K] {d : Nat}

theorem step8Pilot_not_rangeFatal (env : Step8Env K d) (cov : Fin d → Fin d → K)
    (s : Step8State K d) (o1 : uqMLSamplingLevelOptionsClass K) :
    step8Pilot env cov s ≠ Step8Step.aborted FatalError.rejectionRateInsideRange o1 := by
  intro h
  unfold step8Pilot at h
  simp only at h
  split at h
  · simp only [Step8Step.aborted.injEq] at h
    exact absurd h.1 (by decide)
  · cases hg : env.generateLinkedChains s.nowAttempt (matrixScale cov s.nowEta)
        (step8Override s.currOptions) with
    | aborted n =>
      rw [hg] at h
      simp only [Step8Step.aborted.injEq] at h
      exact absurd h.1 (by decide)
    | completed size rej =>
      rw [hg] at h
      simp only at h
      split at h
      · simp only [Step8Step.aborted.injEq] at h
        exact absurd h.1 (by decide)
      · split at h <;> exact Step8Step.noConfusion h

theorem step8Attempt_rangeFatal_iff (env : Step8Env K d) (mean : K) (cov : Fin d → Fin d → K)
    (s : Step8State K d) (o1 : uqMLSamplingLevelOptionsClass K) :
    step8Attempt env mean cov s = Step8Step.aborted FatalError.rejectionRateInsideRange o1
      ↔ (step8RangeFlag s = none ∧ o1 = s.currOptions) := by
  constructor
  · intro h
    unfold step8Attempt at h
    cases hf : step8RangeFlag s with
    | none =>
      rw [hf] at h
      simp only [Step8Step.aborted.injEq] at h
      exact ⟨rfl, h.2.symm⟩
    | some flag =>
      rw [hf] at h
      simp only at h
      exfalso
      cases hu : step8UpdateEta env mean { s with nowRejectionRateIsBelowRange := flag } with
      | none =>
        rw [hu] at h
        simp only [Step8Step.aborted.injEq] at h
        exact absurd h.1 (by decide)
      | some s1 =>
        rw [hu] at h
        exact step8Pilot_not_rangeFatal env cov s1 o1 h
  · rintro ⟨hf, rfl⟩
    unfold step8Attempt
    rw [hf]

/-- When `0` lies in the rejection window the first iteration of step 8 ends
on the fatal test of lines 650-661, before any pilot is run. -/
theorem step8_first_iteration_fatal (env : Step8Env K d) (fuel : Nat) (prevEta : K)
    (currOptions : uqMLSamplingLevelOptionsClass K) (unifiedCovMatrix : Fin d → Fin d → K)
    (hw : currOptions.m_minRejectionRate ≤ 0 ∧ 0 ≤ currOptions.m_maxRejectionRate) :
    generateSequence_Step8 env (fuel + 1) prevEta currOptions unifiedCovMatrix
        = Step8Outcome.fatal FatalError.rejectionRateInsideRange currOptions
      ∧ step8Trace env (meanRejectionRate currOptions) unifiedCovMatrix (fuel + 1)
        (step8Init prevEta currOptions unifiedCovMatrix) = [] := by
  have ha := (step8Attempt_rangeFatal_iff env (meanRejectionRate currOptions)
    unifiedCovMatrix (step8Init prevEta currOptions unifiedCovMatrix) currOptions).mpr
    ⟨(step8RangeFlag_none_iff _).mpr hw, rfl⟩
  constructor
  · unfold generateSequence_Step8 step8Loop
    rw [ha]
  · unfold step8Trace
    rw [ha]

/-- C12: whenever step 8 returns on an inter-group rank, the last pilot, run
with the entry matrix scaled by the returned `currEta`, has counted rejections
whose rate, the sum of the counts over the inter-group ranks divided by
`n_pilot * P` (both in `unsigned int` arithmetic, hence the plain quotient when
neither wraps, with the pilot length `n_pilot` that line 767 computes in
`double` arithmetic), lies in `[minRejectionRate, maxRejectionRate]`; the
divisor is not `0`. -/
theorem step8_accepted_rate (env : Step8Env K d) (fuel : Nat) (prevEta : K)
    (currOptions : uqMLSamplingLevelOptionsClass K) (unifiedCovMatrix : Fin d → Fin d → K)
    (res : Step8Result K d) (hi : env.inter0Rank ≥ 0)
    (h : generateSequence_Step8 env fuel prevEta currOptions unifiedCovMatrix
      = Step8Outcome.returned res) :
    ∃ size rej,
      env.generateLinkedChains (res.nowAttempt - 1) (matrixScale unifiedCovMatrix res.currEta)
          (step8Override currOptions) = PilotGeneration.completed size rej
      ∧ res.nowRejectionRate
        = ((rej.sum % 2 ^ 32 : Nat) : K)
          / ((uintMul (originalSubNumSamples env.undefinedConversion currOptions)
              env.numProc : Nat) : K)
      ∧ (rej.sum < 2 ^ 32 →
          originalSubNumSamples env.undefinedConversion currOptions * env.numProc < 2 ^ 32 →
          res.nowRejectionRate
            = (rej.sum : K)
              / ((originalSubNumSamples env.undefinedConversion currOptions : Nat)
                * (env.numProc : K)))
      ∧ currOptions.m_minRejectionRate ≤ res.nowRejectionRate
      ∧ res.nowRejectionRate ≤ currOptions.m_maxRejectionRate
      ∧ uintMul (originalSubNumSamples env.undefinedConversion currOptions) env.numProc
        ≠ 0 := by
  obtain ⟨s, hmem, hacc, h1, _, _, h4, h5⟩ :=
    generateSequence_Step8_last env fuel prevEta currOptions unifiedCovMatrix res h
  obtain ⟨_, _, _, _, size, rej, hg, hr⟩ :=
    step8Trace_basic env prevEta currOptions unifiedCovMatrix fuel s hmem
  obtain ⟨hrate, htest⟩ := hr hi
  have hrate2 : res.nowRejectionRate
      = ((rej.sum % 2 ^ 32 : Nat) : K)
        / ((uintMul (originalSubNumSamples env.undefinedConversion currOptions)
            env.numProc : Nat) : K) := by
    rw [h4, hrate, step8RejectionRate, foldl_uintAdd rej 0 (by norm_num), Nat.zero_add]
    rfl
  have hwin : currOptions.m_minRejectionRate ≤ res.nowRejectionRate
      ∧ res.nowRejectionRate ≤ currOptions.m_maxRejectionRate := by
    rw [hacc] at htest
    have := htest.symm
    simp only [Bool.and_eq_true, decide_eq_true_eq, ge_iff_le] at this
    rw [h4]; exact this
  refine ⟨size, rej, ?_, hrate2, ?_, hwin.1, hwin.2, ?_⟩
  · rw [h5, h1]; exact hg
  · intro hs hn
    rw [hrate2, Nat.mod_eq_of_lt hs, uintMul, Nat.mod_eq_of_lt hn]
    push_cast
    rfl
  · intro h0
    have hz : res.nowRejectionRate = 0 := by
      rw [hrate2, h0]
      simp
    rw [hz] at hwin
    cases fuel with
    | zero => exact Step8Outcome.noConfusion h
    | succ n =>
      rw [(step8_first_iteration_fatal env n prevEta currOptions unifiedCovMatrix hwin).1] at h
      exact Step8Outcome.noConfusion h

end Step8RangeFatal

theorem roundedQuotient_originalSubNumSamples (u : Nat) :
    originalSubNumSamples u (roundedQuotientOptions ℚ) = 6 := by
  rw [originalSubNumSamples_of_quotient u (roundedQuotientOptions ℚ) _
    roundedQuotient_pilotLengthQuotient.2 (by norm_num) (by norm_num)]
  have hfl : ⌊(6755399441055743 / 1125899906842624 : ℚ)⌋₊ = 5 := by
    rw [Nat.floor_eq_iff (by norm_num)]
    norm_num
  rw [hfl]

/-- The run of step 8 on a single inter-group rank with the window
`[3/10, 1/2]` and `c = 1/2`: the pilot of the first attempt has length `6`,
counts `2` rejections and is accepted with the rate `2/6`. -/
theorem roundedQuotient_run :
    generateSequence_Step8 step8SingleRankEnv 1 1 (roundedQuotientOptions ℚ) step8ExampleCov
      = Step8Outcome.returned
          ⟨1, step8ExampleCov, roundedQuotientOptions ℚ, 1 / 3, 1⟩ := by
  have h1 : tmpUnifiedNumSamples step8SingleRankEnv (roundedQuotientOptions ℚ) = 6 := by
    simp only [tmpUnifiedNumSamples, roundedQuotient_originalSubNumSamples]
    rfl
  have hr : step8RejectionRate step8SingleRankEnv (roundedQuotientOptions ℚ) [2] = 1 / 3 := by
    have h2 : [2].foldl uintAdd 0 = 2 := rfl
    rw [step8RejectionRate, h1, h2]
    norm_num
  have hg : ∀ k m o, step8SingleRankEnv.generateLinkedChains k m o
      = PilotGeneration.completed 6 [2] := fun _ _ _ => rfl
  have hrank : step8SingleRankEnv.inter0Rank = 0 := rfl
  have hnull : ∀ k, step8SingleRankEnv.nullInitialPosition k = false := fun _ => rfl
  have hidx : ∀ k, step8SingleRankEnv.indexCountersSize k = 4 := fun _ => rfl
  have hw : step8SingleRankEnv.weightUnifiedSize = 4 := rfl
  have hmin : (roundedQuotientOptions ℚ).m_minRejectionRate = 3 / 10 := rfl
  have hmax : (roundedQuotientOptions ℚ).m_maxRejectionRate = 1 / 2 := rfl
  have hatt : step8Attempt step8SingleRankEnv (meanRejectionRate (roundedQuotientOptions ℚ))
      step8ExampleCov (step8Init 1 (roundedQuotientOptions ℚ) step8ExampleCov)
      = Step8Step.continued
        { step8Init 1 (roundedQuotientOptions ℚ) step8ExampleCov with
          nowCovMatrix := matrixScale step8ExampleCov 1
          pilotOptions := step8Override (roundedQuotientOptions ℚ)
          nowRejectionRate := 1 / 3
          testResult := true
          nowAttempt := 1 } := by
    simp [step8Attempt, step8RangeFlag, step8UpdateEta, step8Pilot, step8Init,
      step8Restore_override, hg, hr, hrank, hnull, hidx, hw, hmin, hmax]
    try norm_num [hg, hr, hmin, hmax]
  rw [generateSequence_Step8, step8Loop, hatt]
  simp only [step8Init]
  rw [if_neg (by decide)]
  simp

/-- Witness of C12. On the example run, four attempts, the last pilot run with
`eta = 13/4` counts `9 + 9` rejections out of `30 * 2` positions. On a single
rank with the window `[3/10, 1/2]` and `c = 1/2` the pilot length is `6`, and
the run returns at its first attempt with the rate `2/6`. -/
theorem step8_accepted_rate_witness :
    step8ExampleEnv.inter0Rank ≥ 0
      ∧ (∃ size rej,
        step8ExampleEnv.generateLinkedChains (4 - 1) (matrixScale step8ExampleCov (13 / 4))
            (step8Override (exampleOptions ℚ)) = PilotGeneration.completed size rej
        ∧ (3 / 10 : ℚ)
          = ((rej.sum % 2 ^ 32 : Nat) : ℚ)
            / ((uintMul (originalSubNumSamples step8ExampleEnv.undefinedConversion
                  (exampleOptions ℚ)) step8ExampleEnv.numProc : Nat) : ℚ)
        ∧ (rej.sum < 2 ^ 32 →
            originalSubNumSamples step8ExampleEnv.undefinedConversion (exampleOptions ℚ)
                * step8ExampleEnv.numProc < 2 ^ 32 →
            (3 / 10 : ℚ)
              = (rej.sum : ℚ)
                / ((originalSubNumSamples step8ExampleEnv.undefinedConversion
                      (exampleOptions ℚ) : Nat) * (step8ExampleEnv.numProc : ℚ)))
        ∧ (exampleOptions ℚ).m_minRejectionRate ≤ 3 / 10
        ∧ (3 / 10 : ℚ) ≤ (exampleOptions ℚ).m_maxRejectionRate
        ∧ uintMul (originalSubNumSamples step8ExampleEnv.undefinedConversion
            (exampleOptions ℚ)) step8ExampleEnv.numProc ≠ 0)
      ∧ step8SingleRankEnv.inter0Rank ≥ 0
      ∧ originalSubNumSamples step8SingleRankEnv.undefinedConversion
          (roundedQuotientOptions ℚ) = 6
      ∧ (∃ size rej,
        step8SingleRankEnv.generateLinkedChains (1 - 1) (matrixScale step8ExampleCov 1)
            (step8Override (roundedQuotientOptions ℚ)) = PilotGeneration.completed size rej
        ∧ (1 / 3 : ℚ)
          = ((rej.sum % 2 ^ 32 : Nat) : ℚ)
            / ((uintMul (originalSubNumSamples step8SingleRankEnv.undefinedConversion
                  (roundedQuotientOptions ℚ)) step8SingleRankEnv.numProc : Nat) : ℚ)
        ∧ (rej.sum < 2 ^ 32 →
            originalSubNumSamples step8SingleRankEnv.undefinedConversion
                (roundedQuotientOptions ℚ) * step8SingleRankEnv.numProc < 2 ^ 32 →
            (1 / 3 : ℚ)
              = (rej.sum : ℚ)
                / ((originalSubNumSamples step8SingleRankEnv.undefinedConversion
                      (roundedQuotientOptions ℚ) : Nat) * (step8SingleRankEnv.numProc : ℚ)))
        ∧ (roundedQuotientOptions ℚ).m_minRejectionRate ≤ 1 / 3
        ∧ (1 / 3 : ℚ) ≤ (roundedQuotientOptions ℚ).m_maxRejectionRate
        ∧ uintMul (originalSubNumSamples step8SingleRankEnv.undefinedConversion
            (roundedQuotientOptions ℚ)) step8SingleRankEnv.numProc ≠ 0) :=
  ⟨by decide, step8_accepted_rate step8ExampleEnv 4 1 (exampleOptions ℚ) step8ExampleCov
    ⟨13 / 4, matrixScale step8ExampleCov (13 / 4), exampleOptions ℚ, 3 / 10, 4⟩ (by decide)
    example_step8_run,
    by decide, roundedQuotient_originalSubNumSamples _,
    step8_accepted_rate step8SingleRankEnv 1 1 (roundedQuotientOptions ℚ) step8ExampleCov
      ⟨1, step8ExampleCov, roundedQuotientOptions ℚ, 1 / 3, 1⟩ (by decide)
      roundedQuotient_run⟩

section Step8Flag
variable {K : Type} [LinearOrderedField K] {d : Nat}

theorem step8NextEta_flag (mean : K) (s : Step8State K d) (b : Bool) :
    step8NextEta mean { s with beforeRejectionRateIsBelowRange := b } = step8NextEta mean s := by
  unfold step8NextEta
  split_ifs <;> rfl

theorem step8EnterBracket_second (s : Step8State K d) (h1 : s.nowAttempt = 1) :
    step8EnterBracket s = some s := by
  unfold step8EnterBracket
  split_ifs <;> rfl

theorem step8UpdateEta_skip (env : Step8Env K d) (mean : K) (s : Step8State K d)
    (h : s.nowAttempt = 0 ∨ ¬ env.inter0Rank ≥ 0) :
    step8UpdateEta env mean s = some s := by
  unfold step8UpdateEta
  split_ifs with h1 h2
  · rcases h with h | h
    · omega
    · exact absurd h1 h
  · rfl
  · rfl

theorem step8UpdateEta_second (env : Step8Env K d) (mean : K) (s : Step8State K d)
    (hi : env.inter0Rank ≥ 0) (h1 : s.nowAttempt = 1) :
    step8UpdateEta env mean s = some (step8NextEta mean s) := by
  unfold step8UpdateEta
  rw [if_pos hi, if_pos (by omega), step8EnterBracket_second s h1]

end Step8Flag

theorem step8SameButFlag_refl {K : Type} {d : Nat} (env : Step8Env K d) (s : Step8State K d) :
    Step8SameButFlag env s s :=
  ⟨rfl, fun _ _ => rfl⟩

section Step8FlagLoop
variable {K : Type} [LinearOrderedField K] [FloorRing K] {d : Nat}

theorem step8Pilot_flag (env : Step8Env K d) (cov : Fin d → Fin d → K)
    (s : Step8State K d) (b : Bool) :
    (∀ t, step8Pilot env cov s = Step8Step.continued t →
        step8Pilot env cov { s with beforeRejectionRateIsBelowRange := b }
          = Step8Step.continued { t with beforeRejectionRateIsBelowRange := b })
      ∧ (∀ e o, step8Pilot env cov s = Step8Step.aborted e o →
        step8Pilot env cov { s with beforeRejectionRateIsBelowRange := b }
          = Step8Step.aborted e o) := by
  unfold step8Pilot
  simp only
  split
  · exact ⟨fun t h => Step8Step.noConfusion h, fun e o h => h⟩
  · cases env.generateLinkedChains s.nowAttempt (matrixScale cov s.nowEta)
        (step8Override s.currOptions) with
    | aborted n => exact ⟨fun t h => Step8Step.noConfusion h, fun e o h => h⟩
    | completed size rej =>
      simp only
      split
      · exact ⟨fun t h => Step8Step.noConfusion h, fun e o h => h⟩
      · split
        · refine ⟨fun t h => ?_, fun e o h => Step8Step.noConfusion h⟩
          have e := Step8Step.continued.inj h
          subst e
          rfl
        · refine ⟨fun t h => ?_, fun e o h => Step8Step.noConfusion h⟩
          have e := Step8Step.continued.inj h
          subst e
          rfl

theorem step8Attempt_flag_first (env : Step8Env K d) (mean : K) (cov : Fin d → Fin d → K)
    (s : Step8State K d) (b : Bool) (h : s.nowAttempt = 0 ∨ ¬ env.inter0Rank ≥ 0) :
    (∀ t, step8Attempt env mean cov s = Step8Step.continued t →
        step8Attempt env mean cov { s with beforeRejectionRateIsBelowRange := b }
          = Step8Step.continued { t with beforeRejectionRateIsBelowRange := b })
      ∧ (∀ e o, step8Attempt env mean cov s = Step8Step.aborted e o →
        step8Attempt env mean cov { s with beforeRejectionRateIsBelowRange := b }
          = Step8Step.aborted e o) := by
  have hf : step8RangeFlag { s with beforeRejectionRateIsBelowRange := b }
      = step8RangeFlag s := rfl
  unfold step8Attempt
  rw [hf]
  cases step8RangeFlag s with
  | none => exact ⟨fun t h => Step8Step.noConfusion h, fun e o h => h⟩
  | some flag =>
    simp only
    have e1 := step8UpdateEta_skip env mean { s with nowRejectionRateIsBelowRange := flag } h
    have e2 := step8UpdateEta_skip env mean
      { s with
        beforeRejectionRateIsBelowRange := b
        nowRejectionRateIsBelowRange := flag } h
    rw [e1, e2]
    exact step8Pilot_flag env cov { s with nowRejectionRateIsBelowRange := flag } b

theorem step8Attempt_flag_second (env : Step8Env K d) (mean : K) (cov : Fin d → Fin d → K)
    (s : Step8State K d) (b : Bool) (hi : env.inter0Rank ≥ 0) (h1 : s.nowAttempt = 1) :
    step8Attempt env mean cov { s with beforeRejectionRateIsBelowRange := b }
      = step8Attempt env mean cov s := by
  have hf : step8RangeFlag { s with beforeRejectionRateIsBelowRange := b }
      = step8RangeFlag s := rfl
  unfold step8Attempt
  rw [hf]
  cases step8RangeFlag s with
  | none => rfl
  | some flag =>
    simp only
    have e1 := step8UpdateEta_second env mean { s with nowRejectionRateIsBelowRange := flag }
      hi h1
    have e2 := step8UpdateEta_second env mean
      { s with
        beforeRejectionRateIsBelowRange := b
        nowRejectionRateIsBelowRange := flag } hi h1
    have hn : step8NextEta mean
        { s with
          beforeRejectionRateIsBelowRange := b
          nowRejectionRateIsBelowRange := flag }
        = step8NextEta mean { s with nowRejectionRateIsBelowRange := flag } :=
      step8NextEta_flag mean { s with nowRejectionRateIsBelowRange := flag } b
    rw [e1, e2, hn]

theorem step8Attempt_sameButFlag (env : Step8Env K d) (mean : K) (cov : Fin d → Fin d → K)
    (s s1 : Step8State K d) (hrel : Step8SameButFlag env s s1) :
    (∀ t, step8Attempt env mean cov s = Step8Step.continued t →
        ∃ t1, step8Attempt env mean cov s1 = Step8Step.continued t1
          ∧ Step8SameButFlag env t t1)
      ∧ (∀ e o, step8Attempt env mean cov s = Step8Step.aborted e o →
        step8Attempt env mean cov s1 = Step8Step.aborted e o) := by
  obtain ⟨h1, h2⟩ := hrel
  have hcon := congrArg (step8Attempt env mean cov) h1
  by_cases hi : env.inter0Rank ≥ 0
  · by_cases h0 : s.nowAttempt = 0
    · obtain ⟨ha, hb⟩ := step8Attempt_flag_first env mean cov s
        s1.beforeRejectionRateIsBelowRange (Or.inl h0)
      refine ⟨fun t ht => ⟨_, hcon.trans (ha t ht), rfl, fun _ h2t => ?_⟩,
        fun e o h => hcon.trans (hb e o h)⟩
      have := (step8_transition_first env mean cov s t h0 ht).2.2.2.2.2.1
      omega
    · by_cases h1a : s.nowAttempt = 1
      · have hs1 := hcon.trans (step8Attempt_flag_second env mean cov s
          s1.beforeRejectionRateIsBelowRange hi h1a)
        exact ⟨fun t ht => ⟨t, hs1.trans ht, step8SameButFlag_refl env t⟩,
          fun e o h => hs1.trans h⟩
      · rw [h2 hi (by omega)]
        exact ⟨fun t ht => ⟨t, ht, step8SameButFlag_refl env t⟩, fun e o h => h⟩
  · obtain ⟨ha, hb⟩ := step8Attempt_flag_first env mean cov s
      s1.beforeRejectionRateIsBelowRange (Or.inr hi)
    exact ⟨fun t ht => ⟨_, hcon.trans (ha t ht), rfl, fun h => absurd h hi⟩,
      fun e o h => hcon.trans (hb e o h)⟩

theorem step8Loop_sameButFlag (env : Step8Env K d) (mean : K) (cov : Fin d → Fin d → K) :
    ∀ fuel s s1, Step8SameButFlag env s s1 →
      (step8Trace env mean cov fuel s1).map (fun t => t.nowEta)
          = (step8Trace env mean cov fuel s).map (fun t => t.nowEta)
        ∧ (∀ t, step8Loop env mean cov fuel s = Step8Outcome.returned t →
            ∃ t1, step8Loop env mean cov fuel s1 = Step8Outcome.returned t1
              ∧ Step8SameButFlag env t t1)
        ∧ (∀ e o, step8Loop env mean cov fuel s = Step8Outcome.fatal e o →
            step8Loop env mean cov fuel s1 = Step8Outcome.fatal e o)
        ∧ (step8Loop env mean cov fuel s = Step8Outcome.running →
            step8Loop env mean cov fuel s1 = Step8Outcome.running) := by
  intro fuel
  induction fuel with
  | zero =>
    intro s s1 _
    exact ⟨rfl, fun t h => Step8Outcome.noConfusion h, fun e o h => Step8Outcome.noConfusion h,
      fun _ => rfl⟩
  | succ fuel ih =>
    intro s s1 hrel
    obtain ⟨hc, ha⟩ := step8Attempt_sameButFlag env mean cov s s1 hrel
    unfold step8Loop step8Trace
    cases hs : step8Attempt env mean cov s with
    | aborted e o =>
      rw [ha e o hs]
      exact ⟨rfl, fun t h => Step8Outcome.noConfusion h, fun e2 o2 h => h,
        fun h => Step8Outcome.noConfusion h⟩
    | continued t =>
      obtain ⟨t1, ht1, hrel1⟩ := hc t hs
      rw [ht1]
      simp only
      have heq := hrel1.1
      have htest : t1.testResult = t.testResult := by rw [heq]
      have heta : t1.nowEta = t.nowEta := by rw [heq]
      obtain ⟨i1, i2, i3, i4⟩ := ih t t1 hrel1
      rw [htest]
      by_cases hf : t.testResult = false
      · simp only [if_pos hf, List.map_cons, heta, i1]
        exact ⟨trivial, i2, i3, i4⟩
      · simp only [if_neg hf, List.map_cons, List.map_nil, heta]
        refine ⟨trivial, fun t2 h => ?_, fun e o h => Step8Outcome.noConfusion h,
          fun h => Step8Outcome.noConfusion h⟩
        have e := Step8Outcome.returned.inj h
        subst e
        exact ⟨t1, rfl, hrel1⟩

/-- The initial value of `beforeRejectionRateIsBelowRange` is never read: the
candidates tried by step 8 and its outcome are the same for both initial
values. -/
theorem step8_flag_independent (flag : Bool) (env : Step8Env K d) (fuel : Nat) (prevEta : K)
    (o : uqMLSamplingLevelOptionsClass K) (cov : Fin d → Fin d → K) :
    (step8Trace env (meanRejectionRate o) cov fuel (step8InitWithFlag flag prevEta o cov)).map
        (fun t => t.nowEta)
      = (step8Trace env (meanRejectionRate o) cov fuel (step8Init prevEta o cov)).map
        (fun t => t.nowEta)
    ∧ generateSequence_Step8_withFlag flag env fuel prevEta o cov
      = generateSequence_Step8 env fuel prevEta o cov := by
  have hrel : Step8SameButFlag env (step8Init prevEta o cov)
      (step8InitWithFlag flag prevEta o cov) :=
    ⟨rfl, fun _ h => absurd h (by simp [step8Init])⟩
  obtain ⟨h1, h2, h3, h4⟩ := step8Loop_sameButFlag env (meanRejectionRate o) cov fuel _ _ hrel
  refine ⟨h1, ?_⟩
  unfold generateSequence_Step8_withFlag generateSequence_Step8
  cases hl : step8Loop env (meanRejectionRate o) cov fuel (step8Init prevEta o cov) with
  | returned t =>
    obtain ⟨t1, ht1, hrel1⟩ := h2 t hl
    rw [ht1]
    simp only
    rw [hrel1.1]
  | fatal e o1 => rw [h3 e o1 hl]
  | running => rw [h4 hl]

end Step8FlagLoop

section Step8Unbounded
variable {K : Type} [LinearOrderedField K] [FloorRing K] {d : Nat}

theorem step8Loop_running_iff (env : Step8Env K d) (mean : K) (cov : Fin d → Fin d → K) :
    ∀ fuel s, step8Loop env mean cov fuel s = Step8Outcome.running
      ↔ ((step8Trace env mean cov fuel s).length = fuel
        ∧ ∀ t ∈ step8Trace env mean cov fuel s, t.testResult = false) := by
  intro fuel
  induction fuel with
  | zero =>
    intro s
    unfold step8Loop step8Trace
    simp
  | succ fuel ih =>
    intro s
    unfold step8Loop step8Trace
    cases ha : step8Attempt env mean cov s with
    | aborted e o => simp
    | continued t =>
      simp only
      by_cases hf : t.testResult = false
      · rw [if_pos hf, if_pos hf, ih t]
        simp [hf]
      · rw [if_neg hf, if_neg hf]
        simp [hf]

end Step8Unbounded

section Step8FinalClaims
variable {K : Type} [LinearOrderedField K] [FloorRing K] {d : Nat}

/-- C25 as amended: the initial value of `beforeRejectionRateIsBelowRange` has
no effect. The flag is read from the third iteration on, after the second
iteration has assigned it; for every rejection window and all pilot outcomes
the candidates tried by step 8, and its outcome, are the same whether line
614 initialises the flag with `true` or with `false`. -/
theorem step8_initial_flag_no_effect (env : Step8Env K d) (fuel : Nat) (prevEta : K)
    (currOptions : uqMLSamplingLevelOptionsClass K) (unifiedCovMatrix : Fin d → Fin d → K) :
    step8InitWithFlag true prevEta currOptions unifiedCovMatrix
        = step8Init prevEta currOptions unifiedCovMatrix
      ∧ (step8Trace env (meanRejectionRate currOptions) unifiedCovMatrix fuel
            (step8InitWithFlag false prevEta currOptions unifiedCovMatrix)).map
          (fun t => t.nowEta)
        = (step8Trace env (meanRejectionRate currOptions) unifiedCovMatrix fuel
            (step8Init prevEta currOptions unifiedCovMatrix)).map (fun t => t.nowEta)
      ∧ generateSequence_Step8_withFlag false env fuel prevEta currOptions unifiedCovMatrix
        = generateSequence_Step8 env fuel prevEta currOptions unifiedCovMatrix :=
  ⟨rfl, step8_flag_independent false env fuel prevEta currOptions unifiedCovMatrix⟩

end Step8FinalClaims

/-- C25 (counterexample): there are no surroundings, rejection window and
pilot outcomes for which the candidates tried by step 8 differ when
`beforeRejectionRateIsBelowRange` is initialised with `false` in place of
`true`. -/
theorem step8_initial_flag_never_read :
    ¬ ∃ (d : Nat) (env : Step8Env ℝ d) (fuel : Nat) (prevEta : ℝ)
        (currOptions : uqMLSamplingLevelOptionsClass ℝ) (unifiedCovMatrix : Fin d → Fin d → ℝ),
      (step8Trace env (meanRejectionRate currOptions) unifiedCovMatrix fuel
            (step8InitWithFlag false prevEta currOptions unifiedCovMatrix)).map
          (fun t => t.nowEta)
        ≠ (step8Trace env (meanRejectionRate currOptions) unifiedCovMatrix fuel
            (step8Init prevEta currOptions unifiedCovMatrix)).map (fun t => t.nowEta) := by
  rintro ⟨d, env, fuel, prevEta, o, cov, h⟩
  exact h (step8_flag_independent false env fuel prevEta o cov).1

section Step8Outside
variable {K : Type} [LinearOrderedField K] [FloorRing K] {d : Nat}

/-- On a rank outside the inter-group whose sub-communicator root never
broadcasts an accepted test, with `0 < minRejectionRate` and pilots that
complete, the loop of step 8 is still running after any number of attempts. -/
theorem step8Loop_outside (env : Step8Env K d) (cov : Fin d → Fin d → K)
    (o : uqMLSamplingLevelOptionsClass K)
    (ho : ¬ env.inter0Rank ≥ 0) (hmin : 0 < o.m_minRejectionRate)
    (hgen : ∀ k m o1, ∃ size rej,
      env.generateLinkedChains k m o1 = PilotGeneration.completed size rej)
    (hnull : ∀ k, env.nullInitialPosition k = false)
    (htest : ∀ k, env.subRootTestResult k = false) :
    ∀ fuel (s : Step8State K d), s.currOptions = o → s.nowRejectionRate = 0 →
      step8Loop env (meanRejectionRate o) cov fuel s = Step8Outcome.running := by
  intro fuel
  induction fuel with
  | zero => intro s _ _; rfl
  | succ fuel ih =>
    intro s h1 h2
    have hflag : step8RangeFlag s = some true := by
      unfold step8RangeFlag
      rw [if_pos (by rw [h2, h1]; exact hmin)]
    have hu : step8UpdateEta env (meanRejectionRate o)
        { s with nowRejectionRateIsBelowRange := true }
        = some { s with nowRejectionRateIsBelowRange := true } := by
      unfold step8UpdateEta
      rw [if_neg ho]
    obtain ⟨size, rej, hg⟩ := hgen s.nowAttempt (matrixScale cov s.nowEta)
      (step8Override s.currOptions)
    have h0 : ¬ env.inter0Rank = 0 := fun h => ho (by rw [h])
    have hatt : ∃ t, step8Attempt env (meanRejectionRate o) cov s = Step8Step.continued t
        ∧ t.testResult = false ∧ t.currOptions = o ∧ t.nowRejectionRate = 0 := by
      unfold step8Attempt
      rw [hflag]
      simp only
      rw [hu]
      simp only
      unfold step8Pilot
      simp only
      rw [if_neg (fun h => h0 h.1), hg]
      simp only [step8Restore_override]
      rw [hnull]
      simp only [Bool.false_eq_true, if_false]
      rw [if_neg ho]
      exact ⟨_, rfl, htest _, h1, h2⟩
    obtain ⟨t, ht, hf, g1, g2⟩ := hatt
    unfold step8Loop
    rw [ht]
    simp only
    rw [if_pos hf]
    exact ih t g1 g2

end Step8Outside

/-- C17 (counterexample): on a rank outside the inter-group, with
`prevEta = 2` and the window `[1/4, 9/20]`, three pilots are run, none is
accepted and the middle point logic is never in use, and every pilot is run
with `eta = 2`: the eta of a pilot is neither 4 times nor a quarter of the eta
of the pilot before it. -/
theorem step8_outside_rank_keeps_eta :
    ¬ step8OutsideEnv.inter0Rank ≥ 0
      ∧ (step8Trace step8OutsideEnv (meanRejectionRate (exampleOptions ℚ)) step8ExampleCov 3
          (step8Init 2 (exampleOptions ℚ) step8ExampleCov)).map (fun t => t.nowEta)
        = [2, 2, 2]
      ∧ (step8Trace step8OutsideEnv (meanRejectionRate (exampleOptions ℚ)) step8ExampleCov 3
          (step8Init 2 (exampleOptions ℚ) step8ExampleCov)).map
            (fun t => (t.useMiddlePointLogicForEta, t.testResult))
        = [(false, false), (false, false), (false, false)]
      ∧ ¬ List.Chain' (fun t1 t2 =>
          t2.useMiddlePointLogicForEta = false →
            (t2.nowEta = 4 * t1.nowEta ∨ t2.nowEta = t1.nowEta / 4))
        (step8Trace step8OutsideEnv (meanRejectionRate (exampleOptions ℚ)) step8ExampleCov 3
          (step8Init 2 (exampleOptions ℚ) step8ExampleCov)) := by
  have ho : ¬ step8OutsideEnv.inter0Rank ≥ 0 := by decide
  have hrun := step8Loop_outside step8OutsideEnv step8ExampleCov (exampleOptions ℚ) ho
    (by norm_num [exampleOptions]) (fun _ _ _ => ⟨_, _, rfl⟩) (fun _ => rfl) (fun _ => rfl)
    3 (step8Init 2 (exampleOptions ℚ) step8ExampleCov) rfl rfl
  obtain ⟨hlen, htest⟩ := (step8Loop_running_iff _ _ _ 3 _).mp hrun
  have hout := step8Trace_outside step8OutsideEnv (meanRejectionRate (exampleOptions ℚ))
    step8ExampleCov ho 2 3 (step8Init 2 (exampleOptions ℚ) step8ExampleCov) rfl rfl
  obtain ⟨a, b, c, habc⟩ := List.length_eq_three.mp hlen
  rw [habc] at hout htest ⊢
  have ha := hout a (by simp)
  have hb := hout b (by simp)
  have hc := hout c (by simp)
  have ta := htest a (by simp)
  have tb := htest b (by simp)
  have tc := htest c (by simp)
  refine ⟨ho, ?_, ?_, ?_⟩
  · simp [ha.1, hb.1, hc.1]
  · simp [ha.2, hb.2, hc.2, ta, tb, tc]
  · intro hch
    have h := (List.chain'_cons.mp hch).1 hb.2
    rw [ha.1, hb.1] at h
    norm_num at h

/-- Witness of C17 as amended. On the example run of four attempts on an
inter-group rank the second pilot is run with `eta = 4 * 1`; on a rank outside
the inter-group every pilot is run with `prevEta = 2`. -/
theorem step8_expansion_mode_witness :
    step8ExampleEnv.inter0Rank ≥ 0
      ∧ (step8Trace step8ExampleEnv (meanRejectionRate (exampleOptions ℚ)) step8ExampleCov 4
          (step8Init 1 (exampleOptions ℚ) step8ExampleCov)).length = 4
      ∧ List.Chain' (fun t1 t2 =>
          t2.useMiddlePointLogicForEta = false →
            (t1.nowRejectionRate < (exampleOptions ℚ).m_minRejectionRate →
                t2.nowEta = 4 * t1.nowEta)
            ∧ ((exampleOptions ℚ).m_minRejectionRate ≤ (exampleOptions ℚ).m_maxRejectionRate →
                t1.nowRejectionRate > (exampleOptions ℚ).m_maxRejectionRate →
                t2.nowEta = t1.nowEta / 4)
            ∧ (¬ t1.nowRejectionRate < (exampleOptions ℚ).m_minRejectionRate →
                t2.nowEta = t1.nowEta / 4))
        (step8Trace step8ExampleEnv (meanRejectionRate (exampleOptions ℚ)) step8ExampleCov 4
          (step8Init 1 (exampleOptions ℚ) step8ExampleCov))
      ∧ ¬ step8OutsideEnv.inter0Rank ≥ 0
      ∧ (step8Trace step8OutsideEnv (meanRejectionRate (exampleOptions ℚ)) step8ExampleCov 3
          (step8Init 2 (exampleOptions ℚ) step8ExampleCov)).length = 3
      ∧ (∀ t ∈ step8Trace step8OutsideEnv (meanRejectionRate (exampleOptions ℚ))
            step8ExampleCov 3 (step8Init 2 (exampleOptions ℚ) step8ExampleCov),
          t.nowEta = 2 ∧ t.useMiddlePointLogicForEta = false
            ∧ t.nowCovMatrix = matrixScale step8ExampleCov 2) :=
  ⟨by decide, by rw [example_trace]; rfl,
    (step8_expansion_mode step8ExampleEnv 4 1 (exampleOptions ℚ) step8ExampleCov).2.1
      (by decide),
    by decide,
    ((step8Loop_running_iff _ _ _ 3 _).mp
      (step8Loop_outside step8OutsideEnv step8ExampleCov (exampleOptions ℚ) (by decide)
        (by norm_num [exampleOptions]) (fun _ _ _ => ⟨_, _, rfl⟩) (fun _ => rfl)
        (fun _ => rfl) 3 (step8Init 2 (exampleOptions ℚ) step8ExampleCov) rfl rfl)).1,
    (step8_expansion_mode step8OutsideEnv 3 2 (exampleOptions ℚ) step8ExampleCov).2.2
      (by decide)⟩

end Queso
